import Mathlib

/-!
# ExchangeOs — shallow embedding of the matching-engine core

A shallow embedding of the limit-order matching engine of the ExchangeOs
repository (`src/engine/src/trade/Orderbook.ts` and the engine dispatcher in
`src/unnamed/part_013`), together with proofs and refutations of the frozen
specification claims.

Conventions of the embedding:
* All prices, quantities and balances are exact decimals; the repository keeps
  them as canonical decimal text and computes with an exact decimal utility
  module.  We model a decimal value as a rational number (`Rat`), and the
  decimal operations as operations on `Rat`.  Canonical decimal text is in
  bijection with its value, so string-keyed maps keyed by canonical prices are
  modelled as maps keyed by `Rat`.
* JavaScript `Map` objects whose iteration order is never observable are
  modelled as functions into `Option`.
* Methods that mutate `this` are modelled as functions returning the updated
  state; thrown exceptions are modelled with `Except` or an explicit success
  flag, carrying the partially mutated state exactly where the source leaves a
  partial mutation behind.
-/

namespace ExchangeOs

/-! ## Decimal arithmetic (`src/engine/src/utils/decimal.ts`)

Modelled from the spec: the decimal utility module itself is not under `src/`
(only its import sites are).  Per spec §4.1 it provides exact
`add`/`sub`/`mul`/`min` and ordered comparison on exact decimals (precision
≥ 28 significant digits; no claim exercises the precision bound, so the
operations are modelled as exact rational arithmetic).  The operation names
follow the import lists in `Orderbook.ts` and the engine file.

The operations are written with `mkRat` rather than `Rat`'s own `+`/`-`/`*`
so that they compute by kernel reduction; the `*_eq` bridge lemmas identify
them with the standard field operations of `ℚ`. -/

namespace Decimal

def add (a b : Rat) : Rat := mkRat (a.num * b.den + b.num * a.den) (a.den * b.den)

def subtract (a b : Rat) : Rat := mkRat (a.num * b.den - b.num * a.den) (a.den * b.den)

def multiply (a b : Rat) : Rat := mkRat (a.num * b.num) (a.den * b.den)

def isLess (a b : Rat) : Bool := a < b

def isGreater (a b : Rat) : Bool := b < a

def isLessOrEqual (a b : Rat) : Bool := a ≤ b

def isGreaterOrEqual (a b : Rat) : Bool := b ≤ a

def isZero (a : Rat) : Bool := a = 0

def isEqual (a b : Rat) : Bool := a = b

def min (a b : Rat) : Rat := if isLessOrEqual a b then a else b

theorem add_eq (a b : Rat) : add a b = a + b := (Rat.add_def' a b).symm

theorem subtract_eq (a b : Rat) : subtract a b = a - b := (Rat.sub_def' a b).symm

theorem multiply_eq (a b : Rat) : multiply a b = a * b := by
  rw [Rat.mul_def, Rat.normalize_eq_mkRat]; rfl

theorem min_eq (a b : Rat) : min a b = Min.min a b := by
  simp only [min, isLessOrEqual, min_def]
  by_cases h : a ≤ b <;> simp [h]

theorem isLess_iff (a b : Rat) : isLess a b = true ↔ a < b := by simp [isLess]

theorem isGreater_iff (a b : Rat) : isGreater a b = true ↔ b < a := by simp [isGreater]

theorem isLessOrEqual_iff (a b : Rat) : isLessOrEqual a b = true ↔ a ≤ b := by
  simp [isLessOrEqual]

theorem isGreaterOrEqual_iff (a b : Rat) : isGreaterOrEqual a b = true ↔ b ≤ a := by
  simp [isGreaterOrEqual]

theorem isEqual_iff (a b : Rat) : isEqual a b = true ↔ a = b := by simp [isEqual]

end Decimal

/-! ## Data model (`Orderbook.ts` interfaces) -/

/-- `"buy" | "sell"` -/
inductive Side where
  | buy
  | sell
deriving DecidableEq, Repr

/-- `interface Order` of `Orderbook.ts`: strings for price/quantity are
modelled by their decimal values. -/
structure Order where
  price : Rat
  quantity : Rat
  orderId : String
  filled : Rat
  side : Side
  userId : String
deriving DecidableEq, Repr

/-- `interface Fill` of `Orderbook.ts` (the source spells the maker order id
field `markerOrderId`). -/
structure Fill where
  price : Rat
  qty : Rat
  tradeId : Nat
  otherUserId : String
  markerOrderId : String
deriving DecidableEq, Repr

/-- `type SelfTradePreventionMode` -/
inductive SelfTradePreventionMode where
  | CANCEL_NEWEST
  | CANCEL_OLDEST
  | CANCEL_BOTH
deriving DecidableEq, Repr

/-- The `status` field of `AddOrderResult`. -/
inductive OrderStatus where
  | ACCEPTED
  | REJECTED
  | PARTIALLY_FILLED
deriving DecidableEq, Repr

/-- `interface AddOrderResult` -/
structure AddOrderResult where
  status : OrderStatus
  executedQty : Rat
  fills : List Fill
  rejectionReason : Option String := none
  cancelledOrders : Option (List String) := none
deriving DecidableEq, Repr

/-- A cached depth map (`Map<string, string>` keyed by canonical price text),
modelled as a partial function from price to aggregate quantity. -/
def DepthMap : Type := Rat → Option Rat

/-- `Map.get(price) || "0"` -/
def DepthMap.getD (m : DepthMap) (price : Rat) : Rat := (m price).getD 0

/-- `Orderbook.updateDepth` acting on one depth map: add `delta` at `price`,
deleting the key when the new value is ≤ 0. -/
def DepthMap.update (m : DepthMap) (price delta : Rat) : DepthMap :=
  let current := m.getD price
  let newValue := Decimal.add current delta
  if Decimal.isLessOrEqual newValue 0 then
    Function.update m price none
  else
    Function.update m price (some newValue)

/-- `Orderbook.rebuildDepthCache` for one side: fold over the orders,
accumulating `quantity - filled` per price (no deletion of zero keys). -/
def rebuildDepth (orders : List Order) : DepthMap :=
  orders.foldl
    (fun m o =>
      let remaining := Decimal.subtract o.quantity o.filled
      let current := m.getD o.price
      Function.update m o.price (some (Decimal.add current remaining)))
    (fun _ => none)

/-- `BASE_CURRENCY` of the engine file. -/
def BASE_CURRENCY : String := "INR"

/-- `class Orderbook` state. -/
structure Orderbook where
  bids : List Order
  asks : List Order
  baseAsset : String
  quoteAsset : String := BASE_CURRENCY
  lastTradeId : Nat
  currentPrice : Rat
  stpMode : SelfTradePreventionMode
  bidsDepth : DepthMap
  asksDepth : DepthMap

namespace Orderbook

/-- Bid comparator of `sortOrders`: descending by price.  The source uses the
runtime's stable sort; on price-sorted input (the only case the development
uses) any stable sort by the same comparator is the identity, so we model it
with insertion sort. -/
def sortBids (l : List Order) : List Order :=
  l.insertionSort (fun a b => Decimal.isGreaterOrEqual a.price b.price)

/-- Ask comparator of `sortOrders`: ascending by price. -/
def sortAsks (l : List Order) : List Order :=
  l.insertionSort (fun a b => Decimal.isLessOrEqual a.price b.price)

/-- The `Orderbook` constructor: stores the fields, sorts both sides and
rebuilds the depth caches.  `stpMode` defaults to `CANCEL_NEWEST`. -/
def create (baseAsset : String) (bids asks : List Order) (lastTradeId : Nat)
    (currentPrice : Rat)
    (stpMode : SelfTradePreventionMode := SelfTradePreventionMode.CANCEL_NEWEST) :
    Orderbook :=
  let bids := sortBids bids
  let asks := sortAsks asks
  { bids := bids
    asks := asks
    baseAsset := baseAsset
    lastTradeId := lastTradeId
    currentPrice := currentPrice
    stpMode := stpMode
    bidsDepth := rebuildDepth bids
    asksDepth := rebuildDepth asks }

/-- `ticker()` -/
def ticker (ob : Orderbook) : String := ob.baseAsset ++ "_" ++ ob.quoteAsset

/-- The record emitted by `getSnapshot()`: base asset, the two sequences, the
trade-id counter and the last price.  (The source does not include
`stpMode`.) -/
structure Snapshot where
  baseAsset : String
  bids : List Order
  asks : List Order
  lastTradeId : Nat
  currentPrice : Rat

/-- `getSnapshot()` -/
def getSnapshot (ob : Orderbook) : Snapshot :=
  { baseAsset := ob.baseAsset
    bids := ob.bids
    asks := ob.asks
    lastTradeId := ob.lastTradeId
    currentPrice := ob.currentPrice }

/-- Restoring a book from a snapshot record: the engine calls
`new Orderbook(o.baseAsset, o.bids, o.asks, o.lastTradeId, o.currentPrice)`,
leaving `stpMode` at its default. -/
def restore (s : Snapshot) : Orderbook :=
  create s.baseAsset s.bids s.asks s.lastTradeId s.currentPrice

/-- The `shouldGoLeft` test of `findInsertIndex`. -/
def shouldGoLeft (side : Side) (price : Rat) (o : Order) : Bool :=
  match side with
  | Side.buy => Decimal.isGreater price o.price
  | Side.sell => Decimal.isLess price o.price

/-- The `shouldGoLeft` test of the loop body at index `mid`, reading
`arr[mid]` (out of range — unreachable in the loop — gives `false`). -/
def goLeftAt (arr : List Order) (price : Rat) (side : Side) (j : Nat) : Bool :=
  match arr[j]? with
  | some o => shouldGoLeft side price o
  | none => false

/-- The binary-search loop of `findInsertIndex` (`while (low < high)`),
with `(low + high) >>> 1` modelled as natural floor division by 2. -/
def findInsertLoop (arr : List Order) (price : Rat) (side : Side)
    (low high : Nat) : Nat :=
  if h : low < high then
    if goLeftAt arr price side ((low + high) / 2) then
      findInsertLoop arr price side low ((low + high) / 2)
    else
      findInsertLoop arr price side ((low + high) / 2 + 1) high
  else
    low
termination_by high - low
decreasing_by
  · omega
  · omega

/-- `findInsertIndex(arr, price, side)` -/
def findInsertIndex (arr : List Order) (price : Rat) (side : Side) : Nat :=
  findInsertLoop arr price side 0 arr.length

/-- The loop of `wouldSelfTrade`: walk the opposite book while prices are
matchable, collecting resting orders of the same user. -/
def selfTradeConflicts (uid : String) (side : Side) (price : Rat) :
    List Order → List Order
  | [] => []
  | restingOrder :: rest =>
    let isMatchable :=
      match side with
      | Side.buy => Decimal.isLessOrEqual restingOrder.price price
      | Side.sell => Decimal.isGreaterOrEqual restingOrder.price price
    if isMatchable then
      (if restingOrder.userId = uid then [restingOrder] else [])
        ++ selfTradeConflicts uid side price rest
    else
      []

/-- `wouldSelfTrade(order)` -/
def wouldSelfTrade (ob : Orderbook) (order : Order) : Bool × List Order :=
  let oppositeBook := match order.side with
    | Side.buy => ob.asks
    | Side.sell => ob.bids
  let conflictingOrders :=
    selfTradeConflicts order.userId order.side order.price oppositeBook
  (conflictingOrders.length > 0, conflictingOrders)

/-- The price-crossing test of `matchOrder` (buy: ask ≤ bid; sell: bid ≥ ask). -/
def pricesCross (side : Side) (makerPrice incomingPrice : Rat) : Bool :=
  match side with
  | Side.buy => Decimal.isLessOrEqual makerPrice incomingPrice
  | Side.sell => Decimal.isGreaterOrEqual makerPrice incomingPrice

/-- Result of the matching loop: the produced fills, the executed quantity,
the remaining opposite book, the updated maker-side depth map, the advanced
trade-id counter and the updated last price. -/
structure MatchResult where
  fills : List Fill
  executedQty : Rat
  book : List Order
  depth : DepthMap
  lastTradeId : Nat
  currentPrice : Rat

/-- The `while` loop of `matchOrder`, walking the opposite book from the
front.  A maker of the same user is skipped (`i++`); a fully filled maker is
removed (`splice`); a partially filled maker is kept with its `filled`
incremented (in the source the loop then exits because the taker quantity
reached zero, which the recursion reproduces since the recursive call with
`qtyToFill = 0` returns immediately). -/
def matchLoop (uid : String) (side : Side) (limitPrice : Rat) :
    Rat → List Order → DepthMap → Nat → Rat → MatchResult
  | _, [], depth, tid, cur =>
    ⟨[], 0, [], depth, tid, cur⟩
  | qtyToFill, makerOrder :: rest, depth, tid, cur =>
    if Decimal.isGreater qtyToFill 0 then
      if pricesCross side makerOrder.price limitPrice then
        if makerOrder.userId = uid then
          let r := matchLoop uid side limitPrice qtyToFill rest depth tid cur
          ⟨r.fills, r.executedQty, makerOrder :: r.book, r.depth,
            r.lastTradeId, r.currentPrice⟩
        else
          let remainingMaker := Decimal.subtract makerOrder.quantity makerOrder.filled
          let fillQty := Decimal.min qtyToFill remainingMaker
          let makerOrder' := { makerOrder with filled := Decimal.add makerOrder.filled fillQty }
          let depth' := DepthMap.update depth makerOrder.price (Decimal.subtract 0 fillQty)
          let fill : Fill :=
            ⟨makerOrder.price, fillQty, tid, makerOrder.userId, makerOrder.orderId⟩
          if Decimal.isEqual makerOrder'.filled makerOrder'.quantity then
            let r := matchLoop uid side limitPrice (Decimal.subtract qtyToFill fillQty)
              rest depth' (tid + 1) makerOrder.price
            ⟨fill :: r.fills, Decimal.add fillQty r.executedQty, r.book, r.depth,
              r.lastTradeId, r.currentPrice⟩
          else
            let r := matchLoop uid side limitPrice (Decimal.subtract qtyToFill fillQty)
              rest depth' (tid + 1) makerOrder.price
            ⟨fill :: r.fills, Decimal.add fillQty r.executedQty, makerOrder' :: r.book,
              r.depth, r.lastTradeId, r.currentPrice⟩
      else
        ⟨[], 0, makerOrder :: rest, depth, tid, cur⟩
    else
      ⟨[], 0, makerOrder :: rest, depth, tid, cur⟩

/-- `matchOrder(incomingOrder, book, side)` on the whole book state: matches
against the opposite side and threads the depth map, trade-id counter and
last price. -/
def matchOrder (ob : Orderbook) (incomingOrder : Order) (side : Side) :
    MatchResult :=
  match side with
  | Side.buy =>
    matchLoop incomingOrder.userId Side.buy incomingOrder.price
      incomingOrder.quantity ob.asks ob.asksDepth ob.lastTradeId ob.currentPrice
  | Side.sell =>
    matchLoop incomingOrder.userId Side.sell incomingOrder.price
      incomingOrder.quantity ob.bids ob.bidsDepth ob.lastTradeId ob.currentPrice

/-- `cancelBid(order)`: locate by `orderId`, decrement depth by the remaining
quantity, remove, and return the price. -/
def cancelBid (ob : Orderbook) (order : Order) : Option Rat × Orderbook :=
  match ob.bids.findIdx? (fun x => x.orderId = order.orderId) with
  | some index =>
    match ob.bids[index]? with
    | some cancelledOrder =>
      let price := cancelledOrder.price
      let remaining := Decimal.subtract cancelledOrder.quantity cancelledOrder.filled
      let depth' := DepthMap.update ob.bidsDepth price (Decimal.subtract 0 remaining)
      (some price, { ob with bids := ob.bids.eraseIdx index, bidsDepth := depth' })
    | none => (none, ob)
  | none => (none, ob)

/-- `cancelAsk(order)` -/
def cancelAsk (ob : Orderbook) (order : Order) : Option Rat × Orderbook :=
  match ob.asks.findIdx? (fun x => x.orderId = order.orderId) with
  | some index =>
    match ob.asks[index]? with
    | some cancelledOrder =>
      let price := cancelledOrder.price
      let remaining := Decimal.subtract cancelledOrder.quantity cancelledOrder.filled
      let depth' := DepthMap.update ob.asksDepth price (Decimal.subtract 0 remaining)
      (some price, { ob with asks := ob.asks.eraseIdx index, asksDepth := depth' })
    | none => (none, ob)
  | none => (none, ob)

/-- The STP-removal loop of `addOrder`: cancel every conflicting resting
order on its own side. -/
def cancelConflicts (ob : Orderbook) : List Order → Orderbook
  | [] => ob
  | conflict :: rest =>
    let ob' :=
      match conflict.side with
      | Side.buy => (cancelBid ob conflict).2
      | Side.sell => (cancelAsk ob conflict).2
    cancelConflicts ob' rest

/-- Steps 2–4 of `addOrder` (taker matching, order-state update, residue
insertion at the binary-search position with a depth increment). -/
def addOrderAfterStp (ob : Orderbook) (order : Order) :
    AddOrderResult × Orderbook :=
  let result := matchOrder ob order order.side
  let order' := { order with filled := result.executedQty }
  let ob₂ :=
    match order.side with
    | Side.buy =>
      { ob with
        asks := result.book
        asksDepth := result.depth
        lastTradeId := result.lastTradeId
        currentPrice := result.currentPrice }
    | Side.sell =>
      { ob with
        bids := result.book
        bidsDepth := result.depth
        lastTradeId := result.lastTradeId
        currentPrice := result.currentPrice }
  if Decimal.isLess order'.filled order'.quantity then
    let remaining := Decimal.subtract order'.quantity order'.filled
    let ob₃ :=
      match order.side with
      | Side.buy =>
        let index := findInsertIndex ob₂.bids order.price Side.buy
        { ob₂ with
          bids := ob₂.bids.insertIdx index order'
          bidsDepth := DepthMap.update ob₂.bidsDepth order.price remaining }
      | Side.sell =>
        let index := findInsertIndex ob₂.asks order.price Side.sell
        { ob₂ with
          asks := ob₂.asks.insertIdx index order'
          asksDepth := DepthMap.update ob₂.asksDepth order.price remaining }
    ({ status :=
         if Decimal.isGreater result.executedQty 0 then OrderStatus.PARTIALLY_FILLED
         else OrderStatus.ACCEPTED
       executedQty := result.executedQty
       fills := result.fills }, ob₃)
  else
    ({ status := OrderStatus.ACCEPTED
       executedQty := result.executedQty
       fills := result.fills }, ob₂)

/-- `addOrder(order)`: STP pre-check, taker matching, then resting of the
residue. -/
def addOrder (ob : Orderbook) (order : Order) : AddOrderResult × Orderbook :=
  let st := wouldSelfTrade ob order
  if st.1 then
    if ob.stpMode = SelfTradePreventionMode.CANCEL_NEWEST then
      ({ status := OrderStatus.REJECTED
         executedQty := 0
         fills := []
         rejectionReason := some "STP: Cancel Newest" }, ob)
    else
      let ob₁ := cancelConflicts ob st.2
      if ob.stpMode = SelfTradePreventionMode.CANCEL_BOTH then
        ({ status := OrderStatus.REJECTED
           executedQty := 0
           fills := []
           rejectionReason := some "STP: Cancel Both"
           cancelledOrders := some (st.2.map Order.orderId) }, ob₁)
      else
        addOrderAfterStp ob₁ order
  else
    addOrderAfterStp ob order

/-- `getOpenOrders(userId)` -/
def getOpenOrders (ob : Orderbook) (userId : String) : List Order :=
  ob.asks.filter (fun x => x.userId = userId)
    ++ ob.bids.filter (fun x => x.userId = userId)

/-- `getDepthAtPrice(side, price)` -/
def getDepthAtPrice (ob : Orderbook) (side : Side) (price : Rat) : Rat :=
  match side with
  | Side.buy => ob.bidsDepth.getD price
  | Side.sell => ob.asksDepth.getD price

/-! ### Cancellation lemmas -/

theorem cancelBid_not_found (ob : Orderbook) (c : Order)
    (h : ∀ x ∈ ob.bids, ¬ x.orderId = c.orderId) :
    ob.cancelBid c = (none, ob) := by
  have : ob.bids.findIdx? (fun x => x.orderId = c.orderId) = none := by
    rw [List.findIdx?_eq_none_iff]
    intro x hx
    simp [h x hx]
  simp [cancelBid, this]

theorem cancelAsk_not_found (ob : Orderbook) (c : Order)
    (h : ∀ x ∈ ob.asks, ¬ x.orderId = c.orderId) :
    ob.cancelAsk c = (none, ob) := by
  have : ob.asks.findIdx? (fun x => x.orderId = c.orderId) = none := by
    rw [List.findIdx?_eq_none_iff]
    intro x hx
    simp [h x hx]
  simp [cancelAsk, this]

theorem cancelBid_spec (ob : Orderbook) (c : Order)
    (hex : ∃ x ∈ ob.bids, x.orderId = c.orderId) :
    ∃ (i : Nat) (h : i < ob.bids.length),
      List.findIdx (fun x => x.orderId = c.orderId) ob.bids = i ∧
      ob.bids[i].orderId = c.orderId ∧
      ob.cancelBid c = (some ob.bids[i].price,
        { ob with
          bids := ob.bids.eraseIdx i
          bidsDepth := DepthMap.update ob.bidsDepth ob.bids[i].price
            (0 - (ob.bids[i].quantity - ob.bids[i].filled)) }) := by
  have hex' : ∃ x ∈ ob.bids, ((fun x : Order => decide (x.orderId = c.orderId)) x = true) := by
    obtain ⟨x, hx, he⟩ := hex
    exact ⟨x, hx, by simp [he]⟩
  have hlt := List.findIdx_lt_length_of_exists hex'
  refine ⟨_, hlt, rfl, ?_, ?_⟩
  · have := @List.findIdx_getElem Order
      (fun x : Order => decide (x.orderId = c.orderId)) ob.bids hlt
    simpa using this
  · have hidx : ob.bids.findIdx? (fun x => x.orderId = c.orderId) =
        some (List.findIdx (fun x => x.orderId = c.orderId) ob.bids) :=
      List.findIdx?_eq_some_of_exists hex'
    have hget : ob.bids[List.findIdx (fun x => x.orderId = c.orderId) ob.bids]? =
        some ob.bids[List.findIdx (fun x => x.orderId = c.orderId) ob.bids] :=
      List.getElem?_eq_getElem hlt
    simp only [cancelBid, hidx, hget, Decimal.subtract_eq]

theorem cancelAsk_spec (ob : Orderbook) (c : Order)
    (hex : ∃ x ∈ ob.asks, x.orderId = c.orderId) :
    ∃ (i : Nat) (h : i < ob.asks.length),
      List.findIdx (fun x => x.orderId = c.orderId) ob.asks = i ∧
      ob.asks[i].orderId = c.orderId ∧
      ob.cancelAsk c = (some ob.asks[i].price,
        { ob with
          asks := ob.asks.eraseIdx i
          asksDepth := DepthMap.update ob.asksDepth ob.asks[i].price
            (0 - (ob.asks[i].quantity - ob.asks[i].filled)) }) := by
  have hex' : ∃ x ∈ ob.asks, ((fun x : Order => decide (x.orderId = c.orderId)) x = true) := by
    obtain ⟨x, hx, he⟩ := hex
    exact ⟨x, hx, by simp [he]⟩
  have hlt := List.findIdx_lt_length_of_exists hex'
  refine ⟨_, hlt, rfl, ?_, ?_⟩
  · have := @List.findIdx_getElem Order
      (fun x : Order => decide (x.orderId = c.orderId)) ob.asks hlt
    simpa using this
  · have hidx : ob.asks.findIdx? (fun x => x.orderId = c.orderId) =
        some (List.findIdx (fun x => x.orderId = c.orderId) ob.asks) :=
      List.findIdx?_eq_some_of_exists hex'
    have hget : ob.asks[List.findIdx (fun x => x.orderId = c.orderId) ob.asks]? =
        some ob.asks[List.findIdx (fun x => x.orderId = c.orderId) ob.asks] :=
      List.getElem?_eq_getElem hlt
    simp only [cancelAsk, hidx, hget, Decimal.subtract_eq]

/-- Removing the unique order with a given id: membership characterization. -/
theorem eraseById_mem (l : List Order) (c : Order)
    (hN : (l.map Order.orderId).Nodup) (hc : c ∈ l) (o : Order) :
    o ∈ l.eraseIdx (List.findIdx (fun x => x.orderId = c.orderId) l) ↔
      (o ∈ l ∧ o.orderId ≠ c.orderId) := by
  have hex' : ∃ x ∈ l, ((fun x : Order => decide (x.orderId = c.orderId)) x = true) :=
    ⟨c, hc, by simp⟩
  have hlt := List.findIdx_lt_length_of_exists hex'
  have hpi : l[List.findIdx (fun x => x.orderId = c.orderId) l].orderId = c.orderId := by
    have := @List.findIdx_getElem Order
      (fun x : Order => decide (x.orderId = c.orderId)) l hlt
    simpa using this
  have hinj : ∀ (j k : Nat) (hj : j < l.length) (hk : k < l.length),
      l[j].orderId = l[k].orderId → j = k := by
    intro j k hj hk h
    have hj' : j < (l.map Order.orderId).length := by simpa using hj
    have hk' : k < (l.map Order.orderId).length := by simpa using hk
    have : (l.map Order.orderId)[j] = (l.map Order.orderId)[k] := by
      simpa using h
    exact (hN.getElem_inj_iff).mp this
  set i := List.findIdx (fun x => x.orderId = c.orderId) l with hidef
  have hlen : (l.eraseIdx i).length = l.length - 1 := by
    rw [List.length_eraseIdx, if_pos hlt]
  constructor
  · intro ho
    obtain ⟨j, hj, rfl⟩ := List.mem_iff_getElem.mp ho
    rw [List.getElem_eraseIdx]
    by_cases hji : j < i
    · rw [dif_pos hji]
      refine ⟨List.getElem_mem _, ?_⟩
      intro hid
      have := hinj j i (by omega) hlt (by rw [hid, hpi])
      omega
    · rw [dif_neg hji]
      refine ⟨List.getElem_mem _, ?_⟩
      intro hid
      have hj1 : j + 1 < l.length := by omega
      have := hinj (j + 1) i hj1 hlt (by rw [hid, hpi])
      omega
  · rintro ⟨ho, hid⟩
    obtain ⟨j, hj, rfl⟩ := List.mem_iff_getElem.mp ho
    have hji : j ≠ i := by
      intro h
      subst h
      exact hid hpi
    rw [List.mem_iff_getElem]
    by_cases hjlt : j < i
    · refine ⟨j, by omega, ?_⟩
      rw [List.getElem_eraseIdx, dif_pos hjlt]
    · refine ⟨j - 1, by omega, ?_⟩
      rw [List.getElem_eraseIdx, dif_neg (by omega)]
      congr 1
      omega

/-! ### Self-trade pre-check lemmas -/

/-- The matchability test of `wouldSelfTrade` coincides with the crossing
test of `matchOrder`. -/
theorem selfTradeConflicts_cons (uid : String) (side : Side) (price : Rat)
    (r : Order) (rest : List Order) :
    selfTradeConflicts uid side price (r :: rest) =
      if pricesCross side r.price price then
        (if r.userId = uid then [r] else []) ++ selfTradeConflicts uid side price rest
      else [] := by
  cases side <;> rfl

/-- If the pre-check finds no conflict on a sorted opposite book, the book
holds no crossing order of the user at all. -/
theorem selfTradeConflicts_complete (uid : String) (side : Side) (price : Rat)
    (R : Order → Order → Prop)
    (hmono : ∀ a b : Order, R a b → pricesCross side b.price price = true →
      pricesCross side a.price price = true) :
    ∀ book : List Order, book.Pairwise R →
      selfTradeConflicts uid side price book = [] →
      ∀ o ∈ book, o.userId = uid → pricesCross side o.price price = false
  | [] => by simp
  | r :: rest => by
    intro hsort hempty o ho hown
    have hsortrest : rest.Pairwise R := (List.pairwise_cons.mp hsort).2
    have hR : ∀ o ∈ rest, R r o := (List.pairwise_cons.mp hsort).1
    rw [selfTradeConflicts_cons] at hempty
    by_cases hm : pricesCross side r.price price
    · rw [if_pos hm] at hempty
      have h2 := List.append_eq_nil.mp hempty
      rcases List.mem_cons.mp ho with rfl | ho'
      · exfalso
        rw [hown] at h2
        simpa using h2.1
      · exact selfTradeConflicts_complete uid side price R hmono rest hsortrest
          h2.2 o ho' hown
    · have hm' : pricesCross side r.price price = false := by
        cases h2 : pricesCross side r.price price
        · rfl
        · exact absurd h2 hm
      rcases List.mem_cons.mp ho with rfl | ho'
      · exact hm'
      · cases h2 : pricesCross side o.price price
        · rfl
        · exact absurd (hmono r o (hR o ho') h2) (by simp [hm'])

/-- If the user owns a crossing order on a sorted opposite book, the
pre-check finds a conflict. -/
theorem selfTradeConflicts_found (uid : String) (side : Side) (price : Rat)
    (R : Order → Order → Prop)
    (hmono : ∀ a b : Order, R a b → pricesCross side b.price price = true →
      pricesCross side a.price price = true) :
    ∀ book : List Order, book.Pairwise R →
      ∀ o ∈ book, o.userId = uid → pricesCross side o.price price = true →
      selfTradeConflicts uid side price book ≠ []
  | [] => by simp
  | r :: rest => by
    intro hsort o ho hown hcross
    have hsortrest : rest.Pairwise R := (List.pairwise_cons.mp hsort).2
    have hR : ∀ o ∈ rest, R r o := (List.pairwise_cons.mp hsort).1
    rw [selfTradeConflicts_cons]
    rcases List.mem_cons.mp ho with rfl | ho'
    · rw [if_pos (by simp [hcross])]
      rw [if_pos hown]
      simp
    · have hm : pricesCross side r.price price = true := hmono r o (hR o ho') hcross
      rw [if_pos (by simp [hm])]
      intro hemp
      have h2 := List.append_eq_nil.mp hemp
      exact selfTradeConflicts_found uid side price R hmono rest hsortrest
        o ho' hown hcross h2.2

end Orderbook

/-! ## Engine dispatcher (`src/unnamed/part_013`, `class Engine`) -/

/-- One asset's balance entry (strings for precision in the source). -/
structure AssetBalance where
  available : Rat
  locked : Rat
deriving DecidableEq, Repr

/-- `interface UserBalance`: an object keyed by asset symbol. -/
def UserBalance : Type := String → Option AssetBalance

/-- The engine's `balances: Map<string, UserBalance>`. -/
def Balances : Type := String → Option UserBalance

/-- Engine state: the orderbook collection and the balance ledger. -/
structure EngineState where
  orderbooks : List Orderbook
  balances : Balances

/-- `market.split("_")` — implemented on the character list so that it
computes by kernel reduction (`String.splitOn` does not). -/
def splitChars (c : Char) : List Char → List (List Char)
  | [] => [[]]
  | x :: xs =>
    let r := splitChars c xs
    if x = c then [] :: r
    else
      match r with
      | [] => [[x]]
      | h :: t => (x :: h) :: t

/-- `market.split("_")[0]` / `[1]` (empty string when the part is absent). -/
def marketPart (market : String) (i : Nat) : String :=
  (((splitChars '_' market.data).map fun l => String.mk l).getD i "")

/-- `errorMessage.includes(sub)` -/
def strIncludes (s sub : String) : Bool :=
  (List.range (s.data.length + 1)).any fun i => sub.data.isPrefixOf (s.data.drop i)

/-- Messages sent to the requesting client over the result channel
(`RedisManager.sendToApi`).  The `DEPTH` and `BALANCE` payloads are elided:
no claim constrains their contents, only that the message is sent. -/
inductive ResultMsg where
  | ORDER_PLACED (orderId : String) (executedQty : Rat) (fills : List Fill)
  | ORDER_REJECTED (reason code : String)
  | ORDER_CANCELLED (orderId : String) (executedQty remainingQty : Rat)
  | OPEN_ORDERS (orders : List Order)
  | DEPTH
  | BALANCE
  | ON_RAMP_SUCCESS (userId : String) (amount newBalance : Rat)
  | WITHDRAW_SUCCESS (userId : String) (amount newBalance : Rat) (txnId : String)
  | WITHDRAW_FAILED (error : String)
deriving DecidableEq, Repr

/-- `MessageFromApi`: the tagged union of commands consumed by
`Engine.process`.  `CREATE_ORDER` additionally carries the order id the
engine would draw from its random-id generator, so that the model is a
deterministic function. -/
inductive Command where
  | CREATE_ORDER (market : String) (price quantity : Rat) (side : Side)
      (userId orderId : String)
  | CANCEL_ORDER (orderId market : String)
  | GET_OPEN_ORDERS (market userId : String)
  | GET_DEPTH (market : String)
  | GET_BALANCE (userId : String)
  | ON_RAMP (userId : String) (amount : Rat)
  | WITHDRAW (userId : String) (amount : Rat) (txnId : String)
deriving DecidableEq, Repr

namespace Engine

/-- Replace the first list element satisfying `p` by `f` of it (the engine
mutates the orderbook object found by `find` in place). -/
def replaceFirst (p : α → Bool) (f : α → α) : List α → List α
  | [] => []
  | x :: xs => if p x then f x :: xs else x :: replaceFirst p f xs

/-- `Engine.checkAndLockFunds`: verify and atomically move
`available → locked`.  Errors mirror the thrown exceptions; the `TypeError`
case is the JavaScript property assignment on a missing asset entry (only
reachable when the required amount is ≤ 0). -/
def checkAndLockFunds (balances : Balances) (baseAsset quoteAsset : String)
    (side : Side) (userId : String) (price quantity : Rat) :
    Except String Balances :=
  match balances userId with
  | none => .error "User not found"
  | some userBalance =>
    match side with
    | Side.buy =>
      let required := Decimal.multiply quantity price
      let available := ((userBalance quoteAsset).map AssetBalance.available).getD 0
      if Decimal.isLess available required then .error "Insufficient funds"
      else
        match userBalance quoteAsset with
        | none => .error "TypeError"
        | some entry =>
          let entry' : AssetBalance :=
            { available := Decimal.subtract available required
              locked := Decimal.add entry.locked required }
          .ok (Function.update balances userId
            (some (Function.update userBalance quoteAsset (some entry'))))
    | Side.sell =>
      let available := ((userBalance baseAsset).map AssetBalance.available).getD 0
      if Decimal.isLess available quantity then .error "Insufficient funds"
      else
        match userBalance baseAsset with
        | none => .error "TypeError"
        | some entry =>
          let entry' : AssetBalance :=
            { available := Decimal.subtract available quantity
              locked := Decimal.add entry.locked quantity }
          .ok (Function.update balances userId
            (some (Function.update userBalance baseAsset (some entry'))))

/-- `Engine.unlockFunds`: move `locked → available` back.  A missing user is
a silent no-op (`if (!userBalance) return`); a missing asset entry is a
`TypeError` (before any mutation of that entry). -/
def unlockFunds (balances : Balances) (baseAsset quoteAsset : String)
    (side : Side) (userId : String) (price quantity : Rat) :
    Except String Balances :=
  match balances userId with
  | none => .ok balances
  | some userBalance =>
    match side with
    | Side.buy =>
      let amount := Decimal.multiply quantity price
      match userBalance quoteAsset with
      | none => .error "TypeError"
      | some entry =>
        let entry' : AssetBalance :=
          { available := Decimal.add entry.available amount
            locked := Decimal.subtract entry.locked amount }
        .ok (Function.update balances userId
          (some (Function.update userBalance quoteAsset (some entry'))))
    | Side.sell =>
      match userBalance baseAsset with
      | none => .error "TypeError"
      | some entry =>
        let entry' : AssetBalance :=
          { available := Decimal.add entry.available quantity
            locked := Decimal.subtract entry.locked quantity }
        .ok (Function.update balances userId
          (some (Function.update userBalance baseAsset (some entry'))))

/-- Update one asset entry of one user through a pure function, failing (with
the current, unmodified ledger) when the user exists but the asset entry is
absent — the JavaScript `balance[asset].field = …` `TypeError`.  A missing
user is a skip (`if (makerBalance) { … }`). -/
def mutateEntry (balances : Balances) (userId asset : String)
    (f : AssetBalance → AssetBalance) : Balances × Bool :=
  match balances userId with
  | none => (balances, true)
  | some userBalance =>
    match userBalance asset with
    | none => (balances, false)
    | some entry =>
      (Function.update balances userId
        (some (Function.update userBalance asset (some (f entry)))), true)

/-- One iteration of the `fills.forEach` of `Engine.updateBalance` for a buy
taker: credit the maker's quote `available`, debit the maker's base `locked`,
debit the taker's quote `locked`, credit the taker's base `available` — in
source statement order, stopping (with the mutations so far kept) at the
first missing asset entry. -/
def settleFillBuy (balances : Balances) (userId baseAsset quoteAsset : String)
    (fill : Fill) : Balances × Bool :=
  let fillValue := Decimal.multiply fill.qty fill.price
  let s1 :=
    match balances fill.otherUserId with
    | none => (balances, true)
    | some _ =>
      let r1 := mutateEntry balances fill.otherUserId quoteAsset
        (fun e => { e with available := Decimal.add e.available fillValue })
      if r1.2 then
        mutateEntry r1.1 fill.otherUserId baseAsset
          (fun e => { e with locked := Decimal.subtract e.locked fill.qty })
      else r1
  if s1.2 then
    match s1.1 userId with
    | none => (s1.1, true)
    | some _ =>
      let r2 := mutateEntry s1.1 userId quoteAsset
        (fun e => { e with locked := Decimal.subtract e.locked fillValue })
      if r2.2 then
        mutateEntry r2.1 userId baseAsset
          (fun e => { e with available := Decimal.add e.available fill.qty })
      else r2
  else s1

/-- One iteration of the `fills.forEach` of `Engine.updateBalance` for a sell
taker. -/
def settleFillSell (balances : Balances) (userId baseAsset quoteAsset : String)
    (fill : Fill) : Balances × Bool :=
  let fillValue := Decimal.multiply fill.qty fill.price
  let s1 :=
    match balances fill.otherUserId with
    | none => (balances, true)
    | some _ =>
      let r1 := mutateEntry balances fill.otherUserId quoteAsset
        (fun e => { e with locked := Decimal.subtract e.locked fillValue })
      if r1.2 then
        mutateEntry r1.1 fill.otherUserId baseAsset
          (fun e => { e with available := Decimal.add e.available fill.qty })
      else r1
  if s1.2 then
    match s1.1 userId with
    | none => (s1.1, true)
    | some _ =>
      let r2 := mutateEntry s1.1 userId quoteAsset
        (fun e => { e with available := Decimal.add e.available fillValue })
      if r2.2 then
        mutateEntry r2.1 userId baseAsset
          (fun e => { e with locked := Decimal.subtract e.locked fill.qty })
      else r2
  else s1

/-- `Engine.updateBalance`: fold the per-fill settlement over the fills,
aborting (exception propagates, mutations so far kept) on the first
`TypeError`. -/
def updateBalance (balances : Balances) (userId baseAsset quoteAsset : String)
    (side : Side) : List Fill → Balances × Bool
  | [] => (balances, true)
  | fill :: rest =>
    let r :=
      match side with
      | Side.buy => settleFillBuy balances userId baseAsset quoteAsset fill
      | Side.sell => settleFillSell balances userId baseAsset quoteAsset fill
    if r.2 then updateBalance r.1 userId baseAsset quoteAsset side rest
    else r

/-- `Engine.createOrder`.  Returns the engine state as mutated so far (the
source mutates `this` in place, so mutations performed before a throw
persist) together with either the `(executedQty, fills, orderId)` result or
the thrown error message. -/
def createOrder (s : EngineState) (market : String) (price quantity : Rat)
    (side : Side) (userId orderId : String) :
    EngineState × Except String (Rat × List Fill × String) :=
  match s.orderbooks.find? (fun o => o.ticker = market) with
  | none => (s, .error "No orderbook found")
  | some orderbook =>
    let baseAsset := marketPart market 0
    let quoteAsset := marketPart market 1
    match checkAndLockFunds s.balances baseAsset quoteAsset side userId price quantity with
    | .error e => (s, .error e)
    | .ok balances₁ =>
      let order : Order :=
        { price := price, quantity := quantity, orderId := orderId,
          filled := 0, side := side, userId := userId }
      let ar := orderbook.addOrder order
      let books' := replaceFirst (fun o => o.ticker = market) (fun _ => ar.2) s.orderbooks
      if ar.1.status = OrderStatus.REJECTED then
        match unlockFunds balances₁ baseAsset quoteAsset side userId price quantity with
        | .error e => (⟨books', balances₁⟩, .error e)
        | .ok balances₂ =>
          (⟨books', balances₂⟩,
            .error ((ar.1.rejectionReason).getD "Order rejected due to self-trade prevention"))
      else
        let ub := updateBalance balances₁ userId baseAsset quoteAsset side ar.1.fills
        if ub.2 then
          (⟨books', ub.1⟩, .ok (ar.1.executedQty, ar.1.fills, orderId))
        else
          (⟨books', ub.1⟩, .error "TypeError")

/-- `Engine.onRamp` -/
def onRamp (balances : Balances) (userId : String) (amount : Rat) : Balances :=
  match balances userId with
  | none =>
    Function.update balances userId
      (some (Function.update (fun _ => none) BASE_CURRENCY
        (some { available := amount, locked := 0 })))
  | some userBalance =>
    match userBalance BASE_CURRENCY with
    | none =>
      Function.update balances userId
        (some (Function.update userBalance BASE_CURRENCY
          (some { available := amount, locked := 0 })))
    | some entry =>
      Function.update balances userId
        (some (Function.update userBalance BASE_CURRENCY
          (some { entry with available := Decimal.add entry.available amount })))

/-- `Engine.withdraw` -/
def withdraw (balances : Balances) (userId : String) (amount : Rat) :
    Except String (Balances × Rat) :=
  match balances userId with
  | none => .error "User not found"
  | some userBalance =>
    match userBalance BASE_CURRENCY with
    | none => .error "User not found"
    | some entry =>
      if Decimal.isLess entry.available amount then .error "Insufficient balance"
      else
        let newAvailable := Decimal.subtract entry.available amount
        .ok (Function.update balances userId
          (some (Function.update userBalance BASE_CURRENCY
            (some { entry with available := newAvailable }))),
          newAvailable)

/-- The asset entry of one user, observed through both map layers. -/
def entryOf (b : Balances) (u a : String) : Option AssetBalance :=
  match b u with
  | none => none
  | some ub => ub a

/-- The `ON_RAMP` branch of `process` also creates a missing user; the
`onRamp` mutation runs first and the success payload then reads the new
available balance. -/
def newBalanceOf (balances : Balances) (userId : String) : Rat :=
  match balances userId with
  | none => 0
  | some userBalance =>
    match userBalance BASE_CURRENCY with
    | none => 0
    | some entry => entry.available

/-- `Engine.process({ message, clientId })`: dispatch one command, returning
the updated state and the list of messages sent to the requesting client on
the result channel. -/
def process (s : EngineState) (cmd : Command) : EngineState × List ResultMsg :=
  match cmd with
  | Command.CREATE_ORDER market price quantity side userId orderId =>
    let r := createOrder s market price quantity side userId orderId
    match r.2 with
    | .ok (executedQty, fills, oid) =>
      (r.1, [ResultMsg.ORDER_PLACED oid executedQty fills])
    | .error e =>
      let code := if strIncludes e "SELF_TRADE_PREVENTION" then "SELF_TRADE" else "ORDER_FAILED"
      (r.1, [ResultMsg.ORDER_REJECTED e code])
  | Command.CANCEL_ORDER orderId market =>
    match s.orderbooks.find? (fun o => o.ticker = market) with
    | none => (s, [])
    | some cancelOrderbook =>
      let baseAsset := marketPart market 0
      let quoteAsset := marketPart market 1
      match cancelOrderbook.asks.find? (fun o => o.orderId = orderId) <|>
            cancelOrderbook.bids.find? (fun o => o.orderId = orderId) with
      | none => (s, [])
      | some order =>
        match order.side with
        | Side.buy =>
          let c := cancelOrderbook.cancelBid order
          let leftQuantity :=
            Decimal.multiply (Decimal.subtract order.quantity order.filled) order.price
          let balances' :=
            match s.balances order.userId with
            | none => s.balances
            | some userBalance =>
              match userBalance quoteAsset with
              | none => s.balances
              | some entry =>
                Function.update s.balances order.userId
                  (some (Function.update userBalance quoteAsset
                    (some { available := Decimal.add entry.available leftQuantity
                            locked := Decimal.subtract entry.locked leftQuantity })))
          (⟨replaceFirst (fun o => o.ticker = market) (fun _ => c.2) s.orderbooks, balances'⟩,
            [ResultMsg.ORDER_CANCELLED orderId 0 0])
        | Side.sell =>
          let c := cancelOrderbook.cancelAsk order
          let leftQuantity := Decimal.subtract order.quantity order.filled
          let balances' :=
            match s.balances order.userId with
            | none => s.balances
            | some userBalance =>
              match userBalance baseAsset with
              | none => s.balances
              | some entry =>
                Function.update s.balances order.userId
                  (some (Function.update userBalance baseAsset
                    (some { available := Decimal.add entry.available leftQuantity
                            locked := Decimal.subtract entry.locked leftQuantity })))
          (⟨replaceFirst (fun o => o.ticker = market) (fun _ => c.2) s.orderbooks, balances'⟩,
            [ResultMsg.ORDER_CANCELLED orderId 0 0])
  | Command.GET_OPEN_ORDERS market userId =>
    match s.orderbooks.find? (fun o => o.ticker = market) with
    | none => (s, [])
    | some openOrderbook =>
      (s, [ResultMsg.OPEN_ORDERS (openOrderbook.getOpenOrders userId)])
  | Command.GET_DEPTH market =>
    match s.orderbooks.find? (fun o => o.ticker = market) with
    | none => (s, [ResultMsg.DEPTH])
    | some _ => (s, [ResultMsg.DEPTH])
  | Command.GET_BALANCE _ => (s, [ResultMsg.BALANCE])
  | Command.ON_RAMP userId amount =>
    let balances' := onRamp s.balances userId amount
    (⟨s.orderbooks, balances'⟩,
      [ResultMsg.ON_RAMP_SUCCESS userId amount (newBalanceOf balances' userId)])
  | Command.WITHDRAW userId amount txnId =>
    match withdraw s.balances userId amount with
    | .ok (balances', newBalance) =>
      (⟨s.orderbooks, balances'⟩,
        [ResultMsg.WITHDRAW_SUCCESS userId amount newBalance txnId])
    | .error e => (s, [ResultMsg.WITHDRAW_FAILED e])

/-- `Engine.setBaseBalances`: seed users `"1"`, `"2"`, `"5"` with
1 000 000 INR and 1 000 TATA, all unlocked. -/
def setBaseBalances : Balances :=
  fun userId =>
    if userId = "1" ∨ userId = "2" ∨ userId = "5" then
      some (fun asset =>
        if asset = BASE_CURRENCY then some { available := 1000000, locked := 0 }
        else if asset = "TATA" then some { available := 1000, locked := 0 }
        else none)
    else none

/-- The fresh engine (no snapshot): one empty `TATA` orderbook and the seed
balances. -/
def freshEngine : EngineState :=
  { orderbooks := [Orderbook.create "TATA" [] [] 0 0]
    balances := setBaseBalances }

/-- Fold a command sequence through `process`, keeping the state. -/
def runCommands (s : EngineState) : List Command → EngineState
  | [] => s
  | cmd :: rest => runCommands (process s cmd).1 rest

/-- The engine-level snapshot record (`saveSnapshot`): per-book snapshots
plus the balance entries. -/
structure EngineSnapshot where
  orderbooks : List Orderbook.Snapshot
  balances : Balances

/-- `Engine.saveSnapshot` -/
def saveSnapshot (s : EngineState) : EngineSnapshot :=
  { orderbooks := s.orderbooks.map Orderbook.getSnapshot
    balances := s.balances }

/-- The snapshot-restore path of the `Engine` constructor: rebuild each book
through the `Orderbook` constructor (which re-sorts and rebuilds depth and
defaults `stpMode`), and reinstall the balance entries. -/
def restoreEngine (snap : EngineSnapshot) : EngineState :=
  { orderbooks := snap.orderbooks.map Orderbook.restore
    balances := snap.balances }

end Engine

/-! ## Book invariants -/

/-- Bids are non-increasing in price. -/
abbrev SortedBids (l : List Order) : Prop :=
  l.Pairwise fun a b => b.price ≤ a.price

/-- Asks are non-decreasing in price. -/
abbrev SortedAsks (l : List Order) : Prop :=
  l.Pairwise fun a b => a.price ≤ b.price

/-- Every resting bid is strictly cheaper than every resting ask (for sorted
sides this is equivalent to the head-to-head comparison). -/
abbrev NoCross (bids asks : List Order) : Prop :=
  ∀ b ∈ bids, ∀ a ∈ asks, b.price < a.price

/-- Every resting order has remaining quantity: `filled < quantity`. -/
abbrev PosBook (l : List Order) : Prop :=
  ∀ o ∈ l, o.filled < o.quantity

/-- Aggregate remaining quantity of a side at a price. -/
abbrev aggAt (l : List Order) (p : Rat) : Rat :=
  (l.map fun o => if o.price = p then o.quantity - o.filled else 0).sum

/-- The cached depth map of a side agrees with the orders: a key is present
iff the aggregate is strictly positive, and then holds the aggregate. -/
abbrev DepthAgree (l : List Order) (d : DepthMap) : Prop :=
  ∀ p, d p = if 0 < aggAt l p then some (aggAt l p) else none

/-- Geometric wellformedness of a book. -/
structure BookWf (ob : Orderbook) : Prop where
  bidsSorted : SortedBids ob.bids
  asksSorted : SortedAsks ob.asks
  noCross : NoCross ob.bids ob.asks

namespace Orderbook

/-! ### Matching-loop lemmas -/

theorem matchLoop_nonpos (uid : String) (side : Side) (limit qty : Rat)
    (book : List Order) (depth : DepthMap) (tid : Nat) (cur : Rat)
    (h : ¬ 0 < qty) :
    matchLoop uid side limit qty book depth tid cur =
      ⟨[], 0, book, depth, tid, cur⟩ := by
  cases book with
  | nil => simp [matchLoop]
  | cons maker rest => simp [matchLoop, Decimal.isGreater, h]

/-- The result book's prices form a sublist of the input book's prices. -/
theorem matchLoop_book_price_sublist (uid : String) (side : Side) (limit : Rat) :
    ∀ (qty : Rat) (book : List Order) (depth : DepthMap) (tid : Nat) (cur : Rat),
      ((matchLoop uid side limit qty book depth tid cur).book.map Order.price).Sublist
        (book.map Order.price)
  | qty, [], depth, tid, cur => by simp [matchLoop]
  | qty, maker :: rest, depth, tid, cur => by
    by_cases hq : 0 < qty
    · by_cases hc : pricesCross side maker.price limit
      · by_cases hu : maker.userId = uid
        · simpa [matchLoop, Decimal.isGreater, hq, hc, hu] using
            (matchLoop_book_price_sublist uid side limit qty rest depth tid cur).cons₂
              maker.price
        · by_cases hfull :
            Decimal.isEqual
              (Decimal.add maker.filled
                (Decimal.min qty (Decimal.subtract maker.quantity maker.filled)))
              maker.quantity
          · refine List.Sublist.trans ?_ (List.sublist_cons_self maker.price _)
            simpa [matchLoop, Decimal.isGreater, hq, hc, hu, hfull] using
              matchLoop_book_price_sublist uid side limit _ rest _ (tid + 1) maker.price
          · simpa [matchLoop, Decimal.isGreater, hq, hc, hu, hfull] using
              (matchLoop_book_price_sublist uid side limit _ rest _ (tid + 1)
                maker.price).cons₂ maker.price
      · simp [matchLoop, Decimal.isGreater, hq, hc]
    · simp [matchLoop, Decimal.isGreater, hq]

/-- Each surviving order keeps the price, id and user of an input order
(only `filled` may change). -/
theorem matchLoop_book_mem (uid : String) (side : Side) (limit : Rat) :
    ∀ (qty : Rat) (book : List Order) (depth : DepthMap) (tid : Nat) (cur : Rat),
      ∀ o' ∈ (matchLoop uid side limit qty book depth tid cur).book,
        ∃ o ∈ book, o'.price = o.price ∧ o'.orderId = o.orderId ∧
          o'.userId = o.userId
  | qty, [], depth, tid, cur => by simp [matchLoop]
  | qty, maker :: rest, depth, tid, cur => by
    by_cases hq : 0 < qty
    · by_cases hc : pricesCross side maker.price limit
      · by_cases hu : maker.userId = uid
        · intro o' ho'
          simp [matchLoop, Decimal.isGreater, hq, hc, hu] at ho'
          rcases ho' with h | ho'
          · exact ⟨maker, List.mem_cons_self .., by rw [h], by rw [h], by rw [h]⟩
          · obtain ⟨o, ho, h⟩ := matchLoop_book_mem uid side limit qty rest depth tid cur o' ho'
            exact ⟨o, List.mem_cons_of_mem _ ho, h⟩
        · by_cases hfull :
            Decimal.isEqual
              (Decimal.add maker.filled
                (Decimal.min qty (Decimal.subtract maker.quantity maker.filled)))
              maker.quantity
          · intro o' ho'
            simp [matchLoop, Decimal.isGreater, hq, hc, hu, hfull] at ho'
            obtain ⟨o, ho, h⟩ := matchLoop_book_mem uid side limit _ rest _ (tid + 1)
              maker.price o' ho'
            exact ⟨o, List.mem_cons_of_mem _ ho, h⟩
          · intro o' ho'
            simp [matchLoop, Decimal.isGreater, hq, hc, hu, hfull] at ho'
            rcases ho' with h | ho'
            · exact ⟨maker, List.mem_cons_self .., by rw [h], by rw [h], by rw [h]⟩
            · obtain ⟨o, ho, h⟩ := matchLoop_book_mem uid side limit _ rest _ (tid + 1)
                maker.price o' ho'
              exact ⟨o, List.mem_cons_of_mem _ ho, h⟩
      · intro o' ho'
        simp [matchLoop, Decimal.isGreater, hq, hc] at ho'
        exact ⟨o', List.mem_cons.mpr ho', rfl, rfl, rfl⟩
    · intro o' ho'
      rw [matchLoop_nonpos uid side limit qty _ depth tid cur hq] at ho'
      exact ⟨o', ho', rfl, rfl, rfl⟩

/-- `executedQty` is the sum of the fill quantities. -/
theorem matchLoop_executedQty (uid : String) (side : Side) (limit : Rat) :
    ∀ (qty : Rat) (book : List Order) (depth : DepthMap) (tid : Nat) (cur : Rat),
      (matchLoop uid side limit qty book depth tid cur).executedQty =
        ((matchLoop uid side limit qty book depth tid cur).fills.map Fill.qty).sum
  | qty, [], depth, tid, cur => by simp [matchLoop]
  | qty, maker :: rest, depth, tid, cur => by
    by_cases hq : 0 < qty
    · by_cases hc : pricesCross side maker.price limit
      · by_cases hu : maker.userId = uid
        · simpa [matchLoop, Decimal.isGreater, hq, hc, hu] using
            matchLoop_executedQty uid side limit qty rest depth tid cur
        · by_cases hfull :
            Decimal.isEqual
              (Decimal.add maker.filled
                (Decimal.min qty (Decimal.subtract maker.quantity maker.filled)))
              maker.quantity
          · have IH := matchLoop_executedQty uid side limit
              (Decimal.subtract qty (Decimal.min qty (Decimal.subtract maker.quantity maker.filled)))
              rest
              (DepthMap.update depth maker.price
                (Decimal.subtract 0 (Decimal.min qty (Decimal.subtract maker.quantity maker.filled))))
              (tid + 1) maker.price
            simp [matchLoop, Decimal.isGreater, hq, hc, hu, hfull]
            rw [Decimal.add_eq, IH]
          · have IH := matchLoop_executedQty uid side limit
              (Decimal.subtract qty (Decimal.min qty (Decimal.subtract maker.quantity maker.filled)))
              rest
              (DepthMap.update depth maker.price
                (Decimal.subtract 0 (Decimal.min qty (Decimal.subtract maker.quantity maker.filled))))
              (tid + 1) maker.price
            simp [matchLoop, Decimal.isGreater, hq, hc, hu, hfull]
            rw [Decimal.add_eq, IH]
      · simp [matchLoop, Decimal.isGreater, hq, hc]
    · simp [matchLoop, Decimal.isGreater, hq]

/-- Every fill records the price, user and id of a maker from the input book,
and its price crossed the incoming limit. -/
theorem matchLoop_fills_maker (uid : String) (side : Side) (limit : Rat) :
    ∀ (qty : Rat) (book : List Order) (depth : DepthMap) (tid : Nat) (cur : Rat),
      ∀ f ∈ (matchLoop uid side limit qty book depth tid cur).fills,
        (∃ o ∈ book, o.orderId = f.markerOrderId ∧ o.price = f.price ∧
          o.userId = f.otherUserId ∧ o.userId ≠ uid) ∧
        pricesCross side f.price limit = true
  | qty, [], depth, tid, cur => by simp [matchLoop]
  | qty, maker :: rest, depth, tid, cur => by
    by_cases hq : 0 < qty
    · by_cases hc : pricesCross side maker.price limit
      · by_cases hu : maker.userId = uid
        · intro f hf
          simp [matchLoop, Decimal.isGreater, hq, hc, hu] at hf
          obtain ⟨⟨o, ho, h⟩, hcr⟩ :=
            matchLoop_fills_maker uid side limit qty rest depth tid cur f hf
          exact ⟨⟨o, List.mem_cons_of_mem _ ho, h⟩, hcr⟩
        · by_cases hfull :
            Decimal.isEqual
              (Decimal.add maker.filled
                (Decimal.min qty (Decimal.subtract maker.quantity maker.filled)))
              maker.quantity
          · intro f hf
            simp [matchLoop, Decimal.isGreater, hq, hc, hu, hfull] at hf
            rcases hf with h | hf
            · subst h
              exact ⟨⟨maker, List.mem_cons_self .., rfl, rfl, rfl, hu⟩, hc⟩
            · obtain ⟨⟨o, ho, h⟩, hcr⟩ :=
                matchLoop_fills_maker uid side limit _ rest _ (tid + 1) maker.price f hf
              exact ⟨⟨o, List.mem_cons_of_mem _ ho, h⟩, hcr⟩
          · intro f hf
            simp [matchLoop, Decimal.isGreater, hq, hc, hu, hfull] at hf
            rcases hf with h | hf
            · subst h
              exact ⟨⟨maker, List.mem_cons_self .., rfl, rfl, rfl, hu⟩, hc⟩
            · obtain ⟨⟨o, ho, h⟩, hcr⟩ :=
                matchLoop_fills_maker uid side limit _ rest _ (tid + 1) maker.price f hf
              exact ⟨⟨o, List.mem_cons_of_mem _ ho, h⟩, hcr⟩
      · simp [matchLoop, Decimal.isGreater, hq, hc]
    · simp [matchLoop, Decimal.isGreater, hq]

/-- The fill prices are a sublist of the input book's prices. -/
theorem matchLoop_fills_price_sublist (uid : String) (side : Side) (limit : Rat) :
    ∀ (qty : Rat) (book : List Order) (depth : DepthMap) (tid : Nat) (cur : Rat),
      ((matchLoop uid side limit qty book depth tid cur).fills.map Fill.price).Sublist
        (book.map Order.price)
  | qty, [], depth, tid, cur => by simp [matchLoop]
  | qty, maker :: rest, depth, tid, cur => by
    by_cases hq : 0 < qty
    · by_cases hc : pricesCross side maker.price limit
      · by_cases hu : maker.userId = uid
        · refine List.Sublist.trans ?_ (List.sublist_cons_self maker.price _)
          simpa [matchLoop, Decimal.isGreater, hq, hc, hu] using
            matchLoop_fills_price_sublist uid side limit qty rest depth tid cur
        · by_cases hfull :
            Decimal.isEqual
              (Decimal.add maker.filled
                (Decimal.min qty (Decimal.subtract maker.quantity maker.filled)))
              maker.quantity
          · simpa [matchLoop, Decimal.isGreater, hq, hc, hu, hfull] using
              (matchLoop_fills_price_sublist uid side limit _ rest _ (tid + 1)
                maker.price).cons₂ maker.price
          · simpa [matchLoop, Decimal.isGreater, hq, hc, hu, hfull] using
              (matchLoop_fills_price_sublist uid side limit _ rest _ (tid + 1)
                maker.price).cons₂ maker.price
      · simp [matchLoop, Decimal.isGreater, hq, hc]
    · simp [matchLoop, Decimal.isGreater, hq]

/-- With a positive-remaining book, every fill quantity is strictly positive. -/
theorem matchLoop_fills_qty_pos (uid : String) (side : Side) (limit : Rat) :
    ∀ (qty : Rat) (book : List Order) (depth : DepthMap) (tid : Nat) (cur : Rat),
      PosBook book →
      ∀ f ∈ (matchLoop uid side limit qty book depth tid cur).fills, 0 < f.qty
  | qty, [], depth, tid, cur => by simp [matchLoop]
  | qty, maker :: rest, depth, tid, cur => by
    intro hpos
    have hposrest : PosBook rest := fun o ho => hpos o (List.mem_cons_of_mem _ ho)
    by_cases hq : 0 < qty
    · by_cases hc : pricesCross side maker.price limit
      · by_cases hu : maker.userId = uid
        · intro f hf
          simp [matchLoop, Decimal.isGreater, hq, hc, hu] at hf
          exact matchLoop_fills_qty_pos uid side limit qty rest depth tid cur hposrest f hf
        · have hrem : 0 < maker.quantity - maker.filled := by
            have := hpos maker (List.mem_cons_self ..)
            linarith
          have hfill : 0 < Decimal.min qty (Decimal.subtract maker.quantity maker.filled) := by
            rw [Decimal.min_eq, Decimal.subtract_eq]
            exact lt_min hq hrem
          by_cases hfull :
            Decimal.isEqual
              (Decimal.add maker.filled
                (Decimal.min qty (Decimal.subtract maker.quantity maker.filled)))
              maker.quantity
          · intro f hf
            simp [matchLoop, Decimal.isGreater, hq, hc, hu, hfull] at hf
            rcases hf with h | hf
            · rw [h]
              exact hfill
            · exact matchLoop_fills_qty_pos uid side limit _ rest _ (tid + 1)
                maker.price hposrest f hf
          · intro f hf
            simp [matchLoop, Decimal.isGreater, hq, hc, hu, hfull] at hf
            rcases hf with h | hf
            · rw [h]
              exact hfill
            · exact matchLoop_fills_qty_pos uid side limit _ rest _ (tid + 1)
                maker.price hposrest f hf
      · simp [matchLoop, Decimal.isGreater, hq, hc]
    · simp [matchLoop, Decimal.isGreater, hq]

/-- A positive-remaining book stays positive-remaining through matching. -/
theorem matchLoop_pos_book (uid : String) (side : Side) (limit : Rat) :
    ∀ (qty : Rat) (book : List Order) (depth : DepthMap) (tid : Nat) (cur : Rat),
      PosBook book →
      PosBook (matchLoop uid side limit qty book depth tid cur).book
  | qty, [], depth, tid, cur => by simp [matchLoop, PosBook]
  | qty, maker :: rest, depth, tid, cur => by
    intro hpos
    have hposrest : PosBook rest := fun o ho => hpos o (List.mem_cons_of_mem _ ho)
    by_cases hq : 0 < qty
    · by_cases hc : pricesCross side maker.price limit
      · by_cases hu : maker.userId = uid
        · intro o' ho'
          simp [matchLoop, Decimal.isGreater, hq, hc, hu] at ho'
          rcases ho' with h | ho'
          · rw [h]
            exact hpos maker (List.mem_cons_self ..)
          · exact matchLoop_pos_book uid side limit qty rest depth tid cur hposrest o' ho'
        · by_cases hfull :
            Decimal.isEqual
              (Decimal.add maker.filled
                (Decimal.min qty (Decimal.subtract maker.quantity maker.filled)))
              maker.quantity
          · intro o' ho'
            simp [matchLoop, Decimal.isGreater, hq, hc, hu, hfull] at ho'
            exact matchLoop_pos_book uid side limit _ rest _ (tid + 1)
              maker.price hposrest o' ho'
          · intro o' ho'
            simp [matchLoop, Decimal.isGreater, hq, hc, hu, hfull] at ho'
            rcases ho' with h | ho'
            · rw [h]
              simp only [Decimal.add_eq, Decimal.min_eq, Decimal.subtract_eq]
              have hne : Decimal.add maker.filled
                  (Decimal.min qty (Decimal.subtract maker.quantity maker.filled)) ≠
                  maker.quantity := by
                simpa [Decimal.isEqual] using hfull
              rw [Decimal.add_eq, Decimal.min_eq, Decimal.subtract_eq] at hne
              have hle : maker.filled + Min.min qty (maker.quantity - maker.filled) ≤
                  maker.quantity := by
                have := min_le_right qty (maker.quantity - maker.filled)
                linarith
              exact lt_of_le_of_ne hle hne
            · exact matchLoop_pos_book uid side limit _ rest _ (tid + 1)
                maker.price hposrest o' ho'
      · simpa [matchLoop, Decimal.isGreater, hq, hc, PosBook] using hpos
    · intro o' ho'
      rw [matchLoop_nonpos uid side limit qty _ depth tid cur hq] at ho'
      exact hpos o' ho'

end Orderbook

theorem aggAt_nil (p : Rat) : aggAt [] p = 0 := rfl

theorem aggAt_cons (o : Order) (l : List Order) (p : Rat) :
    aggAt (o :: l) p =
      (if o.price = p then o.quantity - o.filled else 0) + aggAt l p := by
  simp [aggAt]

theorem aggAt_cons_self (o : Order) (l : List Order) :
    aggAt (o :: l) o.price = (o.quantity - o.filled) + aggAt l o.price := by
  rw [aggAt_cons]; simp

theorem aggAt_cons_ne (o : Order) (l : List Order) (p : Rat) (h : ¬ o.price = p) :
    aggAt (o :: l) p = aggAt l p := by
  rw [aggAt_cons]; simp [h]

theorem aggAt_nonneg {l : List Order} (hl : PosBook l) (p : Rat) :
    0 ≤ aggAt l p := by
  refine List.sum_nonneg ?_
  intro x hx
  simp only [List.mem_map] at hx
  obtain ⟨o, ho, rfl⟩ := hx
  have := hl o ho
  by_cases h : o.price = p <;> simp [h] <;> linarith

theorem aggAt_perm {l l' : List Order} (h : l.Perm l') (p : Rat) :
    aggAt l p = aggAt l' p :=
  (h.map _).sum_eq

theorem DepthMap.update_apply (m : DepthMap) (price delta p : Rat) :
    DepthMap.update m price delta p =
      if p = price then
        (if m.getD price + delta ≤ 0 then none else some (m.getD price + delta))
      else m p := by
  simp only [DepthMap.update, Decimal.add_eq, Decimal.isLessOrEqual]
  by_cases h : m.getD price + delta ≤ 0 <;> by_cases hp : p = price <;>
    simp [h, hp, Function.update_apply]

namespace Orderbook

/-! ### Branch-equation lemmas for `matchLoop`, stated over `ℚ` operations -/

/-- The recursive call performed by a fill iteration of `matchLoop`
(taker quantity reduced by the fill, depth decremented at the maker's
price, trade id advanced, last price set to the maker's). -/
def matchLoopFillRest (uid : String) (side : Side) (limit qty : Rat)
    (maker : Order) (rest : List Order) (depth : DepthMap) (tid : Nat) :
    MatchResult :=
  matchLoop uid side limit (qty - Min.min qty (maker.quantity - maker.filled)) rest
    (DepthMap.update depth maker.price
      (0 - Min.min qty (maker.quantity - maker.filled)))
    (tid + 1) maker.price

theorem matchLoop_cons_nocross (uid : String) (side : Side) (limit qty : Rat)
    (maker : Order) (rest : List Order) (depth : DepthMap) (tid : Nat) (cur : Rat)
    (hq : 0 < qty) (hc : pricesCross side maker.price limit = false) :
    matchLoop uid side limit qty (maker :: rest) depth tid cur =
      ⟨[], 0, maker :: rest, depth, tid, cur⟩ := by
  simp [matchLoop, Decimal.isGreater, hq, hc]

theorem matchLoop_cons_skip (uid : String) (side : Side) (limit qty : Rat)
    (maker : Order) (rest : List Order) (depth : DepthMap) (tid : Nat) (cur : Rat)
    (hq : 0 < qty) (hc : pricesCross side maker.price limit = true)
    (hu : maker.userId = uid) :
    matchLoop uid side limit qty (maker :: rest) depth tid cur =
      ⟨(matchLoop uid side limit qty rest depth tid cur).fills,
        (matchLoop uid side limit qty rest depth tid cur).executedQty,
        maker :: (matchLoop uid side limit qty rest depth tid cur).book,
        (matchLoop uid side limit qty rest depth tid cur).depth,
        (matchLoop uid side limit qty rest depth tid cur).lastTradeId,
        (matchLoop uid side limit qty rest depth tid cur).currentPrice⟩ := by
  simp [matchLoop, Decimal.isGreater, hq, hc, hu]

theorem matchLoop_cons_full (uid : String) (side : Side) (limit qty : Rat)
    (maker : Order) (rest : List Order) (depth : DepthMap) (tid : Nat) (cur : Rat)
    (hq : 0 < qty) (hc : pricesCross side maker.price limit = true)
    (hu : maker.userId ≠ uid)
    (hfull : maker.filled + Min.min qty (maker.quantity - maker.filled) =
      maker.quantity) :
    matchLoop uid side limit qty (maker :: rest) depth tid cur =
      ⟨⟨maker.price, Min.min qty (maker.quantity - maker.filled), tid,
          maker.userId, maker.orderId⟩ ::
          (matchLoopFillRest uid side limit qty maker rest depth tid).fills,
        Min.min qty (maker.quantity - maker.filled) +
          (matchLoopFillRest uid side limit qty maker rest depth tid).executedQty,
        (matchLoopFillRest uid side limit qty maker rest depth tid).book,
        (matchLoopFillRest uid side limit qty maker rest depth tid).depth,
        (matchLoopFillRest uid side limit qty maker rest depth tid).lastTradeId,
        (matchLoopFillRest uid side limit qty maker rest depth tid).currentPrice⟩ := by
  have hfull2 : Decimal.isEqual
      (maker.filled + Min.min qty (maker.quantity - maker.filled))
      maker.quantity = true := by
    rw [Decimal.isEqual]; simp [hfull]
  simp [matchLoop, matchLoopFillRest, Decimal.isGreater, hq, hc, hu,
    Decimal.min_eq, Decimal.subtract_eq, Decimal.add_eq, hfull2]

theorem matchLoop_cons_part (uid : String) (side : Side) (limit qty : Rat)
    (maker : Order) (rest : List Order) (depth : DepthMap) (tid : Nat) (cur : Rat)
    (hq : 0 < qty) (hc : pricesCross side maker.price limit = true)
    (hu : maker.userId ≠ uid)
    (hpart : maker.filled + Min.min qty (maker.quantity - maker.filled) ≠
      maker.quantity) :
    matchLoop uid side limit qty (maker :: rest) depth tid cur =
      ⟨⟨maker.price, Min.min qty (maker.quantity - maker.filled), tid,
          maker.userId, maker.orderId⟩ ::
          (matchLoopFillRest uid side limit qty maker rest depth tid).fills,
        Min.min qty (maker.quantity - maker.filled) +
          (matchLoopFillRest uid side limit qty maker rest depth tid).executedQty,
        { maker with filled := maker.filled + Min.min qty (maker.quantity - maker.filled) } ::
          (matchLoopFillRest uid side limit qty maker rest depth tid).book,
        (matchLoopFillRest uid side limit qty maker rest depth tid).depth,
        (matchLoopFillRest uid side limit qty maker rest depth tid).lastTradeId,
        (matchLoopFillRest uid side limit qty maker rest depth tid).currentPrice⟩ := by
  have hpartial2 : Decimal.isEqual
      (maker.filled + Min.min qty (maker.quantity - maker.filled))
      maker.quantity = false := by
    rw [Decimal.isEqual]; simp [hpart]
  simp [matchLoop, matchLoopFillRest, Decimal.isGreater, hq, hc, hu,
    Decimal.min_eq, Decimal.subtract_eq, Decimal.add_eq, hpartial2]

/-- In the partial-fill branch, `min qty rem ≠ rem` forces `min qty rem = qty`
and `qty < rem`: the taker is exhausted. -/
theorem partial_fillQty_eq {qty filled quantity : Rat}
    (hpart : filled + Min.min qty (quantity - filled) ≠ quantity) :
    Min.min qty (quantity - filled) = qty ∧ qty < quantity - filled := by
  rcases min_choice qty (quantity - filled) with h | h
  · refine ⟨h, ?_⟩
    have hle : Min.min qty (quantity - filled) ≤ quantity - filled := min_le_right _ _
    rw [h] at hle
    rcases lt_or_eq_of_le hle with h2 | h2
    · exact h2
    · exact absurd (by rw [h, h2]; ring) hpart
  · exact absurd (by rw [h]; ring) hpart

/-- When the taker is exhausted, the fill-branch recursive call is inert. -/
theorem matchLoopFillRest_exhausted (uid : String) (side : Side) (limit qty : Rat)
    (maker : Order) (rest : List Order) (depth : DepthMap) (tid : Nat)
    (hfillq : Min.min qty (maker.quantity - maker.filled) = qty) :
    matchLoopFillRest uid side limit qty maker rest depth tid =
      ⟨[], 0, rest, DepthMap.update depth maker.price (0 - qty), tid + 1,
        maker.price⟩ := by
  simp only [matchLoopFillRest, hfillq, sub_self]
  exact matchLoop_nonpos uid side limit 0 rest _ (tid + 1) maker.price (by norm_num)

/-- Depth agreement through the matching loop, with a frame `C` holding the
aggregate contribution of skipped makers sitting in front of the part of the
book still being processed. -/
theorem matchLoop_depth_frame (uid : String) (side : Side) (limit : Rat) :
    ∀ (qty : Rat) (book : List Order) (depth : DepthMap) (tid : Nat) (cur : Rat)
      (C : Rat → Rat), (∀ p, 0 ≤ C p) → PosBook book →
      (∀ p, depth p =
        if 0 < C p + aggAt book p then some (C p + aggAt book p) else none) →
      ∀ p, (matchLoop uid side limit qty book depth tid cur).depth p =
        if 0 < C p + aggAt (matchLoop uid side limit qty book depth tid cur).book p
        then some (C p + aggAt (matchLoop uid side limit qty book depth tid cur).book p)
        else none
  | qty, [], depth, tid, cur => by
    intro C hC hpos hd p
    simpa [matchLoop] using hd p
  | qty, maker :: rest, depth, tid, cur => by
    intro C hC hpos hd p
    have hposrest : PosBook rest := fun o ho => hpos o (List.mem_cons_of_mem _ ho)
    have hrem : 0 < maker.quantity - maker.filled := by
      have := hpos maker (List.mem_cons_self ..)
      linarith
    by_cases hq : 0 < qty
    · by_cases hc : pricesCross side maker.price limit
      · by_cases hu : maker.userId = uid
        · -- skip branch
          rw [matchLoop_cons_skip uid side limit qty maker rest depth tid cur hq hc hu]
          have hC' : ∀ q, 0 ≤ C q +
              (if maker.price = q then maker.quantity - maker.filled else 0) := by
            intro q
            have := hC q
            by_cases h : maker.price = q <;> simp [h] <;> linarith
          have hd' : ∀ q, depth q =
              if 0 < (C q + (if maker.price = q then maker.quantity - maker.filled else 0))
                  + aggAt rest q
              then some ((C q + (if maker.price = q then maker.quantity - maker.filled else 0))
                  + aggAt rest q)
              else none := by
            intro q
            have he : C q + aggAt (maker :: rest) q =
                (C q + (if maker.price = q then maker.quantity - maker.filled else 0))
                  + aggAt rest q := by
              rw [aggAt_cons]; ring
            rw [hd q, he]
          have IH := matchLoop_depth_frame uid side limit qty rest depth tid cur
            (fun q => C q + (if maker.price = q then maker.quantity - maker.filled else 0))
            hC' hposrest hd' p
          have he2 : C p + aggAt (maker ::
              (matchLoop uid side limit qty rest depth tid cur).book) p =
              (C p + (if maker.price = p then maker.quantity - maker.filled else 0))
                + aggAt (matchLoop uid side limit qty rest depth tid cur).book p := by
            rw [aggAt_cons]; ring
          simpa [he2] using IH
        · by_cases hfull : maker.filled + Min.min qty (maker.quantity - maker.filled) =
              maker.quantity
          · -- full fill
            rw [matchLoop_cons_full uid side limit qty maker rest depth tid cur hq hc hu hfull]
            have hfillq : Min.min qty (maker.quantity - maker.filled) =
                maker.quantity - maker.filled := by linarith
            have hd' : ∀ q,
                DepthMap.update depth maker.price
                  (0 - Min.min qty (maker.quantity - maker.filled)) q =
                if 0 < C q + aggAt rest q then some (C q + aggAt rest q) else none := by
              intro q
              rw [DepthMap.update_apply, hfillq]
              by_cases hqp : q = maker.price
              · rw [if_pos hqp, hqp]
                have h2 := aggAt_nonneg hposrest maker.price
                have h3 := hC maker.price
                have hcond : 0 < C maker.price + aggAt (maker :: rest) maker.price := by
                  rw [aggAt_cons_self]
                  linarith
                have hcur : depth.getD maker.price =
                    C maker.price + ((maker.quantity - maker.filled) + aggAt rest maker.price) := by
                  rw [DepthMap.getD, hd maker.price, if_pos hcond, Option.getD_some,
                    aggAt_cons_self]
                rw [hcur]
                by_cases hle : C maker.price
                    + ((maker.quantity - maker.filled) + aggAt rest maker.price)
                    + (0 - (maker.quantity - maker.filled)) ≤ 0
                · rw [if_pos hle]
                  have hz : C maker.price + aggAt rest maker.price = 0 := by linarith
                  rw [hz]
                  simp
                · rw [if_neg hle]
                  have hpos2 : 0 < C maker.price + aggAt rest maker.price := by
                    by_contra hcon
                    push_neg at hcon
                    exact hle (by linarith)
                  rw [if_pos hpos2]
                  congr 1
                  ring
              · rw [if_neg hqp, hd q,
                  aggAt_cons_ne maker rest q (fun h => hqp h.symm)]
            have IH := matchLoop_depth_frame uid side limit
              (qty - Min.min qty (maker.quantity - maker.filled)) rest
              (DepthMap.update depth maker.price
                (0 - Min.min qty (maker.quantity - maker.filled)))
              (tid + 1) maker.price C hC hposrest hd' p
            simpa [matchLoopFillRest] using IH
          · -- partial fill: taker exhausted, maker kept
            rw [matchLoop_cons_part uid side limit qty maker rest depth tid cur hq hc hu hfull]
            obtain ⟨hfillq, hqlt⟩ := partial_fillQty_eq hfull
            rw [matchLoopFillRest_exhausted uid side limit qty maker rest depth tid hfillq]
            simp only [hfillq]
            rw [DepthMap.update_apply]
            by_cases hqp : p = maker.price
            · rw [if_pos hqp, hqp]
              have h2 := aggAt_nonneg hposrest maker.price
              have h3 := hC maker.price
              have hcond : 0 < C maker.price + aggAt (maker :: rest) maker.price := by
                rw [aggAt_cons_self]
                linarith
              have hcur : depth.getD maker.price =
                  C maker.price + ((maker.quantity - maker.filled) + aggAt rest maker.price) := by
                rw [DepthMap.getD, hd maker.price, if_pos hcond, Option.getD_some,
                  aggAt_cons_self]
              rw [hcur]
              have hagg : aggAt ({ maker with filled := maker.filled + qty } :: rest)
                  maker.price =
                  ((maker.quantity - (maker.filled + qty)) + aggAt rest maker.price) := by
                rw [aggAt_cons]
                simp
              have hposnew : 0 <
                  C maker.price
                    + ((maker.quantity - (maker.filled + qty)) + aggAt rest maker.price) := by
                linarith
              have hnle : ¬ C maker.price
                  + ((maker.quantity - maker.filled) + aggAt rest maker.price)
                  + (0 - qty) ≤ 0 := by
                intro h
                apply absurd hposnew
                push_neg
                linarith
              rw [if_neg hnle, hagg, if_pos hposnew]
              congr 1
              ring
            · rw [if_neg hqp, hd p]
              have hne : ¬ maker.price = p := fun h => hqp h.symm
              have hagg1 : aggAt ({ maker with filled := maker.filled + qty } :: rest) p =
                  aggAt rest p := by
                rw [aggAt_cons]
                simp [hne]
              rw [hagg1, aggAt_cons_ne maker rest p hne]
      · rw [matchLoop_cons_nocross uid side limit qty maker rest depth tid cur hq
          (by simpa using hc)]
        exact hd p
    · rw [matchLoop_nonpos uid side limit qty _ depth tid cur hq]
      exact hd p

/-- If the loop stops with taker quantity left over, no remaining maker
crosses the limit (provided the book is sorted for its side and holds no
crossing order of the incoming user). -/
theorem matchLoop_stop (uid : String) (side : Side) (limit : Rat)
    (R : Order → Order → Prop)
    (hmono : ∀ a b : Order, R a b → pricesCross side b.price limit = true →
      pricesCross side a.price limit = true) :
    ∀ (qty : Rat) (book : List Order) (depth : DepthMap) (tid : Nat) (cur : Rat),
      book.Pairwise R →
      (∀ o ∈ book, o.userId = uid → pricesCross side o.price limit = false) →
      (matchLoop uid side limit qty book depth tid cur).executedQty < qty →
      ∀ o ∈ (matchLoop uid side limit qty book depth tid cur).book,
        pricesCross side o.price limit = false
  | qty, [], depth, tid, cur => by simp [matchLoop]
  | qty, maker :: rest, depth, tid, cur => by
    intro hsort hown hexec o ho
    have hsortrest : rest.Pairwise R := (List.pairwise_cons.mp hsort).2
    have hR : ∀ o ∈ rest, R maker o := (List.pairwise_cons.mp hsort).1
    have hownrest : ∀ o ∈ rest, o.userId = uid →
        pricesCross side o.price limit = false :=
      fun o ho h => hown o (List.mem_cons_of_mem _ ho) h
    by_cases hq : 0 < qty
    · by_cases hc : pricesCross side maker.price limit
      · by_cases hu : maker.userId = uid
        · exact absurd (hown maker (List.mem_cons_self ..) hu) (by simp [hc])
        · by_cases hfull : maker.filled + Min.min qty (maker.quantity - maker.filled) =
              maker.quantity
          · rw [matchLoop_cons_full uid side limit qty maker rest depth tid cur
              hq hc hu hfull] at hexec ho
            simp only at hexec ho
            have hexec' : (matchLoopFillRest uid side limit qty maker rest depth tid).executedQty <
                qty - Min.min qty (maker.quantity - maker.filled) := by
              linarith
            exact matchLoop_stop uid side limit R hmono _ rest _ (tid + 1) maker.price
              hsortrest hownrest hexec' o ho
          · rw [matchLoop_cons_part uid side limit qty maker rest depth tid cur
              hq hc hu hfull] at hexec
            obtain ⟨hfillq, _⟩ := partial_fillQty_eq hfull
            rw [matchLoopFillRest_exhausted uid side limit qty maker rest depth tid hfillq]
              at hexec
            simp only [hfillq] at hexec
            exact absurd hexec (by simp)
      · rw [matchLoop_cons_nocross uid side limit qty maker rest depth tid cur hq
          (by simpa using hc)] at ho
        simp only [List.mem_cons] at ho
        rcases ho with rfl | ho
        · simpa using hc
        · by_contra hcon
          have : pricesCross side o.price limit = true := by
            cases h : pricesCross side o.price limit
            · exact absurd h hcon
            · rfl
          exact absurd (hmono maker o (hR o ho) this) (by simpa using hc)
    · rw [matchLoop_nonpos uid side limit qty _ depth tid cur hq] at hexec
      simp only at hexec
      exact absurd hq (by intro h; exact absurd hexec (by simp; linarith))

/-- Pairwise price relations survive the matching loop. -/
theorem matchLoop_book_pairwise (uid : String) (side : Side) (limit qty : Rat)
    (book : List Order) (depth : DepthMap) (tid : Nat) (cur : Rat)
    (Q : Rat → Rat → Prop) (h : book.Pairwise fun a b => Q a.price b.price) :
    (matchLoop uid side limit qty book depth tid cur).book.Pairwise
      fun a b => Q a.price b.price := by
  have h1 : (book.map Order.price).Pairwise Q := List.pairwise_map.mpr h
  exact List.pairwise_map.mp
    (List.Pairwise.sublist
      (matchLoop_book_price_sublist uid side limit qty book depth tid cur) h1)

/-- Fill prices inherit the book's pairwise price relation. -/
theorem matchLoop_fills_pairwise (uid : String) (side : Side) (limit qty : Rat)
    (book : List Order) (depth : DepthMap) (tid : Nat) (cur : Rat)
    (Q : Rat → Rat → Prop) (h : book.Pairwise fun a b => Q a.price b.price) :
    (matchLoop uid side limit qty book depth tid cur).fills.Pairwise
      fun a b => Q a.price b.price := by
  have h1 : (book.map Order.price).Pairwise Q := List.pairwise_map.mpr h
  exact List.pairwise_map.mp
    (List.Pairwise.sublist
      (matchLoop_fills_price_sublist uid side limit qty book depth tid cur) h1)

/-! ### Binary-search insertion -/

/-- Bracketing property of the binary-search loop: for a test monotone along
the array, it returns the first index where the test holds. -/
theorem findInsertLoop_bracket (arr : List Order) (price : Rat) (side : Side)
    (hmono : ∀ j k, j ≤ k → k < arr.length →
      goLeftAt arr price side j = true → goLeftAt arr price side k = true) :
    ∀ low high, low ≤ high → high ≤ arr.length →
      (∀ j, j < low → goLeftAt arr price side j = false) →
      (∀ j, high ≤ j → j < arr.length → goLeftAt arr price side j = true) →
      low ≤ findInsertLoop arr price side low high ∧
      findInsertLoop arr price side low high ≤ high ∧
      (∀ j, j < findInsertLoop arr price side low high →
        goLeftAt arr price side j = false) ∧
      (∀ j, findInsertLoop arr price side low high ≤ j → j < arr.length →
        goLeftAt arr price side j = true) := by
  intro low high
  intro hlh hhl hA hB
  rw [findInsertLoop]
  by_cases h : low < high
  · rw [dif_pos h]
    have hmidlt : (low + high) / 2 < high := by omega
    have hmidge : low ≤ (low + high) / 2 := by omega
    by_cases hgl : goLeftAt arr price side ((low + high) / 2) = true
    · rw [if_pos hgl]
      exact (findInsertLoop_bracket arr price side hmono low ((low + high) / 2)
        hmidge (by omega) hA
        (fun j hj hjlen => hmono ((low + high) / 2) j hj hjlen hgl)).imp
        id (fun h2 => ⟨by omega, h2.2⟩)
    · have hgl' : goLeftAt arr price side ((low + high) / 2) = false := by
        cases h2 : goLeftAt arr price side ((low + high) / 2)
        · rfl
        · exact absurd h2 hgl
      rw [if_neg (by simp [hgl'])]
      have hA' : ∀ j, j < (low + high) / 2 + 1 → goLeftAt arr price side j = false := by
        intro j hj
        by_cases hjl : j < low
        · exact hA j hjl
        · cases h2 : goLeftAt arr price side j
          · rfl
          · exact absurd (hmono j ((low + high) / 2) (by omega) (by omega) h2)
              (by simp [hgl'])
      exact (findInsertLoop_bracket arr price side hmono ((low + high) / 2 + 1) high
        (by omega) hhl hA' hB).imp (fun h2 => by omega) id
  · rw [dif_neg h]
    have : low = high := by omega
    exact ⟨le_refl _, by omega, hA, fun j hj hjlen => hB j (by omega) hjlen⟩
termination_by low high => high - low
decreasing_by
  · omega
  · omega

/-- Inserting at a position bracketed by the pairwise relation preserves
`Pairwise`. -/
theorem pairwise_insertIdx {α : Type} {R : α → α → Prop} :
    ∀ (l : List α) (i : Nat) (x : α), i ≤ l.length →
      (∀ (j : Nat) (hj : j < l.length), j < i → R (l.get ⟨j, hj⟩) x) →
      (∀ (j : Nat) (hj : j < l.length), i ≤ j → R x (l.get ⟨j, hj⟩)) →
      l.Pairwise R → (l.insertIdx i x).Pairwise R
  | l, 0, x => by
    intro hlen h1 h2 hp
    rw [List.insertIdx_zero]
    rw [List.pairwise_cons]
    refine ⟨?_, hp⟩
    intro y hy
    obtain ⟨⟨n, hn⟩, rfl⟩ := List.mem_iff_get.mp hy
    exact h2 n hn (Nat.zero_le n)
  | [], i + 1, x => by
    intro hlen
    simp at hlen
  | a :: t, i + 1, x => by
    intro hlen h1 h2 hp
    rw [List.insertIdx_succ_cons, List.pairwise_cons]
    obtain ⟨ha, hpt⟩ := List.pairwise_cons.mp hp
    refine ⟨?_, pairwise_insertIdx t i x (by simpa using hlen) ?_ ?_ hpt⟩
    · intro y hy
      rw [List.mem_insertIdx (by simpa using hlen)] at hy
      rcases hy with rfl | hy
      · have := h1 0 (by simp) (by omega)
        simpa using this
      · exact ha y hy
    · intro j hj hji
      have := h1 (j + 1) (by simpa using Nat.succ_lt_succ hj) (by omega)
      simpa using this
    · intro j hj hij
      have := h2 (j + 1) (by simpa using Nat.succ_lt_succ hj) (by omega)
      simpa using this

/-! ### Insertion position lemmas -/

theorem goLeftAt_eq (l : List Order) (p : Rat) (side : Side) (j : Nat)
    (hj : j < l.length) :
    goLeftAt l p side j = shouldGoLeft side p l[j] := by
  simp [goLeftAt, List.getElem?_eq_getElem hj]

theorem shouldGoLeft_buy (p : Rat) (o : Order) :
    shouldGoLeft Side.buy p o = decide (o.price < p) := rfl

theorem shouldGoLeft_sell (p : Rat) (o : Order) :
    shouldGoLeft Side.sell p o = decide (p < o.price) := rfl

/-- The binary-search index for a bid: everything before is priced ≥ the new
price, everything from the index on is priced strictly below it. -/
theorem findInsertIndex_buy_bracket (l : List Order) (p : Rat)
    (hs : SortedBids l) :
    findInsertIndex l p Side.buy ≤ l.length ∧
    (∀ (j : Nat) (hj : j < l.length), j < findInsertIndex l p Side.buy →
      p ≤ l[j].price) ∧
    (∀ (j : Nat) (hj : j < l.length), findInsertIndex l p Side.buy ≤ j →
      l[j].price < p) := by
  have hget := List.pairwise_iff_get.mp hs
  have hmono : ∀ j k, j ≤ k → k < l.length →
      goLeftAt l p Side.buy j = true → goLeftAt l p Side.buy k = true := by
    intro j k hjk hk hj
    have hjl : j < l.length := by
      by_contra h
      rw [goLeftAt] at hj
      rw [List.getElem?_eq_none (by omega)] at hj
      simp at hj
    rw [goLeftAt_eq l p Side.buy j hjl, shouldGoLeft_buy] at hj
    rw [goLeftAt_eq l p Side.buy k hk, shouldGoLeft_buy]
    have hjp : l[j].price < p := by simpa using hj
    rcases lt_or_eq_of_le hjk with h | h
    · have := hget ⟨j, hjl⟩ ⟨k, hk⟩ h
      simp only [List.get_eq_getElem] at this
      simp only [decide_eq_true_eq]
      linarith
    · subst h
      simpa using hjp
  have hb := findInsertLoop_bracket l p Side.buy hmono 0 l.length
    (Nat.zero_le _) (le_refl _) (by omega) (by omega)
  refine ⟨hb.2.1, ?_, ?_⟩
  · intro j hj hlt
    have := hb.2.2.1 j hlt
    rw [goLeftAt_eq l p Side.buy j hj, shouldGoLeft_buy] at this
    simpa using this
  · intro j hj hge
    have := hb.2.2.2 j hge hj
    rw [goLeftAt_eq l p Side.buy j hj, shouldGoLeft_buy] at this
    simpa using this

/-- The binary-search index for an ask: everything before is priced ≤ the new
price, everything from the index on is priced strictly above it. -/
theorem findInsertIndex_sell_bracket (l : List Order) (p : Rat)
    (hs : SortedAsks l) :
    findInsertIndex l p Side.sell ≤ l.length ∧
    (∀ (j : Nat) (hj : j < l.length), j < findInsertIndex l p Side.sell →
      l[j].price ≤ p) ∧
    (∀ (j : Nat) (hj : j < l.length), findInsertIndex l p Side.sell ≤ j →
      p < l[j].price) := by
  have hget := List.pairwise_iff_get.mp hs
  have hmono : ∀ j k, j ≤ k → k < l.length →
      goLeftAt l p Side.sell j = true → goLeftAt l p Side.sell k = true := by
    intro j k hjk hk hj
    have hjl : j < l.length := by
      by_contra h
      rw [goLeftAt] at hj
      rw [List.getElem?_eq_none (by omega)] at hj
      simp at hj
    rw [goLeftAt_eq l p Side.sell j hjl, shouldGoLeft_sell] at hj
    rw [goLeftAt_eq l p Side.sell k hk, shouldGoLeft_sell]
    have hjp : p < l[j].price := by simpa using hj
    rcases lt_or_eq_of_le hjk with h | h
    · have := hget ⟨j, hjl⟩ ⟨k, hk⟩ h
      simp only [List.get_eq_getElem] at this
      simp only [decide_eq_true_eq]
      linarith
    · subst h
      simpa using hjp
  have hb := findInsertLoop_bracket l p Side.sell hmono 0 l.length
    (Nat.zero_le _) (le_refl _) (by omega) (by omega)
  refine ⟨hb.2.1, ?_, ?_⟩
  · intro j hj hlt
    have := hb.2.2.1 j hlt
    rw [goLeftAt_eq l p Side.sell j hj, shouldGoLeft_sell] at this
    simpa using this
  · intro j hj hge
    have := hb.2.2.2 j hge hj
    rw [goLeftAt_eq l p Side.sell j hj, shouldGoLeft_sell] at this
    simpa using this

/-- Inserting a bid at the binary-search index keeps the bids sorted. -/
theorem insertBid_sorted (l : List Order) (o : Order) (hs : SortedBids l)
    (hp : o.price = o.price) :
    SortedBids (l.insertIdx (findInsertIndex l o.price Side.buy) o) := by
  obtain ⟨hle, hA, hB⟩ := findInsertIndex_buy_bracket l o.price hs
  refine pairwise_insertIdx l _ o hle ?_ ?_ hs
  · intro j hj hlt
    simp only [List.get_eq_getElem]
    exact hA j hj hlt
  · intro j hj hge
    simp only [List.get_eq_getElem]
    exact le_of_lt (hB j hj hge)

/-- Inserting an ask at the binary-search index keeps the asks sorted. -/
theorem insertAsk_sorted (l : List Order) (o : Order) (hs : SortedAsks l) :
    SortedAsks (l.insertIdx (findInsertIndex l o.price Side.sell) o) := by
  obtain ⟨hle, hA, hB⟩ := findInsertIndex_sell_bracket l o.price hs
  refine pairwise_insertIdx l _ o hle ?_ ?_ hs
  · intro j hj hlt
    simp only [List.get_eq_getElem]
    exact hA j hj hlt
  · intro j hj hge
    simp only [List.get_eq_getElem]
    exact le_of_lt (hB j hj hge)

/-! ### Structural facts about cancellation -/

theorem cancelBid_shape (ob : Orderbook) (c : Order) :
    (ob.cancelBid c).2.bids.Sublist ob.bids ∧
    (ob.cancelBid c).2.asks = ob.asks ∧
    (ob.cancelBid c).2.asksDepth = ob.asksDepth ∧
    (ob.cancelBid c).2.stpMode = ob.stpMode := by
  cases h : ob.bids.findIdx? (fun x => x.orderId = c.orderId) with
  | none =>
    simp only [cancelBid, h]
    exact ⟨List.Sublist.refl _, by trivial, by trivial, by trivial⟩
  | some index =>
    cases h2 : ob.bids[index]? with
    | none =>
      simp only [cancelBid, h, h2]
      exact ⟨List.Sublist.refl _, by trivial, by trivial, by trivial⟩
    | some cancelledOrder =>
      simp only [cancelBid, h, h2]
      exact ⟨List.eraseIdx_sublist _ _, by trivial, by trivial, by trivial⟩

theorem cancelAsk_shape (ob : Orderbook) (c : Order) :
    (ob.cancelAsk c).2.asks.Sublist ob.asks ∧
    (ob.cancelAsk c).2.bids = ob.bids ∧
    (ob.cancelAsk c).2.bidsDepth = ob.bidsDepth ∧
    (ob.cancelAsk c).2.stpMode = ob.stpMode := by
  cases h : ob.asks.findIdx? (fun x => x.orderId = c.orderId) with
  | none =>
    simp only [cancelAsk, h]
    exact ⟨List.Sublist.refl _, by trivial, by trivial, by trivial⟩
  | some index =>
    cases h2 : ob.asks[index]? with
    | none =>
      simp only [cancelAsk, h, h2]
      exact ⟨List.Sublist.refl _, by trivial, by trivial, by trivial⟩
    | some cancelledOrder =>
      simp only [cancelAsk, h, h2]
      exact ⟨List.eraseIdx_sublist _ _, by trivial, by trivial, by trivial⟩

theorem cancelConflicts_shape (conflicts : List Order) :
    ∀ ob : Orderbook,
      (Orderbook.cancelConflicts ob conflicts).bids.Sublist ob.bids ∧
      (Orderbook.cancelConflicts ob conflicts).asks.Sublist ob.asks ∧
      (Orderbook.cancelConflicts ob conflicts).stpMode = ob.stpMode := by
  induction conflicts with
  | nil => intro ob; exact ⟨List.Sublist.refl _, List.Sublist.refl _, rfl⟩
  | cons c rest ih =>
    intro ob
    rw [cancelConflicts]
    cases hside : c.side with
    | buy =>
      obtain ⟨h1, h2, _, h4⟩ := cancelBid_shape ob c
      obtain ⟨g1, g2, g3⟩ := ih (ob.cancelBid c).2
      exact ⟨g1.trans h1, h2 ▸ g2, g3.trans h4⟩
    | sell =>
      obtain ⟨h1, h2, _, h4⟩ := cancelAsk_shape ob c
      obtain ⟨g1, g2, g3⟩ := ih (ob.cancelAsk c).2
      exact ⟨h2 ▸ g1, g2.trans h1, g3.trans h4⟩

/-- The conflicts found by the pre-check walk are a sublist of the walked
book. -/
theorem selfTradeConflicts_sublist (uid : String) (side : Side) (price : Rat) :
    ∀ book : List Order, (selfTradeConflicts uid side price book).Sublist book
  | [] => by simp [selfTradeConflicts]
  | r :: rest => by
    rw [selfTradeConflicts_cons]
    by_cases hm : pricesCross side r.price price
    · rw [if_pos hm]
      by_cases hu : r.userId = uid
      · rw [if_pos hu]
        exact (selfTradeConflicts_sublist uid side price rest).cons₂ r
      · rw [if_neg hu]
        exact (selfTradeConflicts_sublist uid side price rest).cons r
    · rw [if_neg hm]
      exact List.nil_sublist _

/-- Every conflict is a crossing resting order of the user. -/
theorem selfTradeConflicts_mem (uid : String) (side : Side) (price : Rat) :
    ∀ book : List Order, ∀ o ∈ selfTradeConflicts uid side price book,
      o ∈ book ∧ o.userId = uid ∧ pricesCross side o.price price = true
  | [] => by simp [selfTradeConflicts]
  | r :: rest => by
    intro o ho
    rw [selfTradeConflicts_cons] at ho
    by_cases hm : pricesCross side r.price price
    · rw [if_pos hm] at ho
      by_cases hu : r.userId = uid
      · rw [if_pos hu] at ho
        rcases List.mem_cons.mp ho with rfl | ho'
        · exact ⟨List.mem_cons_self .., hu, by simpa using hm⟩
        · obtain ⟨h1, h2, h3⟩ := selfTradeConflicts_mem uid side price rest o ho'
          exact ⟨List.mem_cons_of_mem _ h1, h2, h3⟩
      · rw [if_neg hu] at ho
        simp only [List.nil_append] at ho
        obtain ⟨h1, h2, h3⟩ := selfTradeConflicts_mem uid side price rest o ho
        exact ⟨List.mem_cons_of_mem _ h1, h2, h3⟩
    · rw [if_neg hm] at ho
      simp at ho


/-- On a sorted opposite book every crossing own order is collected as a
conflict. -/
theorem selfTradeConflicts_mem_of (uid : String) (side : Side) (price : Rat)
    (R : Order → Order → Prop)
    (hmono : ∀ a b : Order, R a b → pricesCross side b.price price = true →
      pricesCross side a.price price = true) :
    ∀ book : List Order, book.Pairwise R →
      ∀ o ∈ book, o.userId = uid → pricesCross side o.price price = true →
      o ∈ selfTradeConflicts uid side price book
  | [] => by simp
  | r :: rest => by
    intro hsort o ho hown hcross
    have hsortrest : rest.Pairwise R := (List.pairwise_cons.mp hsort).2
    have hR : ∀ o ∈ rest, R r o := (List.pairwise_cons.mp hsort).1
    rw [selfTradeConflicts_cons]
    rcases List.mem_cons.mp ho with rfl | ho'
    · rw [if_pos (by simp [hcross]), if_pos hown]
      exact List.mem_append_left _ (List.mem_singleton.mpr rfl)
    · have hm : pricesCross side r.price price = true := hmono r o (hR o ho') hcross
      rw [if_pos (by simp [hm])]
      exact List.mem_append_right _
        (selfTradeConflicts_mem_of uid side price R hmono rest hsortrest o ho' hown hcross)

/-- Removing a list of ask-side conflicts: membership characterization by
order id. -/
theorem cancelConflicts_asks_mem :
    ∀ (conflicts : List Order) (ob : Orderbook),
      (conflicts.map Order.orderId).Nodup →
      (∀ c ∈ conflicts, c ∈ ob.asks ∧ c.side = Side.sell) →
      (ob.asks.map Order.orderId).Nodup →
      (∀ o, o ∈ (Orderbook.cancelConflicts ob conflicts).asks ↔
        (o ∈ ob.asks ∧ o.orderId ∉ conflicts.map Order.orderId)) ∧
      (Orderbook.cancelConflicts ob conflicts).bids = ob.bids
  | [], ob => by
    intro _ _ _
    constructor
    · intro o
      simp [Orderbook.cancelConflicts]
    · simp [Orderbook.cancelConflicts]
  | c :: rest, ob => by
    intro hcN hcm haN
    have hcmem : c ∈ ob.asks := (hcm c (List.mem_cons_self ..)).1
    have hcside : c.side = Side.sell := (hcm c (List.mem_cons_self ..)).2
    obtain ⟨i, hi, hidx, hid, hspec⟩ :=
      Orderbook.cancelAsk_spec ob c ⟨c, hcmem, rfl⟩
    have hstep : Orderbook.cancelConflicts ob (c :: rest) =
        Orderbook.cancelConflicts (ob.cancelAsk c).2 rest := by
      simp only [Orderbook.cancelConflicts, hcside]
    have hasks' : (ob.cancelAsk c).2.asks =
        ob.asks.eraseIdx (List.findIdx (fun x => x.orderId = c.orderId) ob.asks) := by
      rw [hspec, hidx]
    have herase := fun o => Orderbook.eraseById_mem ob.asks c haN hcmem o
    have hN' : ((ob.cancelAsk c).2.asks.map Order.orderId).Nodup := by
      rw [hasks']
      exact ((List.eraseIdx_sublist _ _).map _).nodup haN
    have hN2 := hcN
    simp only [List.map_cons, List.nodup_cons] at hN2
    have hrestN : (rest.map Order.orderId).Nodup := hN2.2
    have hcid : c.orderId ∉ rest.map Order.orderId := hN2.1
    have hrestm : ∀ c' ∈ rest, c' ∈ (ob.cancelAsk c).2.asks ∧ c'.side = Side.sell := by
      intro c' hc'
      have h1 := hcm c' (List.mem_cons_of_mem _ hc')
      refine ⟨?_, h1.2⟩
      rw [hasks']
      rw [herase c']
      refine ⟨h1.1, ?_⟩
      intro h
      exact hcid (h ▸ List.mem_map_of_mem Order.orderId hc')
    obtain ⟨IH1, IH2⟩ := cancelConflicts_asks_mem rest (ob.cancelAsk c).2 hrestN hrestm hN'
    constructor
    · intro o
      rw [hstep, IH1 o, hasks', herase o]
      simp only [List.map_cons, List.mem_cons]
      constructor
      · rintro ⟨⟨h1, h2⟩, h3⟩
        exact ⟨h1, by simp [h2, h3]⟩
      · rintro ⟨h1, h2⟩
        push_neg at h2
        exact ⟨⟨h1, h2.1⟩, h2.2⟩
    · rw [hstep, IH2, hspec]

/-- Removing a list of bid-side conflicts: membership characterization by
order id. -/
theorem cancelConflicts_bids_mem :
    ∀ (conflicts : List Order) (ob : Orderbook),
      (conflicts.map Order.orderId).Nodup →
      (∀ c ∈ conflicts, c ∈ ob.bids ∧ c.side = Side.buy) →
      (ob.bids.map Order.orderId).Nodup →
      (∀ o, o ∈ (Orderbook.cancelConflicts ob conflicts).bids ↔
        (o ∈ ob.bids ∧ o.orderId ∉ conflicts.map Order.orderId)) ∧
      (Orderbook.cancelConflicts ob conflicts).asks = ob.asks
  | [], ob => by
    intro _ _ _
    constructor
    · intro o
      simp [Orderbook.cancelConflicts]
    · simp [Orderbook.cancelConflicts]
  | c :: rest, ob => by
    intro hcN hcm hbN
    have hcmem : c ∈ ob.bids := (hcm c (List.mem_cons_self ..)).1
    have hcside : c.side = Side.buy := (hcm c (List.mem_cons_self ..)).2
    obtain ⟨i, hi, hidx, hid, hspec⟩ :=
      Orderbook.cancelBid_spec ob c ⟨c, hcmem, rfl⟩
    have hstep : Orderbook.cancelConflicts ob (c :: rest) =
        Orderbook.cancelConflicts (ob.cancelBid c).2 rest := by
      simp only [Orderbook.cancelConflicts, hcside]
    have hbids' : (ob.cancelBid c).2.bids =
        ob.bids.eraseIdx (List.findIdx (fun x => x.orderId = c.orderId) ob.bids) := by
      rw [hspec, hidx]
    have herase := fun o => Orderbook.eraseById_mem ob.bids c hbN hcmem o
    have hN' : ((ob.cancelBid c).2.bids.map Order.orderId).Nodup := by
      rw [hbids']
      exact ((List.eraseIdx_sublist _ _).map _).nodup hbN
    have hN2 := hcN
    simp only [List.map_cons, List.nodup_cons] at hN2
    have hrestN : (rest.map Order.orderId).Nodup := hN2.2
    have hcid : c.orderId ∉ rest.map Order.orderId := hN2.1
    have hrestm : ∀ c' ∈ rest, c' ∈ (ob.cancelBid c).2.bids ∧ c'.side = Side.buy := by
      intro c' hc'
      have h1 := hcm c' (List.mem_cons_of_mem _ hc')
      refine ⟨?_, h1.2⟩
      rw [hbids']
      rw [herase c']
      refine ⟨h1.1, ?_⟩
      intro h
      exact hcid (h ▸ List.mem_map_of_mem Order.orderId hc')
    obtain ⟨IH1, IH2⟩ := cancelConflicts_bids_mem rest (ob.cancelBid c).2 hrestN hrestm hN'
    constructor
    · intro o
      rw [hstep, IH1 o, hbids', herase o]
      simp only [List.map_cons, List.mem_cons]
      constructor
      · rintro ⟨⟨h1, h2⟩, h3⟩
        exact ⟨h1, by simp [h2, h3]⟩
      · rintro ⟨h1, h2⟩
        push_neg at h2
        exact ⟨⟨h1, h2.1⟩, h2.2⟩
    · rw [hstep, IH2, hspec]


/-! ### addOrderAfterStp specification -/

theorem addOrderAfterStp_buy_spec (ob : Orderbook) (order : Order)
    (hside : order.side = Side.buy) (r : MatchResult)
    (hr : r = matchLoop order.userId Side.buy order.price order.quantity ob.asks
      ob.asksDepth ob.lastTradeId ob.currentPrice) :
    (ob.addOrderAfterStp order).2 =
      (if r.executedQty < order.quantity then
        { ob with
          asks := r.book
          asksDepth := r.depth
          lastTradeId := r.lastTradeId
          currentPrice := r.currentPrice
          bids := ob.bids.insertIdx (findInsertIndex ob.bids order.price Side.buy)
            { order with filled := r.executedQty }
          bidsDepth := DepthMap.update ob.bidsDepth order.price
            (order.quantity - r.executedQty) }
      else
        { ob with
          asks := r.book
          asksDepth := r.depth
          lastTradeId := r.lastTradeId
          currentPrice := r.currentPrice }) ∧
    (ob.addOrderAfterStp order).1 =
      { status :=
          if r.executedQty < order.quantity then
            (if 0 < r.executedQty then OrderStatus.PARTIALLY_FILLED
             else OrderStatus.ACCEPTED)
          else OrderStatus.ACCEPTED
        executedQty := r.executedQty
        fills := r.fills } := by
  simp only [addOrderAfterStp, matchOrder, hside, ← hr, Decimal.isLess,
    Decimal.isGreater, Decimal.subtract_eq]
  by_cases hres : r.executedQty < order.quantity <;>
    by_cases hgt : 0 < r.executedQty <;> simp [hres, hgt]

theorem addOrderAfterStp_sell_spec (ob : Orderbook) (order : Order)
    (hside : order.side = Side.sell) (r : MatchResult)
    (hr : r = matchLoop order.userId Side.sell order.price order.quantity ob.bids
      ob.bidsDepth ob.lastTradeId ob.currentPrice) :
    (ob.addOrderAfterStp order).2 =
      (if r.executedQty < order.quantity then
        { ob with
          bids := r.book
          bidsDepth := r.depth
          lastTradeId := r.lastTradeId
          currentPrice := r.currentPrice
          asks := ob.asks.insertIdx (findInsertIndex ob.asks order.price Side.sell)
            { order with filled := r.executedQty }
          asksDepth := DepthMap.update ob.asksDepth order.price
            (order.quantity - r.executedQty) }
      else
        { ob with
          bids := r.book
          bidsDepth := r.depth
          lastTradeId := r.lastTradeId
          currentPrice := r.currentPrice }) ∧
    (ob.addOrderAfterStp order).1 =
      { status :=
          if r.executedQty < order.quantity then
            (if 0 < r.executedQty then OrderStatus.PARTIALLY_FILLED
             else OrderStatus.ACCEPTED)
          else OrderStatus.ACCEPTED
        executedQty := r.executedQty
        fills := r.fills } := by
  simp only [addOrderAfterStp, matchOrder, hside, ← hr, Decimal.isLess,
    Decimal.isGreater, Decimal.subtract_eq]
  by_cases hres : r.executedQty < order.quantity <;>
    by_cases hgt : 0 < r.executedQty <;> simp [hres, hgt]

theorem pricesCross_buy_mono (limit : Rat) (a b : Order)
    (hab : a.price ≤ b.price) (hb : pricesCross Side.buy b.price limit = true) :
    pricesCross Side.buy a.price limit = true := by
  simp only [pricesCross, Decimal.isLessOrEqual, decide_eq_true_eq] at hb ⊢
  linarith

theorem pricesCross_sell_mono (limit : Rat) (a b : Order)
    (hab : b.price ≤ a.price) (hb : pricesCross Side.sell b.price limit = true) :
    pricesCross Side.sell a.price limit = true := by
  simp only [pricesCross, Decimal.isGreaterOrEqual, decide_eq_true_eq] at hb ⊢
  linarith

/-- Matching then resting the residue preserves sortedness of both sides and
the absence of crossing, provided the opposite book holds no crossing order
of the incoming user. -/
theorem addOrderAfterStp_geometry (ob : Orderbook) (order : Order)
    (hbs : SortedBids ob.bids) (has : SortedAsks ob.asks)
    (hnc : NoCross ob.bids ob.asks)
    (hnoown : ∀ o ∈ (match order.side with
        | Side.buy => ob.asks
        | Side.sell => ob.bids), o.userId = order.userId →
      pricesCross order.side o.price order.price = false) :
    SortedBids (ob.addOrderAfterStp order).2.bids ∧
    SortedAsks (ob.addOrderAfterStp order).2.asks ∧
    NoCross (ob.addOrderAfterStp order).2.bids (ob.addOrderAfterStp order).2.asks := by
  cases hside : order.side with
  | buy =>
    simp only [hside] at hnoown
    have hspec := (addOrderAfterStp_buy_spec ob order hside
      (matchLoop order.userId Side.buy order.price order.quantity ob.asks
        ob.asksDepth ob.lastTradeId ob.currentPrice) rfl).1
    set r := matchLoop order.userId Side.buy order.price order.quantity ob.asks
      ob.asksDepth ob.lastTradeId ob.currentPrice with hrdef
    rw [hspec]
    have hsortedasks : SortedAsks r.book := by
      rw [hrdef]
      exact matchLoop_book_pairwise order.userId Side.buy order.price order.quantity
        ob.asks ob.asksDepth ob.lastTradeId ob.currentPrice (fun a b => a ≤ b) has
    have hmem : ∀ a ∈ r.book, ∃ a0 ∈ ob.asks, a.price = a0.price := by
      intro a ha
      rw [hrdef] at ha
      obtain ⟨a0, ha0, hp, _, _⟩ := matchLoop_book_mem order.userId Side.buy order.price
        order.quantity ob.asks ob.asksDepth ob.lastTradeId ob.currentPrice a ha
      exact ⟨a0, ha0, hp⟩
    by_cases hq : r.executedQty < order.quantity
    · rw [if_pos hq]
      have hstop : ∀ a ∈ r.book, pricesCross Side.buy a.price order.price = false := by
        intro a ha
        rw [hrdef] at ha
        exact matchLoop_stop order.userId Side.buy order.price
          (fun x y => x.price ≤ y.price) (pricesCross_buy_mono order.price)
          order.quantity ob.asks ob.asksDepth ob.lastTradeId ob.currentPrice
          has hnoown (by rw [← hrdef]; exact hq) a ha
      refine ⟨?_, hsortedasks, ?_⟩
      · exact insertBid_sorted ob.bids { order with filled := r.executedQty } hbs rfl
      · intro b hb a ha
        have hlen := (findInsertIndex_buy_bracket ob.bids order.price hbs).1
        rw [List.mem_insertIdx hlen] at hb
        rcases hb with rfl | hb
        · have := hstop a ha
          simp only [pricesCross, Decimal.isLessOrEqual, decide_eq_false_iff_not] at this
          show order.price < a.price
          linarith [lt_of_not_le this]
        · obtain ⟨a0, ha0, hp⟩ := hmem a ha
          rw [hp]
          exact hnc b hb a0 ha0
    · rw [if_neg hq]
      refine ⟨hbs, hsortedasks, ?_⟩
      intro b hb a ha
      obtain ⟨a0, ha0, hp⟩ := hmem a ha
      rw [hp]
      exact hnc b hb a0 ha0
  | sell =>
    simp only [hside] at hnoown
    have hspec := (addOrderAfterStp_sell_spec ob order hside
      (matchLoop order.userId Side.sell order.price order.quantity ob.bids
        ob.bidsDepth ob.lastTradeId ob.currentPrice) rfl).1
    set r := matchLoop order.userId Side.sell order.price order.quantity ob.bids
      ob.bidsDepth ob.lastTradeId ob.currentPrice with hrdef
    rw [hspec]
    have hsortedbids : SortedBids r.book := by
      rw [hrdef]
      exact matchLoop_book_pairwise order.userId Side.sell order.price order.quantity
        ob.bids ob.bidsDepth ob.lastTradeId ob.currentPrice (fun a b => b ≤ a) hbs
    have hmem : ∀ b ∈ r.book, ∃ b0 ∈ ob.bids, b.price = b0.price := by
      intro b hb
      rw [hrdef] at hb
      obtain ⟨b0, hb0, hp, _, _⟩ := matchLoop_book_mem order.userId Side.sell order.price
        order.quantity ob.bids ob.bidsDepth ob.lastTradeId ob.currentPrice b hb
      exact ⟨b0, hb0, hp⟩
    by_cases hq : r.executedQty < order.quantity
    · rw [if_pos hq]
      have hstop : ∀ b ∈ r.book, pricesCross Side.sell b.price order.price = false := by
        intro b hb
        rw [hrdef] at hb
        exact matchLoop_stop order.userId Side.sell order.price
          (fun x y => y.price ≤ x.price) (pricesCross_sell_mono order.price)
          order.quantity ob.bids ob.bidsDepth ob.lastTradeId ob.currentPrice
          hbs hnoown (by rw [← hrdef]; exact hq) b hb
      refine ⟨hsortedbids, ?_, ?_⟩
      · exact insertAsk_sorted ob.asks { order with filled := r.executedQty } has
      · intro b hb a ha
        have hlen := (findInsertIndex_sell_bracket ob.asks order.price has).1
        rw [List.mem_insertIdx hlen] at ha
        rcases ha with rfl | ha
        · have := hstop b hb
          simp only [pricesCross, Decimal.isGreaterOrEqual, decide_eq_false_iff_not] at this
          show b.price < order.price
          linarith [lt_of_not_le this]
        · obtain ⟨b0, hb0, hp⟩ := hmem b hb
          rw [hp]
          exact hnc b0 hb0 a ha
    · rw [if_neg hq]
      refine ⟨hsortedbids, has, ?_⟩
      intro b hb a ha
      obtain ⟨b0, hb0, hp⟩ := hmem b hb
      rw [hp]
      exact hnc b0 hb0 a ha

/-! ### addOrder branch equations and geometry -/

theorem wouldSelfTrade_snd (ob : Orderbook) (order : Order) :
    (ob.wouldSelfTrade order).2 = selfTradeConflicts order.userId order.side
      order.price (match order.side with
        | Side.buy => ob.asks
        | Side.sell => ob.bids) := by
  obtain ⟨p, q, oid, f, side, u⟩ := order
  cases side <;> simp [wouldSelfTrade]

theorem wouldSelfTrade_fst (ob : Orderbook) (order : Order) :
    (ob.wouldSelfTrade order).1 = false ↔ (ob.wouldSelfTrade order).2 = [] := by
  obtain ⟨p, q, oid, f, side, u⟩ := order
  cases side <;>
    simp [wouldSelfTrade, List.length_pos, List.length_eq_zero]

theorem addOrder_stp_newest (ob : Orderbook) (order : Order)
    (hst : (ob.wouldSelfTrade order).1 = true)
    (hmode : ob.stpMode = SelfTradePreventionMode.CANCEL_NEWEST) :
    ob.addOrder order =
      ({ status := OrderStatus.REJECTED
         executedQty := 0
         fills := []
         rejectionReason := some "STP: Cancel Newest" }, ob) := by
  simp [addOrder, hst, hmode]

theorem addOrder_stp_both (ob : Orderbook) (order : Order)
    (hst : (ob.wouldSelfTrade order).1 = true)
    (hne : ¬ ob.stpMode = SelfTradePreventionMode.CANCEL_NEWEST)
    (hboth : ob.stpMode = SelfTradePreventionMode.CANCEL_BOTH) :
    ob.addOrder order =
      ({ status := OrderStatus.REJECTED
         executedQty := 0
         fills := []
         rejectionReason := some "STP: Cancel Both"
         cancelledOrders := some ((ob.wouldSelfTrade order).2.map Order.orderId) },
        Orderbook.cancelConflicts ob (ob.wouldSelfTrade order).2) := by
  simp [addOrder, hst, hne, hboth]

theorem addOrder_stp_oldest (ob : Orderbook) (order : Order)
    (hst : (ob.wouldSelfTrade order).1 = true)
    (hne : ¬ ob.stpMode = SelfTradePreventionMode.CANCEL_NEWEST)
    (hne2 : ¬ ob.stpMode = SelfTradePreventionMode.CANCEL_BOTH) :
    ob.addOrder order =
      Orderbook.addOrderAfterStp
        (Orderbook.cancelConflicts ob (ob.wouldSelfTrade order).2) order := by
  simp [addOrder, hst, hne, hne2]

theorem addOrder_clean (ob : Orderbook) (order : Order)
    (hst : (ob.wouldSelfTrade order).1 = false) :
    ob.addOrder order = ob.addOrderAfterStp order := by
  simp [addOrder, hst]

/-- `addOrder` preserves sortedness of both sides and the absence of
crossing, for a wellformed book in any STP mode. -/
theorem addOrder_geometry (ob : Orderbook) (order : Order)
    (hbs : SortedBids ob.bids) (has : SortedAsks ob.asks)
    (hnc : NoCross ob.bids ob.asks)
    (hsidesB : ∀ o ∈ ob.bids, o.side = Side.buy)
    (hsidesA : ∀ o ∈ ob.asks, o.side = Side.sell)
    (hbid : (ob.bids.map Order.orderId).Nodup)
    (haid : (ob.asks.map Order.orderId).Nodup) :
    SortedBids (ob.addOrder order).2.bids ∧
    SortedAsks (ob.addOrder order).2.asks ∧
    NoCross (ob.addOrder order).2.bids (ob.addOrder order).2.asks := by
  by_cases hst : (ob.wouldSelfTrade order).1
  · by_cases hmode : ob.stpMode = SelfTradePreventionMode.CANCEL_NEWEST
    · rw [addOrder_stp_newest ob order hst hmode]
      exact ⟨hbs, has, hnc⟩
    · obtain ⟨hsub1, hsub2, _⟩ :=
        Orderbook.cancelConflicts_shape (ob.wouldSelfTrade order).2 ob
      have hbs₁ : SortedBids (Orderbook.cancelConflicts ob
          (ob.wouldSelfTrade order).2).bids := hbs.sublist hsub1
      have has₁ : SortedAsks (Orderbook.cancelConflicts ob
          (ob.wouldSelfTrade order).2).asks := has.sublist hsub2
      have hnc₁ : NoCross (Orderbook.cancelConflicts ob
          (ob.wouldSelfTrade order).2).bids (Orderbook.cancelConflicts ob
          (ob.wouldSelfTrade order).2).asks := by
        intro b hb a ha
        exact hnc b (hsub1.subset hb) a (hsub2.subset ha)
      by_cases hboth : ob.stpMode = SelfTradePreventionMode.CANCEL_BOTH
      · rw [addOrder_stp_both ob order hst hmode hboth]
        exact ⟨hbs₁, has₁, hnc₁⟩
      · rw [addOrder_stp_oldest ob order hst hmode hboth]
        refine addOrderAfterStp_geometry _ order hbs₁ has₁ hnc₁ ?_
        cases hside : order.side with
        | buy =>
          simp only [hside]
          intro o ho hown
          have hconf : (ob.wouldSelfTrade order).2 =
              selfTradeConflicts order.userId Side.buy order.price ob.asks := by
            have h2 := wouldSelfTrade_snd ob order
            simp only [hside] at h2
            exact h2
          have hcsub := selfTradeConflicts_sublist order.userId Side.buy
            order.price ob.asks
          have hcN : (((ob.wouldSelfTrade order).2).map Order.orderId).Nodup := by
            rw [hconf]
            exact ((hcsub.map Order.orderId).nodup) haid
          have hcm : ∀ c ∈ (ob.wouldSelfTrade order).2,
              c ∈ ob.asks ∧ c.side = Side.sell := by
            intro c hc
            rw [hconf] at hc
            obtain ⟨h1, _, _⟩ := selfTradeConflicts_mem order.userId Side.buy
              order.price ob.asks c hc
            exact ⟨h1, hsidesA c h1⟩
          obtain ⟨hchar, _⟩ := cancelConflicts_asks_mem (ob.wouldSelfTrade order).2
            ob hcN hcm haid
          obtain ⟨hoa, hoid⟩ := (hchar o).mp ho
          cases hcr : pricesCross Side.buy o.price order.price with
          | false => rfl
          | true =>
            exfalso
            apply hoid
            rw [hconf]
            refine List.mem_map_of_mem Order.orderId ?_
            exact selfTradeConflicts_mem_of order.userId Side.buy order.price
              (fun x y => x.price ≤ y.price) (pricesCross_buy_mono order.price)
              ob.asks has o hoa hown hcr
        | sell =>
          simp only [hside]
          intro o ho hown
          have hconf : (ob.wouldSelfTrade order).2 =
              selfTradeConflicts order.userId Side.sell order.price ob.bids := by
            have h2 := wouldSelfTrade_snd ob order
            simp only [hside] at h2
            exact h2
          have hcsub := selfTradeConflicts_sublist order.userId Side.sell
            order.price ob.bids
          have hcN : (((ob.wouldSelfTrade order).2).map Order.orderId).Nodup := by
            rw [hconf]
            exact ((hcsub.map Order.orderId).nodup) hbid
          have hcm : ∀ c ∈ (ob.wouldSelfTrade order).2,
              c ∈ ob.bids ∧ c.side = Side.buy := by
            intro c hc
            rw [hconf] at hc
            obtain ⟨h1, _, _⟩ := selfTradeConflicts_mem order.userId Side.sell
              order.price ob.bids c hc
            exact ⟨h1, hsidesB c h1⟩
          obtain ⟨hchar, _⟩ := cancelConflicts_bids_mem (ob.wouldSelfTrade order).2
            ob hcN hcm hbid
          obtain ⟨hob2, hoid⟩ := (hchar o).mp ho
          cases hcr : pricesCross Side.sell o.price order.price with
          | false => rfl
          | true =>
            exfalso
            apply hoid
            rw [hconf]
            refine List.mem_map_of_mem Order.orderId ?_
            exact selfTradeConflicts_mem_of order.userId Side.sell order.price
              (fun x y => y.price ≤ x.price) (pricesCross_sell_mono order.price)
              ob.bids hbs o hob2 hown hcr
  · have hst' : (ob.wouldSelfTrade order).1 = false := by
      cases h : (ob.wouldSelfTrade order).1
      · rfl
      · exact absurd h hst
    rw [addOrder_clean ob order hst']
    refine addOrderAfterStp_geometry ob order hbs has hnc ?_
    have hempty : (ob.wouldSelfTrade order).2 = [] := (wouldSelfTrade_fst ob order).mp hst'
    cases hside : order.side with
    | buy =>
      simp only [hside]
      intro o ho hown
      have hconf : selfTradeConflicts order.userId Side.buy order.price ob.asks = [] := by
        have h2 := wouldSelfTrade_snd ob order
        simp only [hside] at h2
        rw [← h2]
        exact hempty
      exact selfTradeConflicts_complete order.userId Side.buy order.price
        (fun x y => x.price ≤ y.price) (pricesCross_buy_mono order.price)
        ob.asks has hconf o ho hown
    | sell =>
      simp only [hside]
      intro o ho hown
      have hconf : selfTradeConflicts order.userId Side.sell order.price ob.bids = [] := by
        have h2 := wouldSelfTrade_snd ob order
        simp only [hside] at h2
        rw [← h2]
        exact hempty
      exact selfTradeConflicts_complete order.userId Side.sell order.price
        (fun x y => y.price ≤ x.price) (pricesCross_sell_mono order.price)
        ob.bids hbs hconf o ho hown

end Orderbook


/-! ## Claim C2: book geometry invariant -/

/-- Bundle of the book-geometry facts about an orderbook: bids non-increasing
in price, asks non-decreasing in price, every bid price strictly below every
ask price, and in particular the head bid strictly below the head ask whenever
both sides are non-empty. -/
def GeomOk (ob : Orderbook) : Prop :=
  SortedBids ob.bids ∧ SortedAsks ob.asks ∧
    NoCross ob.bids ob.asks ∧
    ∀ (hb : ob.bids ≠ []) (ha : ob.asks ≠ []),
      (ob.bids.head hb).price < (ob.asks.head ha).price

theorem geomOk_of_parts {ob : Orderbook}
    (h1 : SortedBids ob.bids) (h2 : SortedAsks ob.asks)
    (h3 : NoCross ob.bids ob.asks) : GeomOk ob :=
  ⟨h1, h2, h3, fun hb ha => h3 _ (List.head_mem hb) _ (List.head_mem ha)⟩

/-- **C2.**  Book geometry invariant: after each orderbook operation
(`addOrder` under any self-trade-prevention mode, `cancelBid`, `cancelAsk`)
applied to a well-formed book — bids non-increasing in price, asks
non-decreasing, no crossing, each side holding only orders of that side, and
order ids duplicate-free per side — the resulting bids are again
non-increasing in price, the asks non-decreasing, and whenever both sides are
non-empty the head (best) bid's price is strictly less than the head (best)
ask's price: no crossing persists past the operation. -/
theorem claim_C2 (ob : Orderbook) (order c : Order)
    (hbs : SortedBids ob.bids) (has : SortedAsks ob.asks)
    (hnc : NoCross ob.bids ob.asks)
    (hsidesB : ∀ o ∈ ob.bids, o.side = Side.buy)
    (hsidesA : ∀ o ∈ ob.asks, o.side = Side.sell)
    (hbid : (ob.bids.map Order.orderId).Nodup)
    (haid : (ob.asks.map Order.orderId).Nodup) :
    GeomOk (ob.addOrder order).2 ∧ GeomOk (ob.cancelBid c).2 ∧
      GeomOk (ob.cancelAsk c).2 := by
  refine ⟨?_, ?_, ?_⟩
  · obtain ⟨g1, g2, g3⟩ :=
      Orderbook.addOrder_geometry ob order hbs has hnc hsidesB hsidesA hbid haid
    exact geomOk_of_parts g1 g2 g3
  · obtain ⟨h1, h2, _, _⟩ := Orderbook.cancelBid_shape ob c
    refine geomOk_of_parts (hbs.sublist h1) (by rw [h2]; exact has) ?_
    intro b hb a ha
    rw [h2] at ha
    exact hnc b (h1.subset hb) a ha
  · obtain ⟨h1, h2, _, _⟩ := Orderbook.cancelAsk_shape ob c
    refine geomOk_of_parts (by rw [h2]; exact hbs) (has.sublist h1) ?_
    intro b hb a ha
    rw [h2] at hb
    exact hnc b hb a (h1.subset ha)

theorem claim_C2_witness :
    GeomOk ((Orderbook.create "TATA" [] [] 0 0).addOrder
      ⟨1000, 5, "w1", 0, Side.buy, "1"⟩).2 ∧
    GeomOk ((Orderbook.create "TATA" [] [] 0 0).cancelBid
      ⟨1000, 5, "w2", 0, Side.sell, "2"⟩).2 ∧
    GeomOk ((Orderbook.create "TATA" [] [] 0 0).cancelAsk
      ⟨1000, 5, "w2", 0, Side.sell, "2"⟩).2 :=
  claim_C2 (Orderbook.create "TATA" [] [] 0 0)
    ⟨1000, 5, "w1", 0, Side.buy, "1"⟩ ⟨1000, 5, "w2", 0, Side.sell, "2"⟩
    (by decide) (by decide) (by decide) (by decide) (by decide)
    (by decide) (by decide)


/-! ## Claim C5: maker-price rule -/

namespace Orderbook

/-- Fills of the post-STP phase, related to a superset book `ob` of the book
`ob₁` actually matched: every fill copies an order of `ob`'s opposite side
(id, price, user) with a crossing price from a different user; and a buy
taker's fills are non-decreasing in price whenever the asks are sorted. -/
theorem addOrderAfterStp_fills_from (ob₁ ob : Orderbook) (order : Order)
    (hsubA : ob₁.asks.Sublist ob.asks) (hsubB : ob₁.bids.Sublist ob.bids)
    (hbs : SortedBids ob.bids) (has : SortedAsks ob.asks) :
    (∀ f ∈ (ob₁.addOrderAfterStp order).1.fills,
      (∃ o ∈ (if order.side = Side.buy then ob.asks else ob.bids),
        o.orderId = f.markerOrderId ∧ o.price = f.price ∧
        o.userId = f.otherUserId ∧ o.userId ≠ order.userId) ∧
      pricesCross order.side f.price order.price = true) ∧
    (order.side = Side.buy →
      (ob₁.addOrderAfterStp order).1.fills.Pairwise
        fun a b => a.price ≤ b.price) := by
  cases hside : order.side with
  | buy =>
    obtain ⟨-, hres⟩ := addOrderAfterStp_buy_spec ob₁ order hside _ rfl
    have hf : (ob₁.addOrderAfterStp order).1.fills =
        (matchLoop order.userId Side.buy order.price order.quantity ob₁.asks
          ob₁.asksDepth ob₁.lastTradeId ob₁.currentPrice).fills := by
      rw [hres]
    constructor
    · intro f hfm
      rw [hf] at hfm
      obtain ⟨⟨o, ho, h1, h2, h3, h4⟩, hcr⟩ := matchLoop_fills_maker
        order.userId Side.buy order.price order.quantity ob₁.asks
        ob₁.asksDepth ob₁.lastTradeId ob₁.currentPrice f hfm
      refine ⟨⟨o, ?_, h1, h2, h3, ?_⟩, ?_⟩
      · exact hsubA.subset ho
      · exact h4
      · exact hcr
    · intro _
      rw [hf]
      exact matchLoop_fills_pairwise order.userId Side.buy order.price
        order.quantity ob₁.asks ob₁.asksDepth ob₁.lastTradeId ob₁.currentPrice
        (fun x y => x ≤ y) (has.sublist hsubA)
  | sell =>
    obtain ⟨-, hres⟩ := addOrderAfterStp_sell_spec ob₁ order hside _ rfl
    have hf : (ob₁.addOrderAfterStp order).1.fills =
        (matchLoop order.userId Side.sell order.price order.quantity ob₁.bids
          ob₁.bidsDepth ob₁.lastTradeId ob₁.currentPrice).fills := by
      rw [hres]
    constructor
    · intro f hfm
      rw [hf] at hfm
      obtain ⟨⟨o, ho, h1, h2, h3, h4⟩, hcr⟩ := matchLoop_fills_maker
        order.userId Side.sell order.price order.quantity ob₁.bids
        ob₁.bidsDepth ob₁.lastTradeId ob₁.currentPrice f hfm
      refine ⟨⟨o, ?_, h1, h2, h3, ?_⟩, ?_⟩
      · exact hsubB.subset ho
      · exact h4
      · exact hcr
    · intro hbuy
      exact Side.noConfusion hbuy

end Orderbook

/-- **C5.**  Maker-price rule: every fill returned by `addOrder` carries the
price (and id and user) of a resting maker order of the opposite side of the
pre-call book, from a user other than the taker, at a price that crosses the
taker's limit (so never worse than the taker's own price, even when the taker
improved); and a buy taker sweeping several levels produces its fills in
non-decreasing price order. -/
theorem claim_C5 (ob : Orderbook) (order : Order)
    (hbs : SortedBids ob.bids) (has : SortedAsks ob.asks) :
    (∀ f ∈ (ob.addOrder order).1.fills,
      (∃ o ∈ (if order.side = Side.buy then ob.asks else ob.bids),
        o.orderId = f.markerOrderId ∧ o.price = f.price ∧
        o.userId = f.otherUserId ∧ o.userId ≠ order.userId) ∧
      Orderbook.pricesCross order.side f.price order.price = true) ∧
    (order.side = Side.buy →
      (ob.addOrder order).1.fills.Pairwise fun a b => a.price ≤ b.price) := by
  by_cases hst : (ob.wouldSelfTrade order).1
  · by_cases hmode : ob.stpMode = SelfTradePreventionMode.CANCEL_NEWEST
    · rw [Orderbook.addOrder_stp_newest ob order hst hmode]
      exact ⟨by simp, by simp⟩
    · by_cases hboth : ob.stpMode = SelfTradePreventionMode.CANCEL_BOTH
      · rw [Orderbook.addOrder_stp_both ob order hst hmode hboth]
        exact ⟨by simp, by simp⟩
      · rw [Orderbook.addOrder_stp_oldest ob order hst hmode hboth]
        obtain ⟨hsub1, hsub2, -⟩ :=
          Orderbook.cancelConflicts_shape (ob.wouldSelfTrade order).2 ob
        exact Orderbook.addOrderAfterStp_fills_from _ ob order hsub2 hsub1 hbs has
  · have hst' : (ob.wouldSelfTrade order).1 = false := by
      cases h : (ob.wouldSelfTrade order).1
      · rfl
      · exact absurd h hst
    rw [Orderbook.addOrder_clean ob order hst']
    exact Orderbook.addOrderAfterStp_fills_from ob ob order
      (List.Sublist.refl _) (List.Sublist.refl _) hbs has

/-- Fixed book for the C5 witness: one resting ask of user 2 at 1000. -/
def c5Ob : Orderbook :=
  Orderbook.create "TATA" [] [⟨1000, 5, "a1", 0, Side.sell, "2"⟩] 0 0

/-- Fixed taker for the C5 witness: buy 5 @ 1000 from user 1. -/
def c5Order : Order := ⟨1000, 5, "b1", 0, Side.buy, "1"⟩

theorem claim_C5_witness :
    (∀ f ∈ (c5Ob.addOrder c5Order).1.fills,
      (∃ o ∈ (if c5Order.side = Side.buy then c5Ob.asks else c5Ob.bids),
        o.orderId = f.markerOrderId ∧ o.price = f.price ∧
        o.userId = f.otherUserId ∧ o.userId ≠ c5Order.userId) ∧
      Orderbook.pricesCross c5Order.side f.price c5Order.price = true) ∧
    (c5Order.side = Side.buy →
      (c5Ob.addOrder c5Order).1.fills.Pairwise fun a b => a.price ≤ b.price) :=
  claim_C5 c5Ob c5Order (by decide) (by decide)


/-! ## Claim C3: depth agreement -/

/-- Under `DepthAgree` with a positive-remaining book, the defaulted read of
the depth cache is exactly the aggregate. -/
theorem getD_eq_aggAt {l : List Order} {d : DepthMap} (hpos : PosBook l)
    (hd : DepthAgree l d) (p : Rat) : d.getD p = aggAt l p := by
  rw [DepthMap.getD, hd p]
  by_cases h : 0 < aggAt l p
  · rw [if_pos h, Option.getD_some]
  · rw [if_neg h, Option.getD_none]
    have := aggAt_nonneg hpos p
    linarith

theorem aggAt_insertIdx :
    ∀ (l : List Order) (i : Nat) (o : Order), i ≤ l.length → ∀ p : Rat,
      aggAt (l.insertIdx i o) p =
        (if o.price = p then o.quantity - o.filled else 0) + aggAt l p
  | l, 0, o, _, p => by
    rw [List.insertIdx_zero, aggAt_cons]
  | [], i + 1, o, h, p => by
    simp at h
  | a :: t, i + 1, o, h, p => by
    rw [List.insertIdx_succ_cons, aggAt_cons, aggAt_cons,
      aggAt_insertIdx t i o (by simpa using h) p]
    ring

theorem aggAt_eraseIdx :
    ∀ (l : List Order) (i : Nat) (h : i < l.length) (p : Rat),
      aggAt l p =
        (if (l.get ⟨i, h⟩).price = p
          then (l.get ⟨i, h⟩).quantity - (l.get ⟨i, h⟩).filled else 0) +
          aggAt (l.eraseIdx i) p
  | [], i, h, p => by simp at h
  | a :: t, 0, h, p => by
    rw [List.eraseIdx_cons_zero]
    exact aggAt_cons a t p
  | a :: t, i + 1, h, p => by
    rw [List.eraseIdx_cons_succ, aggAt_cons, aggAt_cons,
      aggAt_eraseIdx t i (by simpa using h) p]
    simp only [List.get_cons_succ]
    ring

/-- Resting a residue order at any index, with the matching depth increment,
preserves depth agreement. -/
theorem depthAgree_insertIdx (l : List Order) (d : DepthMap) (o : Order)
    (i : Nat) (hi : i ≤ l.length) (hpos : PosBook l)
    (hrem : 0 < o.quantity - o.filled) (hd : DepthAgree l d) :
    DepthAgree (l.insertIdx i o)
      (DepthMap.update d o.price (o.quantity - o.filled)) := by
  intro p
  rw [DepthMap.update_apply, aggAt_insertIdx l i o hi p]
  by_cases hp : p = o.price
  · rw [if_pos hp, if_pos hp.symm, getD_eq_aggAt hpos hd, hp]
    have hge := aggAt_nonneg hpos o.price
    have hgt : 0 < (o.quantity - o.filled) + aggAt l o.price := by linarith
    have hgt' : ¬ aggAt l o.price + (o.quantity - o.filled) ≤ 0 := by linarith
    rw [if_neg hgt', if_pos hgt]
    congr 1
    ring
  · rw [if_neg hp, hd p]
    have hz : (if o.price = p then o.quantity - o.filled else 0) = 0 :=
      if_neg (fun h => hp h.symm)
    rw [hz, zero_add]

/-- Erasing the order at an index, with the matching depth decrement at its
price, preserves depth agreement. -/
theorem depthAgree_eraseIdx (l : List Order) (d : DepthMap) (i : Nat)
    (hi : i < l.length) (hpos : PosBook l) (hd : DepthAgree l d) :
    DepthAgree (l.eraseIdx i)
      (DepthMap.update d (l.get ⟨i, hi⟩).price
        (0 - ((l.get ⟨i, hi⟩).quantity - (l.get ⟨i, hi⟩).filled))) := by
  intro p
  have hpose : PosBook (l.eraseIdx i) := fun o ho =>
    hpos o ((List.eraseIdx_sublist l i).subset ho)
  rw [DepthMap.update_apply]
  by_cases hp : p = (l.get ⟨i, hi⟩).price
  · rw [if_pos hp, getD_eq_aggAt hpos hd, hp]
    have hs := aggAt_eraseIdx l i hi (l.get ⟨i, hi⟩).price
    rw [if_pos rfl] at hs
    have hge := aggAt_nonneg hpose (l.get ⟨i, hi⟩).price
    by_cases h0 : 0 < aggAt (l.eraseIdx i) (l.get ⟨i, hi⟩).price
    · have hne : ¬ aggAt l (l.get ⟨i, hi⟩).price +
          (0 - ((l.get ⟨i, hi⟩).quantity - (l.get ⟨i, hi⟩).filled)) ≤ 0 := by
        rw [hs]
        linarith
      rw [if_neg hne, if_pos h0, hs]
      congr 1
      ring
    · have h0' := not_lt.mp h0
      have hz : aggAt (l.eraseIdx i) (l.get ⟨i, hi⟩).price = 0 :=
        le_antisymm h0' hge
      have hle : aggAt l (l.get ⟨i, hi⟩).price +
          (0 - ((l.get ⟨i, hi⟩).quantity - (l.get ⟨i, hi⟩).filled)) ≤ 0 := by
        rw [hs, hz]
        linarith
      rw [if_pos hle, if_neg h0]
  · rw [if_neg hp, hd p]
    have hx := aggAt_eraseIdx l i hi p
    rw [if_neg (fun h => hp h.symm), zero_add] at hx
    rw [hx]

namespace Orderbook

/-- The binary-search loop never returns past `high`. -/
theorem findInsertLoop_le (arr : List Order) (price : Rat) (side : Side) :
    ∀ low high, low ≤ high → findInsertLoop arr price side low high ≤ high := by
  intro low high hlh
  rw [findInsertLoop]
  by_cases h : low < high
  · rw [dif_pos h]
    by_cases hgl : goLeftAt arr price side ((low + high) / 2) = true
    · rw [if_pos hgl]
      exact le_trans
        (findInsertLoop_le arr price side low ((low + high) / 2) (by omega))
        (by omega)
    · have hgl' : goLeftAt arr price side ((low + high) / 2) = false := by
        cases h2 : goLeftAt arr price side ((low + high) / 2)
        · rfl
        · exact absurd h2 hgl
      rw [if_neg (by simp [hgl'])]
      exact findInsertLoop_le arr price side ((low + high) / 2 + 1) high (by omega)
  · rw [dif_neg h]
    omega
termination_by low high => high - low
decreasing_by
  · omega
  · omega

theorem findInsertIndex_le (arr : List Order) (price : Rat) (side : Side) :
    findInsertIndex arr price side ≤ arr.length :=
  findInsertLoop_le arr price side 0 arr.length (Nat.zero_le _)

/-- Matching then resting the residue preserves depth agreement and the
positive-remaining property on both sides. -/
theorem addOrderAfterStp_depth (ob : Orderbook) (order : Order)
    (hpb : PosBook ob.bids) (hpa : PosBook ob.asks)
    (hdb : DepthAgree ob.bids ob.bidsDepth)
    (hda : DepthAgree ob.asks ob.asksDepth) :
    DepthAgree (ob.addOrderAfterStp order).2.bids
      (ob.addOrderAfterStp order).2.bidsDepth ∧
    DepthAgree (ob.addOrderAfterStp order).2.asks
      (ob.addOrderAfterStp order).2.asksDepth ∧
    PosBook (ob.addOrderAfterStp order).2.bids ∧
    PosBook (ob.addOrderAfterStp order).2.asks := by
  cases hside : order.side with
  | buy =>
    obtain ⟨hob, -⟩ := addOrderAfterStp_buy_spec ob order hside _ rfl
    set r := matchLoop order.userId Side.buy order.price order.quantity ob.asks
      ob.asksDepth ob.lastTradeId ob.currentPrice with hr
    have hmd : DepthAgree r.book r.depth := by
      intro p
      have := matchLoop_depth_frame order.userId Side.buy order.price
        order.quantity ob.asks ob.asksDepth ob.lastTradeId ob.currentPrice
        (fun _ => 0) (fun _ => le_refl 0) hpa
        (fun q => by simpa using hda q) p
      simpa using this
    have hmp : PosBook r.book :=
      matchLoop_pos_book order.userId Side.buy order.price order.quantity
        ob.asks ob.asksDepth ob.lastTradeId ob.currentPrice hpa
    rw [hob]
    by_cases hlt : r.executedQty < order.quantity
    · rw [if_pos hlt]
      refine ⟨?_, hmd, ?_, hmp⟩
      · exact depthAgree_insertIdx ob.bids ob.bidsDepth
          { order with filled := r.executedQty }
          (findInsertIndex ob.bids order.price Side.buy)
          (findInsertIndex_le ob.bids order.price Side.buy) hpb
          (sub_pos.mpr hlt) hdb
      · intro o ho
        rcases (List.mem_insertIdx
            (findInsertIndex_le ob.bids order.price Side.buy)).mp ho with h | h
        · rw [h]
          exact hlt
        · exact hpb o h
    · rw [if_neg hlt]
      exact ⟨hdb, hmd, hpb, hmp⟩
  | sell =>
    obtain ⟨hob, -⟩ := addOrderAfterStp_sell_spec ob order hside _ rfl
    set r := matchLoop order.userId Side.sell order.price order.quantity ob.bids
      ob.bidsDepth ob.lastTradeId ob.currentPrice with hr
    have hmd : DepthAgree r.book r.depth := by
      intro p
      have := matchLoop_depth_frame order.userId Side.sell order.price
        order.quantity ob.bids ob.bidsDepth ob.lastTradeId ob.currentPrice
        (fun _ => 0) (fun _ => le_refl 0) hpb
        (fun q => by simpa using hdb q) p
      simpa using this
    have hmp : PosBook r.book :=
      matchLoop_pos_book order.userId Side.sell order.price order.quantity
        ob.bids ob.bidsDepth ob.lastTradeId ob.currentPrice hpb
    rw [hob]
    by_cases hlt : r.executedQty < order.quantity
    · rw [if_pos hlt]
      refine ⟨hmd, ?_, hmp, ?_⟩
      · exact depthAgree_insertIdx ob.asks ob.asksDepth
          { order with filled := r.executedQty }
          (findInsertIndex ob.asks order.price Side.sell)
          (findInsertIndex_le ob.asks order.price Side.sell) hpa
          (sub_pos.mpr hlt) hda
      · intro o ho
        rcases (List.mem_insertIdx
            (findInsertIndex_le ob.asks order.price Side.sell)).mp ho with h | h
        · rw [h]
          exact hlt
        · exact hpa o h
    · rw [if_neg hlt]
      exact ⟨hmd, hda, hmp, hpa⟩

theorem cancelBid_depth (ob : Orderbook) (c : Order)
    (hpb : PosBook ob.bids) (hdb : DepthAgree ob.bids ob.bidsDepth) :
    DepthAgree (ob.cancelBid c).2.bids (ob.cancelBid c).2.bidsDepth ∧
    PosBook (ob.cancelBid c).2.bids := by
  by_cases hex : ∃ x ∈ ob.bids, x.orderId = c.orderId
  · obtain ⟨i, hlt, hidx, hid, hres⟩ := cancelBid_spec ob c hex
    rw [hres]
    constructor
    · exact depthAgree_eraseIdx ob.bids ob.bidsDepth i hlt hpb hdb
    · intro o ho
      exact hpb o ((List.eraseIdx_sublist ob.bids i).subset ho)
  · have hno : ∀ x ∈ ob.bids, ¬ x.orderId = c.orderId := by
      push_neg at hex
      exact hex
    rw [cancelBid_not_found ob c hno]
    exact ⟨hdb, hpb⟩

theorem cancelAsk_depth (ob : Orderbook) (c : Order)
    (hpa : PosBook ob.asks) (hda : DepthAgree ob.asks ob.asksDepth) :
    DepthAgree (ob.cancelAsk c).2.asks (ob.cancelAsk c).2.asksDepth ∧
    PosBook (ob.cancelAsk c).2.asks := by
  by_cases hex : ∃ x ∈ ob.asks, x.orderId = c.orderId
  · obtain ⟨i, hlt, hidx, hid, hres⟩ := cancelAsk_spec ob c hex
    rw [hres]
    constructor
    · exact depthAgree_eraseIdx ob.asks ob.asksDepth i hlt hpa hda
    · intro o ho
      exact hpa o ((List.eraseIdx_sublist ob.asks i).subset ho)
  · have hno : ∀ x ∈ ob.asks, ¬ x.orderId = c.orderId := by
      push_neg at hex
      exact hex
    rw [cancelAsk_not_found ob c hno]
    exact ⟨hda, hpa⟩

theorem cancelConflicts_depth (conflicts : List Order) :
    ∀ ob : Orderbook, PosBook ob.bids → PosBook ob.asks →
      DepthAgree ob.bids ob.bidsDepth → DepthAgree ob.asks ob.asksDepth →
      DepthAgree (cancelConflicts ob conflicts).bids
        (cancelConflicts ob conflicts).bidsDepth ∧
      DepthAgree (cancelConflicts ob conflicts).asks
        (cancelConflicts ob conflicts).asksDepth ∧
      PosBook (cancelConflicts ob conflicts).bids ∧
      PosBook (cancelConflicts ob conflicts).asks := by
  induction conflicts with
  | nil =>
    intro ob h1 h2 h3 h4
    exact ⟨h3, h4, h1, h2⟩
  | cons cf rest ih =>
    intro ob h1 h2 h3 h4
    rw [cancelConflicts]
    cases hside : cf.side with
    | buy =>
      obtain ⟨hda', hpb'⟩ := cancelBid_depth ob cf h1 h3
      obtain ⟨-, hasks, hasksD, -⟩ := cancelBid_shape ob cf
      exact ih (ob.cancelBid cf).2 hpb' (by rw [hasks] ; exact h2) hda'
        (by rw [hasks, hasksD] ; exact h4)
    | sell =>
      obtain ⟨hda', hpa'⟩ := cancelAsk_depth ob cf h2 h4
      obtain ⟨-, hbids, hbidsD, -⟩ := cancelAsk_shape ob cf
      exact ih (ob.cancelAsk cf).2 (by rw [hbids] ; exact h1) hpa'
        (by rw [hbids, hbidsD] ; exact h3) hda'

/-- `addOrder` preserves depth agreement on both sides, in any STP mode. -/
theorem addOrder_depth (ob : Orderbook) (order : Order)
    (hpb : PosBook ob.bids) (hpa : PosBook ob.asks)
    (hdb : DepthAgree ob.bids ob.bidsDepth)
    (hda : DepthAgree ob.asks ob.asksDepth) :
    DepthAgree (ob.addOrder order).2.bids (ob.addOrder order).2.bidsDepth ∧
    DepthAgree (ob.addOrder order).2.asks (ob.addOrder order).2.asksDepth := by
  by_cases hst : (ob.wouldSelfTrade order).1
  · by_cases hmode : ob.stpMode = SelfTradePreventionMode.CANCEL_NEWEST
    · rw [addOrder_stp_newest ob order hst hmode]
      exact ⟨hdb, hda⟩
    · by_cases hboth : ob.stpMode = SelfTradePreventionMode.CANCEL_BOTH
      · rw [addOrder_stp_both ob order hst hmode hboth]
        obtain ⟨d1, d2, -, -⟩ :=
          cancelConflicts_depth (ob.wouldSelfTrade order).2 ob hpb hpa hdb hda
        exact ⟨d1, d2⟩
      · rw [addOrder_stp_oldest ob order hst hmode hboth]
        obtain ⟨d1, d2, p1, p2⟩ :=
          cancelConflicts_depth (ob.wouldSelfTrade order).2 ob hpb hpa hdb hda
        obtain ⟨a1, a2, -, -⟩ := addOrderAfterStp_depth _ order p1 p2 d1 d2
        exact ⟨a1, a2⟩
  · have hst' : (ob.wouldSelfTrade order).1 = false := by
      cases h : (ob.wouldSelfTrade order).1
      · rfl
      · exact absurd h hst
    rw [addOrder_clean ob order hst']
    obtain ⟨a1, a2, -, -⟩ := addOrderAfterStp_depth ob order hpb hpa hdb hda
    exact ⟨a1, a2⟩

end Orderbook

/-- **C3.**  Depth agreement invariant: starting from a book whose resting
orders all have remaining quantity and whose cached depth maps agree with the
orders, each orderbook operation (`addOrder` in any STP mode, `cancelBid`,
`cancelAsk`) again yields, for every price p, a cached bid (resp. ask) depth
holding exactly the sum of `quantity - filled` over the resting bids (asks)
at p, the key being present iff that aggregate is strictly positive — which
is the content of `DepthAgree`. -/
theorem claim_C3 (ob : Orderbook) (order c : Order)
    (hpb : PosBook ob.bids) (hpa : PosBook ob.asks)
    (hdb : DepthAgree ob.bids ob.bidsDepth)
    (hda : DepthAgree ob.asks ob.asksDepth) :
    (DepthAgree (ob.addOrder order).2.bids (ob.addOrder order).2.bidsDepth ∧
      DepthAgree (ob.addOrder order).2.asks (ob.addOrder order).2.asksDepth) ∧
    (DepthAgree (ob.cancelBid c).2.bids (ob.cancelBid c).2.bidsDepth ∧
      DepthAgree (ob.cancelBid c).2.asks (ob.cancelBid c).2.asksDepth) ∧
    (DepthAgree (ob.cancelAsk c).2.bids (ob.cancelAsk c).2.bidsDepth ∧
      DepthAgree (ob.cancelAsk c).2.asks (ob.cancelAsk c).2.asksDepth) := by
  refine ⟨Orderbook.addOrder_depth ob order hpb hpa hdb hda, ⟨?_, ?_⟩, ⟨?_, ?_⟩⟩
  · exact (Orderbook.cancelBid_depth ob c hpb hdb).1
  · obtain ⟨-, hasks, hasksD, -⟩ := Orderbook.cancelBid_shape ob c
    rw [hasks, hasksD]
    exact hda
  · obtain ⟨-, hbids, hbidsD, -⟩ := Orderbook.cancelAsk_shape ob c
    rw [hbids, hbidsD]
    exact hdb
  · exact (Orderbook.cancelAsk_depth ob c hpa hda).1

theorem claim_C3_witness :
    (DepthAgree ((Orderbook.create "TATA" [] [] 1 0).addOrder
        ⟨1000, 5, "w1", 0, Side.buy, "1"⟩).2.bids
      ((Orderbook.create "TATA" [] [] 1 0).addOrder
        ⟨1000, 5, "w1", 0, Side.buy, "1"⟩).2.bidsDepth ∧
      DepthAgree ((Orderbook.create "TATA" [] [] 1 0).addOrder
        ⟨1000, 5, "w1", 0, Side.buy, "1"⟩).2.asks
      ((Orderbook.create "TATA" [] [] 1 0).addOrder
        ⟨1000, 5, "w1", 0, Side.buy, "1"⟩).2.asksDepth) ∧
    (DepthAgree ((Orderbook.create "TATA" [] [] 1 0).cancelBid
        ⟨1000, 5, "w2", 0, Side.sell, "2"⟩).2.bids
      ((Orderbook.create "TATA" [] [] 1 0).cancelBid
        ⟨1000, 5, "w2", 0, Side.sell, "2"⟩).2.bidsDepth ∧
      DepthAgree ((Orderbook.create "TATA" [] [] 1 0).cancelBid
        ⟨1000, 5, "w2", 0, Side.sell, "2"⟩).2.asks
      ((Orderbook.create "TATA" [] [] 1 0).cancelBid
        ⟨1000, 5, "w2", 0, Side.sell, "2"⟩).2.asksDepth) ∧
    (DepthAgree ((Orderbook.create "TATA" [] [] 1 0).cancelAsk
        ⟨1000, 5, "w2", 0, Side.sell, "2"⟩).2.bids
      ((Orderbook.create "TATA" [] [] 1 0).cancelAsk
        ⟨1000, 5, "w2", 0, Side.sell, "2"⟩).2.bidsDepth ∧
      DepthAgree ((Orderbook.create "TATA" [] [] 1 0).cancelAsk
        ⟨1000, 5, "w2", 0, Side.sell, "2"⟩).2.asks
      ((Orderbook.create "TATA" [] [] 1 0).cancelAsk
        ⟨1000, 5, "w2", 0, Side.sell, "2"⟩).2.asksDepth) :=
  claim_C3 (Orderbook.create "TATA" [] [] 1 0)
    ⟨1000, 5, "w1", 0, Side.buy, "1"⟩ ⟨1000, 5, "w2", 0, Side.sell, "2"⟩
    (by decide) (by decide) (fun p => rfl) (fun p => rfl)


/-! ## Claim C6: exactly-one-result -/

/-- **C6 counterexample.**  A `CANCEL_ORDER` naming an order that is not
resting in the book produces NO result message at all: the dispatcher's catch
block only logs, so the engine returns the state unchanged with an empty
message list instead of the claimed no-op `ORDER_CANCELLED`. -/
theorem claim_C6_counterexample :
    Engine.process Engine.freshEngine (Command.CANCEL_ORDER "nope" "TATA_INR") =
      (Engine.freshEngine, []) := rfl

/-- **C6 (amended).**  Complete message-count characterization of the
dispatcher, keyed to the failure conditions: a `CANCEL_ORDER` is silent — no
message and the state unchanged — exactly when the market is unknown or the
order rests on neither side of the found book, and otherwise emits exactly
one `ORDER_CANCELLED`; a `GET_OPEN_ORDERS` is silent exactly when the market
is unknown and otherwise emits exactly one `OPEN_ORDERS`; every other
command emits exactly one message. -/
theorem claim_C6 (s : EngineState) :
    (∀ oid market, s.orderbooks.find? (fun o => o.ticker = market) = none →
      Engine.process s (Command.CANCEL_ORDER oid market) = (s, [])) ∧
    (∀ oid market ob, s.orderbooks.find? (fun o => o.ticker = market) = some ob →
      (ob.asks.find? (fun o => o.orderId = oid) <|>
        ob.bids.find? (fun o => o.orderId = oid)) = none →
      Engine.process s (Command.CANCEL_ORDER oid market) = (s, [])) ∧
    (∀ oid market ob order,
      s.orderbooks.find? (fun o => o.ticker = market) = some ob →
      (ob.asks.find? (fun o => o.orderId = oid) <|>
        ob.bids.find? (fun o => o.orderId = oid)) = some order →
      (Engine.process s (Command.CANCEL_ORDER oid market)).2 =
        [ResultMsg.ORDER_CANCELLED oid 0 0]) ∧
    (∀ market userId, s.orderbooks.find? (fun o => o.ticker = market) = none →
      Engine.process s (Command.GET_OPEN_ORDERS market userId) = (s, [])) ∧
    (∀ market userId ob,
      s.orderbooks.find? (fun o => o.ticker = market) = some ob →
      Engine.process s (Command.GET_OPEN_ORDERS market userId) =
        (s, [ResultMsg.OPEN_ORDERS (ob.getOpenOrders userId)])) ∧
    (∀ cmd, (∀ oid market, cmd ≠ Command.CANCEL_ORDER oid market) →
      (∀ market userId, cmd ≠ Command.GET_OPEN_ORDERS market userId) →
      (Engine.process s cmd).2.length = 1) := by
  refine ⟨?_, ?_, ?_, ?_, ?_, ?_⟩
  · intro oid market h
    simp [Engine.process, h]
  · intro oid market ob h1 h2
    simp [Engine.process, h1, h2]
  · intro oid market ob order h1 h2
    obtain ⟨p, q, oid2, f, oside, u⟩ := order
    cases oside <;> simp [Engine.process, h1, h2]
  · intro market userId h
    simp [Engine.process, h]
  · intro market userId ob h
    simp [Engine.process, h]
  · intro cmd hnc hno
    cases cmd with
    | CREATE_ORDER market price quantity side userId orderId =>
      cases h : (Engine.createOrder s market price quantity side userId
          orderId).2 with
      | ok v =>
        obtain ⟨eq2, fills, oid⟩ := v
        simp [Engine.process, h]
      | error e =>
        simp [Engine.process, h]
    | CANCEL_ORDER oid market => exact absurd rfl (hnc oid market)
    | GET_OPEN_ORDERS market userId => exact absurd rfl (hno market userId)
    | GET_DEPTH market =>
      cases h : s.orderbooks.find? (fun o => o.ticker = market) with
      | none => simp [Engine.process, h]
      | some ob => simp [Engine.process, h]
    | GET_BALANCE u =>
      simp [Engine.process]
    | ON_RAMP u amt =>
      simp [Engine.process]
    | WITHDRAW u amt txn =>
      cases h : Engine.withdraw s.balances u amt with
      | ok v =>
        obtain ⟨b2, nb⟩ := v
        simp [Engine.process, h]
      | error e =>
        simp [Engine.process, h]

theorem claim_C6_witness :
    Engine.process Engine.freshEngine (Command.GET_OPEN_ORDERS "TATA_INR" "1") =
      (Engine.freshEngine, [ResultMsg.OPEN_ORDERS
        ((Orderbook.create "TATA" [] [] 0 0).getOpenOrders "1")]) ∧
    Engine.process Engine.freshEngine (Command.CANCEL_ORDER "nope" "NOPE") =
      (Engine.freshEngine, []) :=
  ⟨(claim_C6 Engine.freshEngine).2.2.2.2.1 "TATA_INR" "1"
      (Orderbook.create "TATA" [] [] 0 0) rfl,
   (claim_C6 Engine.freshEngine).1 "nope" "NOPE" rfl⟩

/-! ## Counterexamples for C8, C4, C9 -/

/-- **C8 counterexample.**  A `CREATE_ORDER` with price 0 — not a positive
decimal — is not rejected: neither the dispatcher nor the engine validates
positivity, so the zero-priced order is accepted (`ORDER_PLACED`) and rests
on the book. -/
theorem claim_C8_counterexample :
    (Engine.process Engine.freshEngine
      (Command.CREATE_ORDER "TATA_INR" 0 5 Side.buy "1" "o1")).2 =
      [ResultMsg.ORDER_PLACED "o1" 0 []] ∧
    ((Engine.process Engine.freshEngine
      (Command.CREATE_ORDER "TATA_INR" 0 5 Side.buy "1" "o1")).1.orderbooks.map
        Orderbook.bids) = [[⟨0, 5, "o1", 0, Side.buy, "1"⟩]] := by
  have hbids : ((Orderbook.create "TATA" [] [] 0 0).addOrder
      ⟨0, 5, "o1", 0, Side.buy, "1"⟩).2.bids = [⟨0, 5, "o1", 0, Side.buy, "1"⟩] := by
    rw [Orderbook.addOrder_clean _ _ (by decide)]
    obtain ⟨hob, -⟩ := Orderbook.addOrderAfterStp_buy_spec
      (Orderbook.create "TATA" [] [] 0 0) ⟨0, 5, "o1", 0, Side.buy, "1"⟩ rfl _ rfl
    rw [hob, if_pos (by decide)]
    show (Orderbook.create "TATA" [] [] 0 0).bids.insertIdx
        (Orderbook.findInsertIndex (Orderbook.create "TATA" [] [] 0 0).bids 0
          Side.buy) _ = _
    have hcb : (Orderbook.create "TATA" [] [] 0 0).bids = [] := by decide
    rw [hcb]
    have hidx : Orderbook.findInsertIndex [] 0 Side.buy = 0 :=
      Nat.le_zero.mp (by simpa using Orderbook.findInsertIndex_le [] 0 Side.buy)
    rw [hidx]
    decide
  have hstate : (Engine.process Engine.freshEngine
      (Command.CREATE_ORDER "TATA_INR" 0 5 Side.buy "1" "o1")).1.orderbooks =
      [((Orderbook.create "TATA" [] [] 0 0).addOrder
        ⟨0, 5, "o1", 0, Side.buy, "1"⟩).2] := rfl
  refine ⟨rfl, ?_⟩
  rw [hstate, List.map_cons, List.map_nil, hbids]

/-- **C4 counterexample.**  Two unguarded paths break non-negativity at a
command boundary.  `ON_RAMP` with a negative amount succeeds and drives the
user's available balance negative: after on-ramping −2000000 to user 1
(seeded with 1000000 INR), the available INR component is −1000000, strictly
below 0, and the engine reports `ON_RAMP_SUCCESS`.  And a `CREATE_ORDER`
sell with the negative quantity −5 — no on-ramp involved — passes the
`available < quantity` funds guard, is answered with `ORDER_PLACED`, and
leaves user 1's TATA entry at `available = 1005, locked = −5 < 0`. -/
theorem claim_C4_counterexample :
    Engine.newBalanceOf (Engine.process Engine.freshEngine
      (Command.ON_RAMP "1" (-2000000))).1.balances "1" = -1000000 ∧
    Engine.newBalanceOf (Engine.process Engine.freshEngine
      (Command.ON_RAMP "1" (-2000000))).1.balances "1" < 0 ∧
    (Engine.process Engine.freshEngine (Command.ON_RAMP "1" (-2000000))).2 =
      [ResultMsg.ON_RAMP_SUCCESS "1" (-2000000) (-1000000)] ∧
    Engine.entryOf (Engine.process Engine.freshEngine
      (Command.CREATE_ORDER "TATA_INR" 100 (-5) Side.sell "1" "s1")).1.balances
      "1" "TATA" = some (AssetBalance.mk 1005 (-5)) ∧
    ((-5 : Rat) < 0) ∧
    (Engine.process Engine.freshEngine
      (Command.CREATE_ORDER "TATA_INR" 100 (-5) Side.sell "1" "s1")).2 =
      [ResultMsg.ORDER_PLACED "s1" 0 []] := by
  refine ⟨rfl, by decide, rfl, rfl, by decide, rfl⟩

/-- **C9 counterexample.**  The snapshot record does not contain the STP
mode: restoring a book whose mode is `CANCEL_OLDEST` from its own snapshot
yields a book with the default `CANCEL_NEWEST` mode. -/
theorem claim_C9_counterexample :
    (Orderbook.restore (Orderbook.getSnapshot
      (Orderbook.create "TATA" [] [] 0 0
        SelfTradePreventionMode.CANCEL_OLDEST))).stpMode ≠
    (Orderbook.create "TATA" [] [] 0 0
      SelfTradePreventionMode.CANCEL_OLDEST).stpMode := by
  decide


/-! ## Claim C8 (amended): the dispatcher's actual validation set -/

namespace Engine

/-- The only errors `checkAndLockFunds` can throw. -/
theorem checkAndLockFunds_error_mem (b : Balances) (base quote : String)
    (side : Side) (u : String) (p q : Rat) (e : String)
    (h : checkAndLockFunds b base quote side u p q = .error e) :
    e = "User not found" ∨ e = "Insufficient funds" ∨ e = "TypeError" := by
  unfold checkAndLockFunds at h
  cases hbu : b u with
  | none =>
    rw [hbu] at h
    simp only [Except.error.injEq] at h
    exact Or.inl h.symm
  | some ub =>
    rw [hbu] at h
    cases side with
    | buy =>
      simp only at h
      by_cases hlt : Decimal.isLess
          (((ub quote).map AssetBalance.available).getD 0)
          (Decimal.multiply q p) = true
      · rw [if_pos hlt] at h
        simp only [Except.error.injEq] at h
        exact Or.inr (Or.inl h.symm)
      · rw [if_neg hlt] at h
        cases hq : ub quote with
        | none =>
          rw [hq] at h
          simp only [Except.error.injEq] at h
          exact Or.inr (Or.inr h.symm)
        | some entry =>
          rw [hq] at h
          exact absurd h (by simp)
    | sell =>
      simp only at h
      by_cases hlt : Decimal.isLess
          (((ub base).map AssetBalance.available).getD 0) q = true
      · rw [if_pos hlt] at h
        simp only [Except.error.injEq] at h
        exact Or.inr (Or.inl h.symm)
      · rw [if_neg hlt] at h
        cases hq : ub base with
        | none =>
          rw [hq] at h
          simp only [Except.error.injEq] at h
          exact Or.inr (Or.inr h.symm)
        | some entry =>
          rw [hq] at h
          exact absurd h (by simp)

/-- The only error `unlockFunds` can throw. -/
theorem unlockFunds_error_mem (b : Balances) (base quote : String)
    (side : Side) (u : String) (p q : Rat) (e : String)
    (h : unlockFunds b base quote side u p q = .error e) : e = "TypeError" := by
  unfold unlockFunds at h
  cases hbu : b u with
  | none =>
    rw [hbu] at h
    exact absurd h (by simp)
  | some ub =>
    rw [hbu] at h
    cases side with
    | buy =>
      simp only at h
      cases hq : ub quote with
      | none =>
        rw [hq] at h
        simp only [Except.error.injEq] at h
        exact h.symm
      | some entry =>
        rw [hq] at h
        exact absurd h (by simp)
    | sell =>
      simp only at h
      cases hq : ub base with
      | none =>
        rw [hq] at h
        simp only [Except.error.injEq] at h
        exact h.symm
      | some entry =>
        rw [hq] at h
        exact absurd h (by simp)

end Engine

namespace Orderbook

/-- The post-STP phase never rejects. -/
theorem addOrderAfterStp_not_rejected (ob : Orderbook) (order : Order) :
    (ob.addOrderAfterStp order).1.status ≠ OrderStatus.REJECTED := by
  cases hside : order.side with
  | buy =>
    obtain ⟨-, hres⟩ := addOrderAfterStp_buy_spec ob order hside _ rfl
    rw [hres]
    by_cases h1 : (matchLoop order.userId Side.buy order.price order.quantity
        ob.asks ob.asksDepth ob.lastTradeId ob.currentPrice).executedQty <
        order.quantity <;>
      by_cases h2 : 0 < (matchLoop order.userId Side.buy order.price
        order.quantity ob.asks ob.asksDepth ob.lastTradeId
        ob.currentPrice).executedQty <;>
      simp [h1, h2]
  | sell =>
    obtain ⟨-, hres⟩ := addOrderAfterStp_sell_spec ob order hside _ rfl
    rw [hres]
    by_cases h1 : (matchLoop order.userId Side.sell order.price order.quantity
        ob.bids ob.bidsDepth ob.lastTradeId ob.currentPrice).executedQty <
        order.quantity <;>
      by_cases h2 : 0 < (matchLoop order.userId Side.sell order.price
        order.quantity ob.bids ob.bidsDepth ob.lastTradeId
        ob.currentPrice).executedQty <;>
      simp [h1, h2]

/-- A rejection from `addOrder` always carries one of the two STP reasons. -/
theorem addOrder_rejected_reason (ob : Orderbook) (order : Order)
    (h : (ob.addOrder order).1.status = OrderStatus.REJECTED) :
    (ob.addOrder order).1.rejectionReason = some "STP: Cancel Newest" ∨
    (ob.addOrder order).1.rejectionReason = some "STP: Cancel Both" := by
  by_cases hst : (ob.wouldSelfTrade order).1
  · by_cases hmode : ob.stpMode = SelfTradePreventionMode.CANCEL_NEWEST
    · rw [addOrder_stp_newest ob order hst hmode]
      exact Or.inl rfl
    · by_cases hboth : ob.stpMode = SelfTradePreventionMode.CANCEL_BOTH
      · rw [addOrder_stp_both ob order hst hmode hboth]
        exact Or.inr rfl
      · rw [addOrder_stp_oldest ob order hst hmode hboth] at h
        exact absurd h (addOrderAfterStp_not_rejected _ order)
  · have hst' : (ob.wouldSelfTrade order).1 = false := by
      cases h2 : (ob.wouldSelfTrade order).1
      · rfl
      · exact absurd h2 hst
    rw [addOrder_clean ob order hst'] at h
    exact absurd h (addOrderAfterStp_not_rejected ob order)

end Orderbook

namespace Engine

/-- Shape of a `createOrder` outcome: either success carrying the caller's
order id, or one of the six errors of the actual code paths — none of which
is a positivity check on price or quantity. -/
theorem createOrder_shape (s : EngineState) (market : String)
    (price quantity : Rat) (side : Side) (userId orderId : String) :
    (∃ eq fills, (createOrder s market price quantity side userId orderId).2 =
      .ok (eq, fills, orderId)) ∨
    (∃ e, (createOrder s market price quantity side userId orderId).2 =
        .error e ∧
      e ∈ (["No orderbook found", "User not found", "Insufficient funds",
        "TypeError", "STP: Cancel Newest", "STP: Cancel Both"] : List String)) := by
  cases hfind : s.orderbooks.find? (fun o => o.ticker = market) with
  | none =>
    right
    exact ⟨"No orderbook found", by simp [createOrder, hfind], by simp⟩
  | some orderbook =>
    cases hchk : checkAndLockFunds s.balances (marketPart market 0)
        (marketPart market 1) side userId price quantity with
    | error e =>
      right
      refine ⟨e, by simp [createOrder, hfind, hchk], ?_⟩
      rcases checkAndLockFunds_error_mem _ _ _ _ _ _ _ _ hchk with
        h | h | h <;> simp [h]
    | ok balances₁ =>
      by_cases hrej : (orderbook.addOrder
          { price := price, quantity := quantity, orderId := orderId,
            filled := 0, side := side, userId := userId }).1.status =
          OrderStatus.REJECTED
      · cases hunlock : unlockFunds balances₁ (marketPart market 0)
            (marketPart market 1) side userId price quantity with
        | error e2 =>
          right
          exact ⟨e2, by simp [createOrder, hfind, hchk, hrej, hunlock],
            by simp [unlockFunds_error_mem _ _ _ _ _ _ _ _ hunlock]⟩
        | ok balances₂ =>
          right
          rcases Orderbook.addOrder_rejected_reason orderbook _ hrej with h | h
          · exact ⟨"STP: Cancel Newest",
              by simp [createOrder, hfind, hchk, hrej, hunlock, h], by simp⟩
          · exact ⟨"STP: Cancel Both",
              by simp [createOrder, hfind, hchk, hrej, hunlock, h], by simp⟩
      · by_cases hub : (updateBalance balances₁ userId (marketPart market 0)
            (marketPart market 1) side (orderbook.addOrder
              { price := price, quantity := quantity, orderId := orderId,
                filled := 0, side := side, userId := userId }).1.fills).2 = true
        · left
          exact ⟨(orderbook.addOrder
              { price := price, quantity := quantity, orderId := orderId,
                filled := 0, side := side, userId := userId }).1.executedQty,
            (orderbook.addOrder
              { price := price, quantity := quantity, orderId := orderId,
                filled := 0, side := side, userId := userId }).1.fills,
            by simp [createOrder, hfind, hchk, hrej, hub]⟩
        · right
          exact ⟨"TypeError", by simp [createOrder, hfind, hchk, hrej, hub],
            by simp⟩

end Engine

/-- **C8 (amended).**  Neither the dispatcher nor the HTTP router validates
that price and quantity are positive decimals.  Every `CREATE_ORDER` command
yields either a single `ORDER_PLACED` or a single `ORDER_REJECTED` whose
reason is one of the six real failure strings — missing orderbook, fund-check
failures, a settlement `TypeError`, or self-trade prevention; no rejection
arises from a positivity check, and (per the counterexample) a zero-priced
order is accepted and rests on the book. -/
theorem claim_C8 (s : EngineState) (market : String) (price quantity : Rat)
    (side : Side) (userId orderId : String) :
    (∃ eq fills, (Engine.process s (Command.CREATE_ORDER market price quantity
        side userId orderId)).2 = [ResultMsg.ORDER_PLACED orderId eq fills]) ∨
    (∃ e code, (Engine.process s (Command.CREATE_ORDER market price quantity
        side userId orderId)).2 = [ResultMsg.ORDER_REJECTED e code] ∧
      e ∈ (["No orderbook found", "User not found", "Insufficient funds",
        "TypeError", "STP: Cancel Newest", "STP: Cancel Both"] : List String)) := by
  rcases Engine.createOrder_shape s market price quantity side userId orderId with
    ⟨eq, fills, hok⟩ | ⟨e, herr, hmem⟩
  · left
    exact ⟨eq, fills, by simp [Engine.process, hok]⟩
  · right
    exact ⟨e, if strIncludes e "SELF_TRADE_PREVENTION" then "SELF_TRADE"
      else "ORDER_FAILED", by simp [Engine.process, herr], hmem⟩


/-! ## Claim C9 (amended): snapshot round-trip -/

theorem aggAt_of_not_mem (l : List Order) (p : Rat)
    (h : p ∉ l.map Order.price) : aggAt l p = 0 := by
  refine List.sum_eq_zero ?_
  intro x hx
  simp only [List.mem_map] at hx
  obtain ⟨o, ho, rfl⟩ := hx
  have hne : ¬ o.price = p := fun he => h (by rw [← he]; exact List.mem_map_of_mem _ ho)
  simp [hne]

theorem aggAt_pos_of_mem {l : List Order} (hpos : PosBook l) (p : Rat)
    (h : p ∈ l.map Order.price) : 0 < aggAt l p := by
  induction l with
  | nil => simp at h
  | cons o t ih =>
    have hposrest : PosBook t := fun x hx => hpos x (List.mem_cons_of_mem _ hx)
    have h1 : 0 < o.quantity - o.filled := by
      have := hpos o (List.mem_cons_self ..)
      linarith
    rw [aggAt_cons]
    simp only [List.map_cons, List.mem_cons] at h
    rcases h with h | h
    · have h2 := aggAt_nonneg hposrest p
      rw [if_pos h.symm]
      linarith
    · have h2 := ih hposrest h
      by_cases hop : o.price = p
      · rw [if_pos hop]
        linarith
      · rw [if_neg hop]
        simpa using h2

/-- The fold of `rebuildDepthCache`, characterized pointwise over an
arbitrary accumulator. -/
theorem rebuildDepth_foldl :
    ∀ (l : List Order) (m : DepthMap) (p : Rat),
      l.foldl (fun (m : DepthMap) (o : Order) => Function.update m o.price
        (some (Decimal.add (m.getD o.price)
          (Decimal.subtract o.quantity o.filled)))) m p =
      if p ∈ l.map Order.price then some (m.getD p + aggAt l p) else m p
  | [], m, p => by simp
  | o :: t, m, p => by
    rw [List.foldl_cons, rebuildDepth_foldl t _ p]
    by_cases hp : p = o.price
    · subst hp
      by_cases hmem : o.price ∈ t.map Order.price
      · rw [if_pos hmem, if_pos (by simp)]
        have hup : DepthMap.getD (Function.update m o.price
            (some (Decimal.add (DepthMap.getD m o.price)
              (Decimal.subtract o.quantity o.filled)))) o.price =
            DepthMap.getD m o.price + (o.quantity - o.filled) := by
          rw [DepthMap.getD, Function.update_same, Option.getD_some,
            Decimal.add_eq, Decimal.subtract_eq]
        rw [hup, aggAt_cons_self o t]
        congr 1
        ring
      · rw [if_neg hmem, if_pos (by simp)]
        rw [Function.update_same, aggAt_cons_self o t,
          aggAt_of_not_mem t o.price hmem, Decimal.add_eq, Decimal.subtract_eq]
        congr 1
        ring
    · have hup2 : Function.update m o.price
          (some (Decimal.add (DepthMap.getD m o.price)
            (Decimal.subtract o.quantity o.filled))) p = m p :=
        Function.update_noteq hp _ _
      have hupD : DepthMap.getD (Function.update m o.price
          (some (Decimal.add (DepthMap.getD m o.price)
            (Decimal.subtract o.quantity o.filled)))) p = DepthMap.getD m p := by
        rw [DepthMap.getD, hup2, DepthMap.getD]
      by_cases hmem : p ∈ t.map Order.price
      · rw [if_pos hmem, if_pos (by simp [hmem]), hupD,
          aggAt_cons_ne o t p (fun h => hp h.symm)]
      · rw [if_neg hmem, hup2, if_neg (by simp [hp, hmem])]

/-- Under depth agreement with a positive-remaining book, rebuilding the
depth cache from the orders reproduces the cache exactly. -/
theorem rebuildDepth_eq (l : List Order) (d : DepthMap)
    (hpos : PosBook l) (hd : DepthAgree l d) : rebuildDepth l = d := by
  have hre : rebuildDepth l =
      l.foldl (fun (m : DepthMap) (o : Order) => Function.update m o.price
        (some (Decimal.add (m.getD o.price)
          (Decimal.subtract o.quantity o.filled)))) (fun _ => none) := rfl
  funext p
  rw [hre, rebuildDepth_foldl l (fun _ => none) p, hd p]
  by_cases hmem : p ∈ l.map Order.price
  · rw [if_pos hmem, if_pos (aggAt_pos_of_mem hpos p hmem)]
    have : DepthMap.getD (fun _ => none) p = 0 := rfl
    rw [this, zero_add]
  · rw [if_neg hmem, if_neg (by rw [aggAt_of_not_mem l p hmem]; exact lt_irrefl 0)]

namespace Orderbook

/-- Round trip of one book through its snapshot, for a wellformed
`CANCEL_NEWEST` book quoted in the base currency. -/
theorem restore_getSnapshot (ob : Orderbook)
    (hbs : SortedBids ob.bids) (has : SortedAsks ob.asks)
    (hpb : PosBook ob.bids) (hpa : PosBook ob.asks)
    (hdb : DepthAgree ob.bids ob.bidsDepth)
    (hda : DepthAgree ob.asks ob.asksDepth)
    (hquote : ob.quoteAsset = BASE_CURRENCY)
    (hmode : ob.stpMode = SelfTradePreventionMode.CANCEL_NEWEST) :
    Orderbook.restore (Orderbook.getSnapshot ob) = ob := by
  obtain ⟨bids, asks, baseAsset, quoteAsset, lastTradeId, currentPrice,
    stpMode, bidsDepth, asksDepth⟩ := ob
  simp only at hbs has hpb hpa hdb hda hquote hmode
  have hsb : sortBids bids = bids := by
    rw [sortBids]
    exact List.Sorted.insertionSort_eq
      (List.Pairwise.imp
        (fun h => by simpa [Decimal.isGreaterOrEqual] using h) hbs)
  have hsa : sortAsks asks = asks := by
    rw [sortAsks]
    exact List.Sorted.insertionSort_eq
      (List.Pairwise.imp
        (fun h => by simpa [Decimal.isLessOrEqual] using h) has)
  simp only [restore, getSnapshot, create, Orderbook.mk.injEq]
  refine ⟨hsb, hsa, trivial, hquote.symm, trivial, trivial, hmode.symm, ?_, ?_⟩
  · rw [hsb]
    exact rebuildDepth_eq bids bidsDepth hpb hdb
  · rw [hsa]
    exact rebuildDepth_eq asks asksDepth hpa hda

end Orderbook

/-- **C9 (amended).**  The orderbook snapshot record omits the STP mode (and
the quote asset), so a general round trip fails; but for an engine whose
books are all wellformed `CANCEL_NEWEST` books quoted in the base currency —
which is every book the engine itself ever builds — restoring from a snapshot
reproduces the engine state exactly, the depth caches being rebuilt from the
sorted sequences, and hence every subsequent command prefix produces
identical results. -/
theorem claim_C9 (s : EngineState)
    (hwf : ∀ ob ∈ s.orderbooks, SortedBids ob.bids ∧ SortedAsks ob.asks ∧
      PosBook ob.bids ∧ PosBook ob.asks ∧ DepthAgree ob.bids ob.bidsDepth ∧
      DepthAgree ob.asks ob.asksDepth ∧ ob.quoteAsset = BASE_CURRENCY ∧
      ob.stpMode = SelfTradePreventionMode.CANCEL_NEWEST) :
    Engine.restoreEngine (Engine.saveSnapshot s) = s ∧
    ∀ cmds : List Command,
      Engine.runCommands (Engine.restoreEngine (Engine.saveSnapshot s)) cmds =
        Engine.runCommands s cmds := by
  have hmapid : ∀ ob ∈ s.orderbooks,
      Orderbook.restore (Orderbook.getSnapshot ob) = ob := by
    intro ob hob
    obtain ⟨h1, h2, h3, h4, h5, h6, h7, h8⟩ := hwf ob hob
    exact Orderbook.restore_getSnapshot ob h1 h2 h3 h4 h5 h6 h7 h8
  have hs : Engine.restoreEngine (Engine.saveSnapshot s) = s := by
    have h2 : ∀ bs : List Orderbook,
        (∀ ob ∈ bs, Orderbook.restore (Orderbook.getSnapshot ob) = ob) →
        List.map (fun ob => Orderbook.restore (Orderbook.getSnapshot ob)) bs = bs := by
      intro bs
      induction bs with
      | nil => intro h; rfl
      | cons b t ih =>
        intro h
        simp only [List.map_cons, List.cons.injEq]
        exact ⟨h b (List.mem_cons_self ..),
          ih (fun ob hob => h ob (List.mem_cons_of_mem _ hob))⟩
    obtain ⟨books, balances⟩ := s
    simp only [Engine.saveSnapshot, Engine.restoreEngine, List.map_map,
      EngineState.mk.injEq]
    exact ⟨h2 books (fun ob hob => hmapid ob hob), trivial⟩
  exact ⟨hs, fun cmds => by rw [hs]⟩

theorem claim_C9_witness :
    Engine.restoreEngine (Engine.saveSnapshot Engine.freshEngine) =
      Engine.freshEngine ∧
    ∀ cmds : List Command,
      Engine.runCommands (Engine.restoreEngine
        (Engine.saveSnapshot Engine.freshEngine)) cmds =
        Engine.runCommands Engine.freshEngine cmds :=
  claim_C9 Engine.freshEngine (by
    intro ob hob
    simp only [Engine.freshEngine, List.mem_singleton] at hob
    subst hob
    exact ⟨by decide, by decide, by decide, by decide, fun p => rfl,
      fun p => rfl, rfl, rfl⟩)


/-! ## Claim C7: STP atomic rejection -/

namespace Engine

/-- Unlocking right after a successful lock restores the ledger exactly. -/
theorem unlock_lock (b b₁ : Balances) (base quote : String) (side : Side)
    (u : String) (p q : Rat)
    (h : checkAndLockFunds b base quote side u p q = .ok b₁) :
    unlockFunds b₁ base quote side u p q = .ok b := by
  unfold checkAndLockFunds at h
  cases hbu : b u with
  | none =>
    rw [hbu] at h
    exact absurd h (by simp)
  | some ub =>
    rw [hbu] at h
    cases side with
    | buy =>
      simp only at h
      by_cases hlt : Decimal.isLess
          (((ub quote).map AssetBalance.available).getD 0)
          (Decimal.multiply q p) = true
      · rw [if_pos hlt] at h
        exact absurd h (by simp)
      · rw [if_neg hlt] at h
        cases hq : ub quote with
        | none =>
          rw [hq] at h
          exact absurd h (by simp)
        | some entry =>
          obtain ⟨ea, el⟩ := entry
          rw [hq] at h
          simp only [Option.map_some', Option.getD_some, Except.ok.injEq] at h
          subst h
          simp only [unlockFunds, Function.update_same]
          have hE : AssetBalance.mk
              (Decimal.add (Decimal.subtract ea (Decimal.multiply q p))
                (Decimal.multiply q p))
              (Decimal.subtract (Decimal.add el (Decimal.multiply q p))
                (Decimal.multiply q p)) = AssetBalance.mk ea el := by
            simp [Decimal.add_eq, Decimal.subtract_eq]
          rw [hE, Function.update_idem, Function.update_idem, ← hq,
            Function.update_eq_self, ← hbu, Function.update_eq_self]
    | sell =>
      simp only at h
      by_cases hlt : Decimal.isLess
          (((ub base).map AssetBalance.available).getD 0) q = true
      · rw [if_pos hlt] at h
        exact absurd h (by simp)
      · rw [if_neg hlt] at h
        cases hq : ub base with
        | none =>
          rw [hq] at h
          exact absurd h (by simp)
        | some entry =>
          obtain ⟨ea, el⟩ := entry
          rw [hq] at h
          simp only [Option.map_some', Option.getD_some, Except.ok.injEq] at h
          subst h
          simp only [unlockFunds, Function.update_same]
          have hE : AssetBalance.mk (Decimal.add (Decimal.subtract ea q) q)
              (Decimal.subtract (Decimal.add el q) q) = AssetBalance.mk ea el := by
            simp [Decimal.add_eq, Decimal.subtract_eq]
          rw [hE, Function.update_idem, Function.update_idem, ← hq,
            Function.update_eq_self, ← hbu, Function.update_eq_self]

end Engine

/-- **C7.**  STP atomic rejection at the command level: when the single book
runs `CANCEL_NEWEST` and the incoming order's user owns a crossing resting
order on the opposite side (the `wouldSelfTrade` pre-check fires), and the
fund lock succeeds, the whole `CREATE_ORDER` command leaves the engine state
exactly unchanged — the book untouched and the locked funds unwound — and
sends the single `ORDER_REJECTED` result with the STP reason (whose code is
`ORDER_FAILED`, as the reason string does not contain
`SELF_TRADE_PREVENTION`). -/
theorem claim_C7 (s : EngineState) (ob : Orderbook) (market : String)
    (price quantity : Rat) (side : Side) (userId orderId : String)
    (hbooks : s.orderbooks = [ob])
    (hticker : ob.ticker = market)
    (hmode : ob.stpMode = SelfTradePreventionMode.CANCEL_NEWEST)
    (hst : (ob.wouldSelfTrade
      (Order.mk price quantity orderId 0 side userId)).1 = true)
    (hlock : ∃ b₁, Engine.checkAndLockFunds s.balances (marketPart market 0)
      (marketPart market 1) side userId price quantity = .ok b₁) :
    Engine.process s
        (Command.CREATE_ORDER market price quantity side userId orderId) =
      (s, [ResultMsg.ORDER_REJECTED "STP: Cancel Newest" "ORDER_FAILED"]) := by
  obtain ⟨b₁, hlock⟩ := hlock
  have hfind : s.orderbooks.find? (fun o => o.ticker = market) = some ob := by
    rw [hbooks]
    simp [List.find?, hticker]
  have har := Orderbook.addOrder_stp_newest ob
    (Order.mk price quantity orderId 0 side userId) hst hmode
  have hunlock := Engine.unlock_lock s.balances b₁ (marketPart market 0)
    (marketPart market 1) side userId price quantity hlock
  have hinc : strIncludes "STP: Cancel Newest" "SELF_TRADE_PREVENTION" = false := by
    decide
  simp only [Engine.process, Engine.createOrder, hfind, hlock, har, hunlock,
    Option.getD_some, hinc, Bool.false_eq_true, if_false]
  have hrepl : Engine.replaceFirst (fun o => decide (o.ticker = market))
      (fun _ => ob) s.orderbooks = s.orderbooks := by
    rw [hbooks, Engine.replaceFirst]
    simp [hticker]
  rw [hrepl]
  simp [hinc]


/-- Fixed engine state for the C7 witness: user 1 has a resting sell
@1000 qty 5 on the single book, seed balances. -/
def c7State : EngineState :=
  ⟨[Orderbook.create "TATA" [] [⟨1000, 5, "a1", 0, Side.sell, "1"⟩] 0 0],
    Engine.setBaseBalances⟩

theorem claim_C7_witness :
    Engine.process c7State
        (Command.CREATE_ORDER "TATA_INR" 1000 5 Side.buy "1" "b1") =
      (c7State, [ResultMsg.ORDER_REJECTED "STP: Cancel Newest" "ORDER_FAILED"]) :=
  claim_C7 c7State
    (Orderbook.create "TATA" [] [⟨1000, 5, "a1", 0, Side.sell, "1"⟩] 0 0)
    "TATA_INR" 1000 5 Side.buy "1" "b1" rfl (by decide) rfl (by decide) ⟨_, rfl⟩


/-! ## Settlement ledger lemmas (for C1 and C10) -/

namespace Engine

/-- `available + locked` of one entry (0 when the entry is absent). -/
def entryTotal (b : Balances) (u a : String) : Rat :=
  match entryOf b u a with
  | none => 0
  | some e => e.available + e.locked

theorem entryOf_eq_some (b : Balances) (u a : String) (ub : UserBalance)
    (e : AssetBalance) (hu : b u = some ub) (ha : ub a = some e) :
    entryOf b u a = some e := by
  simp [entryOf, hu, ha]

/-- Full characterization of one buy-side fill settlement when all four
touched entries exist: success, the four entry mutations (maker quote
available credited, maker base locked debited, taker quote locked debited,
taker base available credited), and the frame on every other user or asset. -/
theorem settleFillBuy_spec (b : Balances) (uid base quote : String)
    (fill : Fill) (mub tub : UserBalance) (mq mb tq tb : AssetBalance)
    (hmu : b fill.otherUserId = some mub) (hmq : mub quote = some mq)
    (hmb : mub base = some mb)
    (htu : b uid = some tub) (htq : tub quote = some tq)
    (htb : tub base = some tb)
    (hneq : fill.otherUserId ≠ uid) (hba : base ≠ quote) :
    (settleFillBuy b uid base quote fill).2 = true ∧
    entryOf (settleFillBuy b uid base quote fill).1 fill.otherUserId quote =
      some ⟨mq.available + fill.qty * fill.price, mq.locked⟩ ∧
    entryOf (settleFillBuy b uid base quote fill).1 fill.otherUserId base =
      some ⟨mb.available, mb.locked - fill.qty⟩ ∧
    entryOf (settleFillBuy b uid base quote fill).1 uid quote =
      some ⟨tq.available, tq.locked - fill.qty * fill.price⟩ ∧
    entryOf (settleFillBuy b uid base quote fill).1 uid base =
      some ⟨tb.available + fill.qty, tb.locked⟩ ∧
    (∀ u, u ≠ uid → u ≠ fill.otherUserId →
      (settleFillBuy b uid base quote fill).1 u = b u) ∧
    (∀ a, a ≠ base → a ≠ quote → ∀ u,
      entryOf (settleFillBuy b uid base quote fill).1 u a = entryOf b u a) := by
  have huid_m : uid ≠ fill.otherUserId := hneq.symm
  have hqb : quote ≠ base := hba.symm
  have h2true : (settleFillBuy b uid base quote fill).2 = true := by
    simp only [settleFillBuy, mutateEntry, Function.update_apply, hmu, hmq,
      hmb, htu, htq, htb, hneq, huid_m, hba, hqb, if_true, if_false]
  have hu_m : (settleFillBuy b uid base quote fill).1 fill.otherUserId =
      some (Function.update (Function.update mub quote
        (some (AssetBalance.mk (mq.available + fill.qty * fill.price)
          mq.locked))) base
        (some (AssetBalance.mk mb.available (mb.locked - fill.qty)))) := by
    simp only [settleFillBuy, mutateEntry, Function.update_apply, hmu, hmq,
      hmb, htu, htq, htb, hneq, huid_m, hba, hqb, if_true, if_false]
    simp [huid_m, hba, hneq, hqb, Decimal.add_eq, Decimal.subtract_eq,
      Decimal.multiply_eq]
  have hu_t : (settleFillBuy b uid base quote fill).1 uid =
      some (Function.update (Function.update tub quote
        (some (AssetBalance.mk tq.available
          (tq.locked - fill.qty * fill.price)))) base
        (some (AssetBalance.mk (tb.available + fill.qty) tb.locked))) := by
    simp only [settleFillBuy, mutateEntry, Function.update_apply, hmu, hmq,
      hmb, htu, htq, htb, hneq, huid_m, hba, hqb, if_true, if_false]
    simp [huid_m, hba, hneq, hqb, Decimal.add_eq, Decimal.subtract_eq,
      Decimal.multiply_eq]
  have hu_o : ∀ u, u ≠ uid → u ≠ fill.otherUserId →
      (settleFillBuy b uid base quote fill).1 u = b u := by
    intro u h1 h2
    simp only [settleFillBuy, mutateEntry, Function.update_apply, hmu, hmq,
      hmb, htu, htq, htb, hneq, huid_m, hba, hqb, if_true, if_false]
    simp [huid_m, hba, h1, h2]
  refine ⟨h2true, ?_, ?_, ?_, ?_, hu_o, ?_⟩
  · simp [entryOf, hu_m, Function.update_apply, hqb, hba]
  · simp [entryOf, hu_m, Function.update_apply, hqb, hba]
  · simp [entryOf, hu_t, Function.update_apply, hqb, hba]
  · simp [entryOf, hu_t, Function.update_apply, hqb, hba]
  · intro a ha1 ha2 u
    by_cases h1 : u = uid
    · subst h1
      simp [entryOf, hu_t, Function.update_apply, ha1, ha2, htu]
    · by_cases h2 : u = fill.otherUserId
      · subst h2
        simp [entryOf, hu_m, Function.update_apply, ha1, ha2, hmu]
      · simp [entryOf, hu_o u h1 h2]

/-- Sell-side analogue of `settleFillBuy_spec`: maker quote locked debited,
maker base available credited, taker quote available credited, taker base
locked debited. -/
theorem settleFillSell_spec (b : Balances) (uid base quote : String)
    (fill : Fill) (mub tub : UserBalance) (mq mb tq tb : AssetBalance)
    (hmu : b fill.otherUserId = some mub) (hmq : mub quote = some mq)
    (hmb : mub base = some mb)
    (htu : b uid = some tub) (htq : tub quote = some tq)
    (htb : tub base = some tb)
    (hneq : fill.otherUserId ≠ uid) (hba : base ≠ quote) :
    (settleFillSell b uid base quote fill).2 = true ∧
    entryOf (settleFillSell b uid base quote fill).1 fill.otherUserId quote =
      some ⟨mq.available, mq.locked - fill.qty * fill.price⟩ ∧
    entryOf (settleFillSell b uid base quote fill).1 fill.otherUserId base =
      some ⟨mb.available + fill.qty, mb.locked⟩ ∧
    entryOf (settleFillSell b uid base quote fill).1 uid quote =
      some ⟨tq.available + fill.qty * fill.price, tq.locked⟩ ∧
    entryOf (settleFillSell b uid base quote fill).1 uid base =
      some ⟨tb.available, tb.locked - fill.qty⟩ ∧
    (∀ u, u ≠ uid → u ≠ fill.otherUserId →
      (settleFillSell b uid base quote fill).1 u = b u) ∧
    (∀ a, a ≠ base → a ≠ quote → ∀ u,
      entryOf (settleFillSell b uid base quote fill).1 u a = entryOf b u a) := by
  have huid_m : uid ≠ fill.otherUserId := hneq.symm
  have hqb : quote ≠ base := hba.symm
  have h2true : (settleFillSell b uid base quote fill).2 = true := by
    simp only [settleFillSell, mutateEntry, Function.update_apply, hmu, hmq,
      hmb, htu, htq, htb, hneq, huid_m, hba, hqb, if_true, if_false]
  have hu_m : (settleFillSell b uid base quote fill).1 fill.otherUserId =
      some (Function.update (Function.update mub quote
        (some (AssetBalance.mk mq.available
          (mq.locked - fill.qty * fill.price)))) base
        (some (AssetBalance.mk (mb.available + fill.qty) mb.locked))) := by
    simp only [settleFillSell, mutateEntry, Function.update_apply, hmu, hmq,
      hmb, htu, htq, htb, hneq, huid_m, hba, hqb, if_true, if_false]
    simp [huid_m, hba, hneq, hqb, Decimal.add_eq, Decimal.subtract_eq,
      Decimal.multiply_eq]
  have hu_t : (settleFillSell b uid base quote fill).1 uid =
      some (Function.update (Function.update tub quote
        (some (AssetBalance.mk (tq.available + fill.qty * fill.price)
          tq.locked))) base
        (some (AssetBalance.mk tb.available (tb.locked - fill.qty)))) := by
    simp only [settleFillSell, mutateEntry, Function.update_apply, hmu, hmq,
      hmb, htu, htq, htb, hneq, huid_m, hba, hqb, if_true, if_false]
    simp [huid_m, hba, hneq, hqb, Decimal.add_eq, Decimal.subtract_eq,
      Decimal.multiply_eq]
  have hu_o : ∀ u, u ≠ uid → u ≠ fill.otherUserId →
      (settleFillSell b uid base quote fill).1 u = b u := by
    intro u h1 h2
    simp only [settleFillSell, mutateEntry, Function.update_apply, hmu, hmq,
      hmb, htu, htq, htb, hneq, huid_m, hba, hqb, if_true, if_false]
    simp [huid_m, hba, h1, h2]
  refine ⟨h2true, ?_, ?_, ?_, ?_, hu_o, ?_⟩
  · simp [entryOf, hu_m, Function.update_apply, hqb, hba]
  · simp [entryOf, hu_m, Function.update_apply, hqb, hba]
  · simp [entryOf, hu_t, Function.update_apply, hqb, hba]
  · simp [entryOf, hu_t, Function.update_apply, hqb, hba]
  · intro a ha1 ha2 u
    by_cases h1 : u = uid
    · subst h1
      simp [entryOf, hu_t, Function.update_apply, ha1, ha2, htu]
    · by_cases h2 : u = fill.otherUserId
      · subst h2
        simp [entryOf, hu_m, Function.update_apply, ha1, ha2, hmu]
      · simp [entryOf, hu_o u h1 h2]

end Engine


namespace Engine

/-- Invert an `entryOf` observation into the two map layers. -/
theorem entryOf_inv (b : Balances) (u a : String) (e : AssetBalance)
    (h : entryOf b u a = some e) : ∃ ub, b u = some ub ∧ ub a = some e := by
  unfold entryOf at h
  cases hu : b u with
  | none =>
    rw [hu] at h
    exact absurd h (by simp)
  | some ub =>
    rw [hu] at h
    exact ⟨ub, rfl, h⟩

/-- Sum over a duplicate-free list of a function changed at one point. -/
theorem sum_map_single_change (f g : String → Rat) (m : String) :
    ∀ l : List String, l.Nodup → m ∈ l → (∀ u, u ≠ m → f u = g u) →
      (l.map f).sum = (l.map g).sum + (f m - g m)
  | [], _, hm, _ => by simp at hm
  | u :: rest, hN, hm, hfr => by
    simp only [List.nodup_cons] at hN
    rcases List.mem_cons.mp hm with rfl | hm'
    · have hrest : ∀ x ∈ rest, f x = g x := fun x hx =>
        hfr x (fun he => hN.1 (he ▸ hx))
      have : (rest.map f).sum = (rest.map g).sum := by
        rw [List.map_congr_left hrest]
      simp only [List.map_cons, List.sum_cons, this]
      ring
    · have hu : f u = g u := hfr u (fun he => hN.1 (he ▸ hm'))
      have := sum_map_single_change f g m rest hN.2 hm' hfr
      simp only [List.map_cons, List.sum_cons, this, hu]
      ring

/-- Per-asset total of `available + locked` over a set of users. -/
def totalOver (b : Balances) (users : List String) (a : String) : Rat :=
  (users.map fun u => entryTotal b u a).sum

/-- A two-point change whose deltas cancel preserves the total. -/
theorem totalOver_conserve (b b2 : Balances) (users : List String)
    (hN : users.Nodup) (uid m : String) (hm : m ≠ uid)
    (huid : uid ∈ users) (hmem : m ∈ users) (a : String)
    (hpair : entryTotal b2 uid a + entryTotal b2 m a =
      entryTotal b uid a + entryTotal b m a)
    (hframe : ∀ u, u ≠ uid → u ≠ m → entryTotal b2 u a = entryTotal b u a) :
    totalOver b2 users a = totalOver b users a := by
  have h1 := sum_map_single_change (fun u => entryTotal b2 u a)
    (fun u => if u = uid then entryTotal b2 uid a else entryTotal b u a)
    m users hN hmem (fun u hu => by
      by_cases h : u = uid
      · subst h
        simp
      · simp only [if_neg h]
        exact hframe u h hu)
  have h2 := sum_map_single_change
    (fun u => if u = uid then entryTotal b2 uid a else entryTotal b u a)
    (fun u => entryTotal b u a)
    uid users hN huid (fun u hu => by simp [if_neg hu])
  simp only [if_pos rfl, if_neg hm, if_true, eq_self_iff_true] at h1 h2
  unfold totalOver
  rw [h1, h2]
  linarith [hpair]

end Engine


namespace Engine

theorem entryTotal_of_some (b : Balances) (u a : String) (e : AssetBalance)
    (h : entryOf b u a = some e) : entryTotal b u a = e.available + e.locked := by
  unfold entryTotal
  rw [h]

theorem entryTotal_congr (b b2 : Balances) (u a : String)
    (h : entryOf b2 u a = entryOf b u a) : entryTotal b2 u a = entryTotal b u a := by
  unfold entryTotal
  rw [h]

theorem entryOf_congr_user (b b2 : Balances) (u : String) (h : b2 u = b u)
    (a : String) : entryOf b2 u a = entryOf b u a := by
  unfold entryOf
  rw [h]

/-- Σ `qty · price` over a fill list (the quote value settled). -/
def sumFillValue (fills : List Fill) : Rat :=
  (fills.map fun f => f.qty * f.price).sum

/-- `updateBalance` fold: with every fill's maker a distinct seeded user and
all seeded entries present, the whole settlement succeeds, keeps the seeded
entries present, leaves users outside the set untouched, conserves the
per-asset totals over the set, and moves the taker's quote entry by exactly
the settled value (debited from `locked` for a buy taker, credited to
`available` for a sell taker). -/
theorem updateBalance_spec (base quote : String) (hba : base ≠ quote)
    (uid : String) (side : Side) (users : List String) (hN : users.Nodup)
    (huid : uid ∈ users) :
    ∀ (fills : List Fill) (b : Balances),
      (∀ u ∈ users, (∃ e, entryOf b u quote = some e) ∧
        (∃ e, entryOf b u base = some e)) →
      (∀ f ∈ fills, f.otherUserId ∈ users ∧ f.otherUserId ≠ uid) →
      (updateBalance b uid base quote side fills).2 = true ∧
      (∀ u ∈ users,
        (∃ e, entryOf (updateBalance b uid base quote side fills).1 u quote = some e) ∧
        (∃ e, entryOf (updateBalance b uid base quote side fills).1 u base = some e)) ∧
      (∀ u, u ∉ users → (updateBalance b uid base quote side fills).1 u = b u) ∧
      (∀ a, totalOver (updateBalance b uid base quote side fills).1 users a =
        totalOver b users a) ∧
      (∀ e, entryOf b uid quote = some e →
        entryOf (updateBalance b uid base quote side fills).1 uid quote =
          some (match side with
            | Side.buy => ⟨e.available, e.locked - sumFillValue fills⟩
            | Side.sell => ⟨e.available + sumFillValue fills, e.locked⟩))
  | [], b => by
    intro hpres hfills
    refine ⟨rfl, hpres, fun u _ => rfl, fun a => rfl, ?_⟩
    intro e he
    cases side with
    | buy =>
      simp only [updateBalance, sumFillValue, List.map_nil, List.sum_nil,
        sub_zero, he]
    | sell =>
      simp only [updateBalance, sumFillValue, List.map_nil, List.sum_nil,
        add_zero, he]
  | fill :: rest, b => by
    intro hpres hfills
    obtain ⟨hfm, hfneq⟩ := hfills fill (List.mem_cons_self ..)
    obtain ⟨⟨mq, hmq0⟩, ⟨mb, hmb0⟩⟩ := hpres fill.otherUserId hfm
    obtain ⟨⟨tq, htq0⟩, ⟨tb, htb0⟩⟩ := hpres uid huid
    obtain ⟨mub, hmu, hmq⟩ := entryOf_inv b fill.otherUserId quote mq hmq0
    obtain ⟨mub2, hmu2, hmb⟩ := entryOf_inv b fill.otherUserId base mb hmb0
    rw [hmu] at hmu2
    obtain rfl : mub = mub2 := Option.some.inj hmu2
    obtain ⟨tub, htu, htq⟩ := entryOf_inv b uid quote tq htq0
    obtain ⟨tub2, htu2, htb⟩ := entryOf_inv b uid base tb htb0
    rw [htu] at htu2
    obtain rfl : tub = tub2 := Option.some.inj htu2
    cases side with
    | buy =>
      obtain ⟨h2, hemq, hemb, hetq, hetb, huo, hao⟩ :=
        settleFillBuy_spec b uid base quote fill mub tub mq mb tq tb
          hmu hmq hmb htu htq htb hfneq hba
      have hpres1 : ∀ u ∈ users,
          (∃ e, entryOf (settleFillBuy b uid base quote fill).1 u quote = some e) ∧
          (∃ e, entryOf (settleFillBuy b uid base quote fill).1 u base = some e) := by
        intro u hu
        by_cases h1 : u = uid
        · subst h1
          exact ⟨⟨_, hetq⟩, ⟨_, hetb⟩⟩
        · by_cases h2m : u = fill.otherUserId
          · subst h2m
            exact ⟨⟨_, hemq⟩, ⟨_, hemb⟩⟩
          · have hfr := entryOf_congr_user b _ u (huo u h1 h2m)
            obtain ⟨⟨e1, he1⟩, ⟨e2, he2⟩⟩ := hpres u hu
            exact ⟨⟨e1, (hfr quote).trans he1⟩, ⟨e2, (hfr base).trans he2⟩⟩
      have hrest : ∀ f ∈ rest, f.otherUserId ∈ users ∧ f.otherUserId ≠ uid :=
        fun f hf => hfills f (List.mem_cons_of_mem _ hf)
      obtain ⟨ih1, ih2, ih3, ih4, ih5⟩ := updateBalance_spec base quote hba uid
        Side.buy users hN huid rest (settleFillBuy b uid base quote fill).1
        hpres1 hrest
      have hstep : updateBalance b uid base quote Side.buy (fill :: rest) =
          updateBalance (settleFillBuy b uid base quote fill).1 uid base quote
            Side.buy rest := by
        simp only [updateBalance, h2, if_true]
      rw [hstep]
      refine ⟨ih1, ih2, ?_, ?_, ?_⟩
      · intro u hu
        rw [ih3 u hu]
        exact huo u (fun h => hu (h ▸ huid)) (fun h => hu (h ▸ hfm))
      · intro a
        rw [ih4 a]
        refine totalOver_conserve b _ users hN uid fill.otherUserId hfneq huid
          hfm a ?_ ?_
        · by_cases hq : a = quote
          · rw [hq, entryTotal_of_some _ _ _ _ hetq, entryTotal_of_some _ _ _ _ hemq,
              entryTotal_of_some _ _ _ _ htq0, entryTotal_of_some _ _ _ _ hmq0]
            ring
          · by_cases hb2 : a = base
            · rw [hb2, entryTotal_of_some _ _ _ _ hetb, entryTotal_of_some _ _ _ _ hemb,
                entryTotal_of_some _ _ _ _ htb0, entryTotal_of_some _ _ _ _ hmb0]
              ring
            · rw [entryTotal_congr b _ uid a (hao a hb2 hq uid),
                entryTotal_congr b _ fill.otherUserId a
                  (hao a hb2 hq fill.otherUserId)]
        · intro u h1 h2m
          by_cases hq : a = quote
          · rw [hq]
            exact entryTotal_congr b _ u quote
              (entryOf_congr_user b _ u (huo u h1 h2m) quote)
          · by_cases hb2 : a = base
            · rw [hb2]
              exact entryTotal_congr b _ u base
                (entryOf_congr_user b _ u (huo u h1 h2m) base)
            · exact entryTotal_congr b _ u a (hao a hb2 hq u)
      · intro e he
        rw [htq0] at he
        obtain rfl : tq = e := Option.some.inj he
        have h5 := ih5 ⟨tq.available, tq.locked - fill.qty * fill.price⟩ hetq
        simp only at h5
        rw [h5]
        have harith : tq.locked - fill.qty * fill.price - sumFillValue rest =
            tq.locked - sumFillValue (fill :: rest) := by
          simp only [sumFillValue, List.map_cons, List.sum_cons]
          ring
        rw [harith]
    | sell =>
      obtain ⟨h2, hemq, hemb, hetq, hetb, huo, hao⟩ :=
        settleFillSell_spec b uid base quote fill mub tub mq mb tq tb
          hmu hmq hmb htu htq htb hfneq hba
      have hpres1 : ∀ u ∈ users,
          (∃ e, entryOf (settleFillSell b uid base quote fill).1 u quote = some e) ∧
          (∃ e, entryOf (settleFillSell b uid base quote fill).1 u base = some e) := by
        intro u hu
        by_cases h1 : u = uid
        · subst h1
          exact ⟨⟨_, hetq⟩, ⟨_, hetb⟩⟩
        · by_cases h2m : u = fill.otherUserId
          · subst h2m
            exact ⟨⟨_, hemq⟩, ⟨_, hemb⟩⟩
          · have hfr := entryOf_congr_user b _ u (huo u h1 h2m)
            obtain ⟨⟨e1, he1⟩, ⟨e2, he2⟩⟩ := hpres u hu
            exact ⟨⟨e1, (hfr quote).trans he1⟩, ⟨e2, (hfr base).trans he2⟩⟩
      have hrest : ∀ f ∈ rest, f.otherUserId ∈ users ∧ f.otherUserId ≠ uid :=
        fun f hf => hfills f (List.mem_cons_of_mem _ hf)
      obtain ⟨ih1, ih2, ih3, ih4, ih5⟩ := updateBalance_spec base quote hba uid
        Side.sell users hN huid rest (settleFillSell b uid base quote fill).1
        hpres1 hrest
      have hstep : updateBalance b uid base quote Side.sell (fill :: rest) =
          updateBalance (settleFillSell b uid base quote fill).1 uid base quote
            Side.sell rest := by
        simp only [updateBalance, h2, if_true]
      rw [hstep]
      refine ⟨ih1, ih2, ?_, ?_, ?_⟩
      · intro u hu
        rw [ih3 u hu]
        exact huo u (fun h => hu (h ▸ huid)) (fun h => hu (h ▸ hfm))
      · intro a
        rw [ih4 a]
        refine totalOver_conserve b _ users hN uid fill.otherUserId hfneq huid
          hfm a ?_ ?_
        · by_cases hq : a = quote
          · rw [hq, entryTotal_of_some _ _ _ _ hetq, entryTotal_of_some _ _ _ _ hemq,
              entryTotal_of_some _ _ _ _ htq0, entryTotal_of_some _ _ _ _ hmq0]
            ring
          · by_cases hb2 : a = base
            · rw [hb2, entryTotal_of_some _ _ _ _ hetb, entryTotal_of_some _ _ _ _ hemb,
                entryTotal_of_some _ _ _ _ htb0, entryTotal_of_some _ _ _ _ hmb0]
              ring
            · rw [entryTotal_congr b _ uid a (hao a hb2 hq uid),
                entryTotal_congr b _ fill.otherUserId a
                  (hao a hb2 hq fill.otherUserId)]
        · intro u h1 h2m
          by_cases hq : a = quote
          · rw [hq]
            exact entryTotal_congr b _ u quote
              (entryOf_congr_user b _ u (huo u h1 h2m) quote)
          · by_cases hb2 : a = base
            · rw [hb2]
              exact entryTotal_congr b _ u base
                (entryOf_congr_user b _ u (huo u h1 h2m) base)
            · exact entryTotal_congr b _ u a (hao a hb2 hq u)
      · intro e he
        rw [htq0] at he
        obtain rfl : tq = e := Option.some.inj he
        have h5 := ih5 ⟨tq.available + fill.qty * fill.price, tq.locked⟩ hetq
        simp only at h5
        rw [h5]
        have harith : tq.available + fill.qty * fill.price + sumFillValue rest =
            tq.available + sumFillValue (fill :: rest) := by
          simp only [sumFillValue, List.map_cons, List.sum_cons]
          ring
        rw [harith]

end Engine


namespace Orderbook

/-- `cancelBid` keeps the asset fields. -/
theorem cancelBid_fields (ob : Orderbook) (c : Order) :
    (ob.cancelBid c).2.baseAsset = ob.baseAsset ∧
    (ob.cancelBid c).2.quoteAsset = ob.quoteAsset := by
  cases h : ob.bids.findIdx? (fun x => x.orderId = c.orderId) with
  | none =>
    simp only [cancelBid, h]
    exact ⟨trivial, trivial⟩
  | some index =>
    cases h2 : ob.bids[index]? with
    | none =>
      simp only [cancelBid, h, h2]
      exact ⟨trivial, trivial⟩
    | some cancelledOrder =>
      simp only [cancelBid, h, h2]
      exact ⟨trivial, trivial⟩

/-- `cancelAsk` keeps the asset fields. -/
theorem cancelAsk_fields (ob : Orderbook) (c : Order) :
    (ob.cancelAsk c).2.baseAsset = ob.baseAsset ∧
    (ob.cancelAsk c).2.quoteAsset = ob.quoteAsset := by
  cases h : ob.asks.findIdx? (fun x => x.orderId = c.orderId) with
  | none =>
    simp only [cancelAsk, h]
    exact ⟨trivial, trivial⟩
  | some index =>
    cases h2 : ob.asks[index]? with
    | none =>
      simp only [cancelAsk, h, h2]
      exact ⟨trivial, trivial⟩
    | some cancelledOrder =>
      simp only [cancelAsk, h, h2]
      exact ⟨trivial, trivial⟩

theorem cancelConflicts_fields (conflicts : List Order) :
    ∀ ob : Orderbook,
      (cancelConflicts ob conflicts).baseAsset = ob.baseAsset ∧
      (cancelConflicts ob conflicts).quoteAsset = ob.quoteAsset := by
  induction conflicts with
  | nil =>
    intro ob
    exact ⟨rfl, rfl⟩
  | cons c rest ih =>
    intro ob
    rw [cancelConflicts]
    cases c.side with
    | buy =>
      obtain ⟨h1, h2⟩ := ih (ob.cancelBid c).2
      obtain ⟨g1, g2⟩ := cancelBid_fields ob c
      exact ⟨h1.trans g1, h2.trans g2⟩
    | sell =>
      obtain ⟨h1, h2⟩ := ih (ob.cancelAsk c).2
      obtain ⟨g1, g2⟩ := cancelAsk_fields ob c
      exact ⟨h1.trans g1, h2.trans g2⟩

/-- `addOrderAfterStp` keeps the asset fields. -/
theorem addOrderAfterStp_fields (ob : Orderbook) (order : Order) :
    (ob.addOrderAfterStp order).2.baseAsset = ob.baseAsset ∧
    (ob.addOrderAfterStp order).2.quoteAsset = ob.quoteAsset := by
  cases hside : order.side with
  | buy =>
    obtain ⟨hob, -⟩ := addOrderAfterStp_buy_spec ob order hside _ rfl
    rw [hob]
    by_cases hlt : (matchLoop order.userId Side.buy order.price order.quantity
        ob.asks ob.asksDepth ob.lastTradeId ob.currentPrice).executedQty <
        order.quantity
    · rw [if_pos hlt]
      exact ⟨rfl, rfl⟩
    · rw [if_neg hlt]
      exact ⟨rfl, rfl⟩
  | sell =>
    obtain ⟨hob, -⟩ := addOrderAfterStp_sell_spec ob order hside _ rfl
    rw [hob]
    by_cases hlt : (matchLoop order.userId Side.sell order.price order.quantity
        ob.bids ob.bidsDepth ob.lastTradeId ob.currentPrice).executedQty <
        order.quantity
    · rw [if_pos hlt]
      exact ⟨rfl, rfl⟩
    · rw [if_neg hlt]
      exact ⟨rfl, rfl⟩

/-- `addOrder` keeps the asset fields. -/
theorem addOrder_fields (ob : Orderbook) (order : Order) :
    (ob.addOrder order).2.baseAsset = ob.baseAsset ∧
    (ob.addOrder order).2.quoteAsset = ob.quoteAsset := by
  by_cases hst : (ob.wouldSelfTrade order).1
  · by_cases hmode : ob.stpMode = SelfTradePreventionMode.CANCEL_NEWEST
    · rw [addOrder_stp_newest ob order hst hmode]
      exact ⟨rfl, rfl⟩
    · by_cases hboth : ob.stpMode = SelfTradePreventionMode.CANCEL_BOTH
      · rw [addOrder_stp_both ob order hst hmode hboth]
        exact cancelConflicts_fields _ ob
      · rw [addOrder_stp_oldest ob order hst hmode hboth]
        obtain ⟨h1, h2⟩ := addOrderAfterStp_fields
          (cancelConflicts ob (ob.wouldSelfTrade order).2) order
        obtain ⟨g1, g2⟩ := cancelConflicts_fields (ob.wouldSelfTrade order).2 ob
        exact ⟨h1.trans g1, h2.trans g2⟩
  · have hst2 : (ob.wouldSelfTrade order).1 = false := by
      cases h : (ob.wouldSelfTrade order).1
      · rfl
      · exact absurd h hst
    rw [addOrder_clean ob order hst2]
    exact addOrderAfterStp_fields ob order

/-- Every user resting on the post-`addOrderAfterStp` book is the incoming
user or a user of the pre-book. -/
theorem addOrderAfterStp_users (ob : Orderbook) (order : Order) :
    ∀ o, (o ∈ (ob.addOrderAfterStp order).2.bids ∨
        o ∈ (ob.addOrderAfterStp order).2.asks) →
      o.userId = order.userId ∨
        (∃ o2, (o2 ∈ ob.bids ∨ o2 ∈ ob.asks) ∧ o.userId = o2.userId) := by
  cases hside : order.side with
  | buy =>
    obtain ⟨hob, -⟩ := addOrderAfterStp_buy_spec ob order hside _ rfl
    rw [hob]
    intro o ho
    by_cases hlt : (matchLoop order.userId Side.buy order.price order.quantity
        ob.asks ob.asksDepth ob.lastTradeId ob.currentPrice).executedQty <
        order.quantity
    · rw [if_pos hlt] at ho
      rcases ho with ho | ho
    
      · rcases (List.mem_insertIdx (findInsertIndex_le ob.bids order.price
          Side.buy)).mp ho with h | h
        · left
          rw [h]
        · right
          exact ⟨o, Or.inl h, rfl⟩
      · obtain ⟨o2, ho2, -, -, hu⟩ := matchLoop_book_mem order.userId Side.buy
          order.price order.quantity ob.asks ob.asksDepth ob.lastTradeId
          ob.currentPrice o ho
        right
        exact ⟨o2, Or.inr ho2, hu⟩
    · rw [if_neg hlt] at ho
      rcases ho with ho | ho
      · right
        exact ⟨o, Or.inl ho, rfl⟩
      · obtain ⟨o2, ho2, -, -, hu⟩ := matchLoop_book_mem order.userId Side.buy
          order.price order.quantity ob.asks ob.asksDepth ob.lastTradeId
          ob.currentPrice o ho
        right
        exact ⟨o2, Or.inr ho2, hu⟩
  | sell =>
    obtain ⟨hob, -⟩ := addOrderAfterStp_sell_spec ob order hside _ rfl
    rw [hob]
    intro o ho
    by_cases hlt : (matchLoop order.userId Side.sell order.price order.quantity
        ob.bids ob.bidsDepth ob.lastTradeId ob.currentPrice).executedQty <
        order.quantity
    · rw [if_pos hlt] at ho
      rcases ho with ho | ho
      · obtain ⟨o2, ho2, -, -, hu⟩ := matchLoop_book_mem order.userId Side.sell
          order.price order.quantity ob.bids ob.bidsDepth ob.lastTradeId
          ob.currentPrice o ho
        right
        exact ⟨o2, Or.inl ho2, hu⟩
      · rcases (List.mem_insertIdx (findInsertIndex_le ob.asks order.price
          Side.sell)).mp ho with h | h
        · left
          rw [h]
        · right
          exact ⟨o, Or.inr h, rfl⟩
    · rw [if_neg hlt] at ho
      rcases ho with ho | ho
      · obtain ⟨o2, ho2, -, -, hu⟩ := matchLoop_book_mem order.userId Side.sell
          order.price order.quantity ob.bids ob.bidsDepth ob.lastTradeId
          ob.currentPrice o ho
        right
        exact ⟨o2, Or.inl ho2, hu⟩
      · right
        exact ⟨o, Or.inr ho, rfl⟩

/-- Every user resting after `addOrder` is the incoming user or a pre-book
user, in any STP mode. -/
theorem addOrder_users (ob : Orderbook) (order : Order) :
    ∀ o, (o ∈ (ob.addOrder order).2.bids ∨ o ∈ (ob.addOrder order).2.asks) →
      o.userId = order.userId ∨
        (∃ o2, (o2 ∈ ob.bids ∨ o2 ∈ ob.asks) ∧ o.userId = o2.userId) := by
  by_cases hst : (ob.wouldSelfTrade order).1
  · by_cases hmode : ob.stpMode = SelfTradePreventionMode.CANCEL_NEWEST
    · rw [addOrder_stp_newest ob order hst hmode]
      intro o ho
      right
      exact ⟨o, ho, rfl⟩
    · obtain ⟨hsub1, hsub2, -⟩ :=
        cancelConflicts_shape (ob.wouldSelfTrade order).2 ob
      by_cases hboth : ob.stpMode = SelfTradePreventionMode.CANCEL_BOTH
      · rw [addOrder_stp_both ob order hst hmode hboth]
        intro o ho
        right
        rcases ho with ho | ho
        · exact ⟨o, Or.inl (hsub1.subset ho), rfl⟩
        · exact ⟨o, Or.inr (hsub2.subset ho), rfl⟩
      · rw [addOrder_stp_oldest ob order hst hmode hboth]
        intro o ho
        rcases addOrderAfterStp_users _ order o ho with h | ⟨o2, ho2, hu⟩
        · exact Or.inl h
        · right
          rcases ho2 with ho2 | ho2
          · exact ⟨o2, Or.inl (hsub1.subset ho2), hu⟩
          · exact ⟨o2, Or.inr (hsub2.subset ho2), hu⟩
  · have hst2 : (ob.wouldSelfTrade order).1 = false := by
      cases h : (ob.wouldSelfTrade order).1
      · rfl
      · exact absurd h hst
    rw [addOrder_clean ob order hst2]
    exact addOrderAfterStp_users ob order

/-- Every fill of `addOrder` names a maker user distinct from the incoming
user and resting on the pre-book (no sortedness needed). -/
theorem addOrder_fills_makers (ob : Orderbook) (order : Order) :
    ∀ f ∈ (ob.addOrder order).1.fills,
      f.otherUserId ≠ order.userId ∧
      ∃ o2, (o2 ∈ ob.bids ∨ o2 ∈ ob.asks) ∧ o2.userId = f.otherUserId := by
  have hstp : ∀ ob2 : Orderbook, ob2.bids.Sublist ob.bids →
      ob2.asks.Sublist ob.asks →
      ∀ f ∈ (ob2.addOrderAfterStp order).1.fills,
        f.otherUserId ≠ order.userId ∧
        ∃ o2, (o2 ∈ ob.bids ∨ o2 ∈ ob.asks) ∧ o2.userId = f.otherUserId := by
    intro ob2 hsb hsa f hf
    cases hside : order.side with
    | buy =>
      obtain ⟨-, hres⟩ := addOrderAfterStp_buy_spec ob2 order hside _ rfl
      rw [hres] at hf
      obtain ⟨⟨o, ho, -, -, hu, hne⟩, -⟩ := matchLoop_fills_maker order.userId
        Side.buy order.price order.quantity ob2.asks ob2.asksDepth
        ob2.lastTradeId ob2.currentPrice f hf
      exact ⟨fun h => hne (hu.trans h), o, Or.inr (hsa.subset ho), hu⟩
    | sell =>
      obtain ⟨-, hres⟩ := addOrderAfterStp_sell_spec ob2 order hside _ rfl
      rw [hres] at hf
      obtain ⟨⟨o, ho, -, -, hu, hne⟩, -⟩ := matchLoop_fills_maker order.userId
        Side.sell order.price order.quantity ob2.bids ob2.bidsDepth
        ob2.lastTradeId ob2.currentPrice f hf
      exact ⟨fun h => hne (hu.trans h), o, Or.inl (hsb.subset ho), hu⟩
  by_cases hst : (ob.wouldSelfTrade order).1
  · by_cases hmode : ob.stpMode = SelfTradePreventionMode.CANCEL_NEWEST
    · rw [addOrder_stp_newest ob order hst hmode]
      intro f hf
      simp at hf
    · obtain ⟨hsub1, hsub2, -⟩ :=
        cancelConflicts_shape (ob.wouldSelfTrade order).2 ob
      by_cases hboth : ob.stpMode = SelfTradePreventionMode.CANCEL_BOTH
      · rw [addOrder_stp_both ob order hst hmode hboth]
        intro f hf
        simp at hf
      · rw [addOrder_stp_oldest ob order hst hmode hboth]
        exact hstp _ hsub1 hsub2
  · have hst2 : (ob.wouldSelfTrade order).1 = false := by
      cases h : (ob.wouldSelfTrade order).1
      · rfl
      · exact absurd h hst
    rw [addOrder_clean ob order hst2]
    exact hstp ob (List.Sublist.refl _) (List.Sublist.refl _)

end Orderbook


namespace Engine

/-- Overwriting one existing entry with the same `available + locked` total:
frame, per-user totals and presence all survive. -/
theorem update_entry_conserve (b : Balances) (u asset : String)
    (ub : UserBalance) (e : AssetBalance) (av lk : Rat)
    (hu : b u = some ub) (ha : ub asset = some e)
    (hsum : av + lk = e.available + e.locked) :
    (∀ u2, u2 ≠ u →
      Function.update b u (some (Function.update ub asset
        (some (AssetBalance.mk av lk)))) u2 = b u2) ∧
    (∀ a, entryTotal (Function.update b u (some (Function.update ub asset
        (some (AssetBalance.mk av lk))))) u a = entryTotal b u a) ∧
    (∀ u2 a, (∃ e2, entryOf b u2 a = some e2) →
      (∃ e2, entryOf (Function.update b u (some (Function.update ub asset
        (some (AssetBalance.mk av lk))))) u2 a = some e2)) := by
  refine ⟨?_, ?_, ?_⟩
  · intro u2 h2
    exact Function.update_noteq h2 _ _
  · intro a
    by_cases haa : a = asset
    · rw [haa]
      have h1 : entryOf (Function.update b u (some (Function.update ub asset
          (some (AssetBalance.mk av lk))))) u asset =
          some (AssetBalance.mk av lk) := by
        simp [entryOf, Function.update_same]
      rw [entryTotal_of_some _ _ _ _ h1,
        entryTotal_of_some _ _ _ _ (entryOf_eq_some b u asset ub e hu ha)]
      exact hsum
    · have h1 : entryOf (Function.update b u (some (Function.update ub asset
          (some (AssetBalance.mk av lk))))) u a = entryOf b u a := by
        simp [entryOf, Function.update_same, hu, Function.update_noteq haa]
      exact entryTotal_congr b _ u a h1
  · intro u2 a he
    by_cases h2 : u2 = u
    · subst h2
      by_cases haa : a = asset
      · subst haa
        refine ⟨AssetBalance.mk av lk, ?_⟩
        simp [entryOf, Function.update_same]
      · obtain ⟨e2, he2⟩ := he
        refine ⟨e2, ?_⟩
        have h1 : entryOf (Function.update b u2 (some (Function.update ub asset
            (some (AssetBalance.mk av lk))))) u2 a = entryOf b u2 a := by
          simp [entryOf, Function.update_same, hu, Function.update_noteq haa]
        rw [h1]
        exact he2
    · obtain ⟨e2, he2⟩ := he
      refine ⟨e2, ?_⟩
      rw [entryOf_congr_user b _ u2 (Function.update_noteq h2 _ _) a]
      exact he2

/-- Pointwise-equal per-user totals give equal set totals. -/
theorem totalOver_congr (b b2 : Balances) (users : List String) (a : String)
    (h : ∀ u ∈ users, entryTotal b2 u a = entryTotal b u a) :
    totalOver b2 users a = totalOver b users a := by
  unfold totalOver
  rw [List.map_congr_left h]

/-- A successful fund lock moves value inside one user's entry: user frame,
per-user totals and presence of every entry survive. -/
theorem checkAndLockFunds_conserve (b b₁ : Balances) (base quote : String)
    (side : Side) (u : String) (p q : Rat)
    (h : checkAndLockFunds b base quote side u p q = .ok b₁) :
    (∃ ub, b u = some ub) ∧
    (∀ u2, u2 ≠ u → b₁ u2 = b u2) ∧
    (∀ a, entryTotal b₁ u a = entryTotal b u a) ∧
    (∀ u2 a, (∃ e2, entryOf b u2 a = some e2) →
      (∃ e2, entryOf b₁ u2 a = some e2)) := by
  unfold checkAndLockFunds at h
  cases hbu : b u with
  | none =>
    rw [hbu] at h
    exact absurd h (by simp)
  | some ub =>
    rw [hbu] at h
    refine ⟨⟨ub, rfl⟩, ?_⟩
    cases side with
    | buy =>
      simp only at h
      by_cases hlt : Decimal.isLess
          (((ub quote).map AssetBalance.available).getD 0)
          (Decimal.multiply q p) = true
      · rw [if_pos hlt] at h
        exact absurd h (by simp)
      · rw [if_neg hlt] at h
        cases hq : ub quote with
        | none =>
          rw [hq] at h
          exact absurd h (by simp)
        | some entry =>
          obtain ⟨ea, el⟩ := entry
          rw [hq] at h
          simp only [Option.map_some', Option.getD_some, Except.ok.injEq] at h
          obtain rfl := h
          exact update_entry_conserve b u quote ub (AssetBalance.mk ea el)
            (Decimal.subtract ea (Decimal.multiply q p))
            (Decimal.add el (Decimal.multiply q p)) hbu hq
            (by simp [Decimal.add_eq, Decimal.subtract_eq]; try ring)
    | sell =>
      simp only at h
      by_cases hlt : Decimal.isLess
          (((ub base).map AssetBalance.available).getD 0) q = true
      · rw [if_pos hlt] at h
        exact absurd h (by simp)
      · rw [if_neg hlt] at h
        cases hq : ub base with
        | none =>
          rw [hq] at h
          exact absurd h (by simp)
        | some entry =>
          obtain ⟨ea, el⟩ := entry
          rw [hq] at h
          simp only [Option.map_some', Option.getD_some, Except.ok.injEq] at h
          obtain rfl := h
          exact update_entry_conserve b u base ub (AssetBalance.mk ea el)
            (Decimal.subtract ea q) (Decimal.add el q) hbu hq
            (by simp [Decimal.add_eq, Decimal.subtract_eq]; try ring)

/-- The three seeded users of `setBaseBalances`. -/
def seeded : List String := ["1", "2", "5"]

/-- Ledger shape the engine maintains on the no-ramp fragment: only seeded
users have balances, and every seeded user has both asset entries. -/
abbrev BalInv (b : Balances) : Prop :=
  (∀ u, u ∉ seeded → b u = none) ∧
  (∀ u ∈ seeded, (∃ e, entryOf b u "INR" = some e) ∧
    (∃ e, entryOf b u "TATA" = some e))

/-- Book shape: the `TATA_INR` market with only seeded resting users. -/
abbrev BookInv (ob : Orderbook) : Prop :=
  ob.baseAsset = "TATA" ∧ ob.quoteAsset = "INR" ∧
  (∀ o ∈ ob.bids, o.userId ∈ seeded) ∧ (∀ o ∈ ob.asks, o.userId ∈ seeded)

/-- Engine invariant for the conservation argument. -/
abbrev Inv (s : EngineState) : Prop :=
  BalInv s.balances ∧ ∀ ob ∈ s.orderbooks, BookInv ob

/-- Commands of the create/match/cancel fragment. -/
def isBookCmd : Command → Prop
  | Command.CREATE_ORDER _ _ _ _ _ _ => True
  | Command.CANCEL_ORDER _ _ => True
  | _ => False

theorem user_mem_seeded (b : Balances) (hb : BalInv b) (u : String)
    (ub : UserBalance) (hu : b u = some ub) : u ∈ seeded := by
  by_contra h
  rw [hb.1 u h] at hu
  exact absurd hu (by simp)

theorem BalInv_preserve (b b₁ : Balances) (hb : BalInv b) (u : String)
    (hu : u ∈ seeded)
    (hframe : ∀ u2, u2 ≠ u → b₁ u2 = b u2)
    (hpres : ∀ u2 a, (∃ e, entryOf b u2 a = some e) →
      (∃ e, entryOf b₁ u2 a = some e)) :
    BalInv b₁ := by
  constructor
  · intro u2 h2
    have hne : u2 ≠ u := fun he => h2 (he ▸ hu)
    rw [hframe u2 hne]
    exact hb.1 u2 h2
  · intro u2 h2
    exact ⟨hpres u2 "INR" (hb.2 u2 h2).1, hpres u2 "TATA" (hb.2 u2 h2).2⟩

end Engine


namespace Engine

theorem replaceFirst_mem {α : Type} (p : α → Bool) (f : α → α) :
    ∀ (l : List α) (x : α), x ∈ replaceFirst p f l → x ∈ l ∨ ∃ y ∈ l, x = f y
  | [], x => by simp [replaceFirst]
  | a :: rest, x => by
    rw [replaceFirst]
    by_cases h : p a = true
    · rw [if_pos h]
      intro hx
      rcases List.mem_cons.mp hx with rfl | hx2
      · exact Or.inr ⟨a, List.mem_cons_self .., rfl⟩
      · exact Or.inl (List.mem_cons_of_mem _ hx2)
    · rw [if_neg h]
      intro hx
      rcases List.mem_cons.mp hx with rfl | hx2
      · exact Or.inl (List.mem_cons_self ..)
      · rcases replaceFirst_mem p f rest x hx2 with h2 | ⟨y, hy, h3⟩
        · exact Or.inl (List.mem_cons_of_mem _ h2)
        · exact Or.inr ⟨y, List.mem_cons_of_mem _ hy, h3⟩

theorem process_create_state (s : EngineState) (market : String)
    (price quantity : Rat) (side : Side) (userId orderId : String) :
    (process s (Command.CREATE_ORDER market price quantity side
      userId orderId)).1 =
      (createOrder s market price quantity side userId orderId).1 := by
  cases h : (createOrder s market price quantity side userId orderId).2 with
  | ok v =>
    obtain ⟨a2, b2, c2⟩ := v
    simp [process, h]
  | error e =>
    simp [process, h]

theorem freshEngine_inv : Inv freshEngine := by
  refine ⟨⟨?_, ?_⟩, ?_⟩
  · intro u hu
    have h1 : ¬ (u = "1" ∨ u = "2" ∨ u = "5") := by
      intro h
      rcases h with h | h | h <;> simp [seeded, h] at hu
    simp [freshEngine, setBaseBalances, h1]
  · intro u hu
    have : u = "1" ∨ u = "2" ∨ u = "5" := by simpa [seeded] using hu
    rcases this with rfl | rfl | rfl
    · exact ⟨⟨_, rfl⟩, ⟨_, rfl⟩⟩
    · exact ⟨⟨_, rfl⟩, ⟨_, rfl⟩⟩
    · exact ⟨⟨_, rfl⟩, ⟨_, rfl⟩⟩
  · intro ob hob
    simp only [freshEngine, List.mem_singleton] at hob
    subst hob
    exact ⟨rfl, rfl, by decide, by decide⟩

end Engine


namespace Engine

/-- `createOrder` preserves the engine invariant and the per-asset totals
over the seeded users, whatever the outcome. -/
theorem createOrder_conserve (s : EngineState) (market : String)
    (price quantity : Rat) (side : Side) (userId orderId : String)
    (hInv : Inv s) :
    Inv (createOrder s market price quantity side userId orderId).1 ∧
    ∀ a, totalOver (createOrder s market price quantity side
        userId orderId).1.balances seeded a =
      totalOver s.balances seeded a := by
  obtain ⟨hbal, hbooks⟩ := hInv
  cases hfind : s.orderbooks.find? (fun o => o.ticker = market) with
  | none =>
    simp only [createOrder, hfind]
    exact ⟨⟨hbal, hbooks⟩, fun a => trivial⟩
  | some ob =>
    have hobmem : ob ∈ s.orderbooks := List.mem_of_find?_eq_some hfind
    have hBook : BookInv ob := hbooks ob hobmem
    have hmarket : ob.ticker = market := by
      have h2 := List.find?_some hfind
      simpa using h2
    have hmarket2 : market = "TATA_INR" := by
      rw [← hmarket, Orderbook.ticker, hBook.1, hBook.2.1]
      decide
    subst hmarket2
    have hb2 : marketPart "TATA_INR" 0 = "TATA" := by decide
    have hq2 : marketPart "TATA_INR" 1 = "INR" := by decide
    cases hchk : checkAndLockFunds s.balances (marketPart "TATA_INR" 0)
        (marketPart "TATA_INR" 1) side userId price quantity with
    | error e =>
      simp only [createOrder, hfind, hchk]
      exact ⟨⟨hbal, hbooks⟩, fun a => trivial⟩
    | ok b₁ =>
      rw [hb2, hq2] at hchk
      obtain ⟨⟨ub0, hub0⟩, hfr1, htot1, hpres1⟩ :=
        checkAndLockFunds_conserve s.balances b₁ "TATA" "INR" side userId
          price quantity hchk
      have huser : userId ∈ seeded :=
        user_mem_seeded s.balances hbal userId ub0 hub0
      have hbal1 : BalInv b₁ :=
        BalInv_preserve s.balances b₁ hbal userId huser hfr1 hpres1
      have htotb1 : ∀ a, totalOver b₁ seeded a = totalOver s.balances seeded a := by
        intro a
        refine totalOver_congr _ _ _ _ ?_
        intro u hu2
        by_cases h : u = userId
        · rw [h]
          exact htot1 a
        · exact entryTotal_congr s.balances b₁ u a
            (entryOf_congr_user s.balances b₁ u (hfr1 u h) a)
      have hBook2 : BookInv (ob.addOrder
          (Order.mk price quantity orderId 0 side userId)).2 := by
        obtain ⟨hf1, hf2⟩ := Orderbook.addOrder_fields ob
          (Order.mk price quantity orderId 0 side userId)
        refine ⟨hf1.trans hBook.1, hf2.trans hBook.2.1, ?_, ?_⟩
        · intro o ho
          rcases Orderbook.addOrder_users ob _ o (Or.inl ho) with h | ⟨o2, ho2, hu2⟩
          · rw [h]
            exact huser
          · rw [hu2]
            rcases ho2 with ho2 | ho2
            · exact hBook.2.2.1 o2 ho2
            · exact hBook.2.2.2 o2 ho2
        · intro o ho
          rcases Orderbook.addOrder_users ob _ o (Or.inr ho) with h | ⟨o2, ho2, hu2⟩
          · rw [h]
            exact huser
          · rw [hu2]
            rcases ho2 with ho2 | ho2
            · exact hBook.2.2.1 o2 ho2
            · exact hBook.2.2.2 o2 ho2
      have hbooks2 : ∀ ob2 ∈ replaceFirst (fun o => o.ticker = "TATA_INR")
          (fun _ => (ob.addOrder
            (Order.mk price quantity orderId 0 side userId)).2)
          s.orderbooks, BookInv ob2 := by
        intro ob2 hob2
        rcases replaceFirst_mem _ _ s.orderbooks ob2 hob2 with h | ⟨y, hy, h2⟩
        · exact hbooks ob2 h
        · rw [h2]
          exact hBook2
      have hfillsH : ∀ f ∈ (ob.addOrder
          (Order.mk price quantity orderId 0 side userId)).1.fills,
          f.otherUserId ∈ seeded ∧ f.otherUserId ≠ userId := by
        intro f hf
        obtain ⟨hne, o2, ho2, hu2⟩ := Orderbook.addOrder_fills_makers ob _ f hf
        refine ⟨?_, hne⟩
        rw [← hu2]
        rcases ho2 with ho2 | ho2
        · exact hBook.2.2.1 o2 ho2
        · exact hBook.2.2.2 o2 ho2
      by_cases hrej : (ob.addOrder
          (Order.mk price quantity orderId 0 side userId)).1.status =
          OrderStatus.REJECTED
      · have hunlock := unlock_lock s.balances b₁ "TATA" "INR" side userId
          price quantity hchk
        simp only [createOrder, hfind, hb2, hq2, hchk, hrej, hunlock, if_true]
        exact ⟨⟨hbal, hbooks2⟩, fun a => trivial⟩
      · obtain ⟨hU1, hU2, hU3, hU4, -⟩ := updateBalance_spec "TATA" "INR"
          (by decide) userId side seeded (by decide) huser
          ((ob.addOrder (Order.mk price quantity orderId 0 side userId)).1.fills)
          b₁ hbal1.2 hfillsH
        simp only [createOrder, hfind, hb2, hq2, hchk, hrej, hU1, if_true,
          if_false]
        refine ⟨⟨?_, hbooks2⟩, ?_⟩
        · constructor
          · intro u hu2
            exact ((hU3 u hu2).trans
              (hfr1 u (fun he => hu2 (he ▸ huser)))).trans (hbal.1 u hu2)
          · exact hU2
        · intro a
          exact (hU4 a).trans (htotb1 a)

end Engine


namespace Engine

/-- One create/cancel command preserves the engine invariant and the
per-asset totals over the seeded users. -/
theorem step_conserve (s : EngineState) (cmd : Command) (hInv : Inv s)
    (hcmd : isBookCmd cmd) :
    Inv (process s cmd).1 ∧
    ∀ a, totalOver (process s cmd).1.balances seeded a =
      totalOver s.balances seeded a := by
  cases cmd with
  | CREATE_ORDER market price quantity side userId orderId =>
    rw [process_create_state]
    exact createOrder_conserve s market price quantity side userId orderId hInv
  | CANCEL_ORDER oid market =>
    obtain ⟨hbal, hbooks⟩ := hInv
    cases hfind : s.orderbooks.find? (fun o => o.ticker = market) with
    | none =>
      simp only [process, hfind]
      exact ⟨⟨hbal, hbooks⟩, fun a => trivial⟩
    | some book =>
      have hBook : BookInv book := hbooks book (List.mem_of_find?_eq_some hfind)
      have hmarket : book.ticker = market := by
        have h2 := List.find?_some hfind
        simpa using h2
      have hmarket2 : market = "TATA_INR" := by
        rw [← hmarket, Orderbook.ticker, hBook.1, hBook.2.1]
        decide
      subst hmarket2
      have hb2 : marketPart "TATA_INR" 0 = "TATA" := by decide
      have hq2 : marketPart "TATA_INR" 1 = "INR" := by decide
      cases hord : (book.asks.find? (fun o => o.orderId = oid) <|>
          book.bids.find? (fun o => o.orderId = oid)) with
      | none =>
        simp only [process, hfind, hord]
        exact ⟨⟨hbal, hbooks⟩, fun a => trivial⟩
      | some order =>
        have hordmem : order ∈ book.asks ∨ order ∈ book.bids := by
          cases h2 : book.asks.find? (fun o => o.orderId = oid) with
          | some o2 =>
            rw [h2] at hord
            simp only [Option.some_orElse, Option.some.injEq] at hord
            exact Or.inl (hord ▸ List.mem_of_find?_eq_some h2)
          | none =>
            rw [h2] at hord
            simp only [Option.none_orElse] at hord
            exact Or.inr (List.mem_of_find?_eq_some hord)
        have huord : order.userId ∈ seeded := by
          rcases hordmem with h | h
          · exact hBook.2.2.2 order h
          · exact hBook.2.2.1 order h
        obtain ⟨op, oq2, ooid, ofl, osd, ou⟩ := order
        simp only at huord
        have hBookB : BookInv (book.cancelBid
            (Order.mk op oq2 ooid ofl osd ou)).2 := by
          obtain ⟨hc1, hc2, -, -⟩ :=
            Orderbook.cancelBid_shape book (Order.mk op oq2 ooid ofl osd ou)
          obtain ⟨hf1, hf2⟩ :=
            Orderbook.cancelBid_fields book (Order.mk op oq2 ooid ofl osd ou)
          refine ⟨hf1.trans hBook.1, hf2.trans hBook.2.1, ?_, ?_⟩
          · intro o ho
            exact hBook.2.2.1 o (hc1.subset ho)
          · intro o ho
            rw [hc2] at ho
            exact hBook.2.2.2 o ho
        have hBookA : BookInv (book.cancelAsk
            (Order.mk op oq2 ooid ofl osd ou)).2 := by
          obtain ⟨hc1, hc2, -, -⟩ :=
            Orderbook.cancelAsk_shape book (Order.mk op oq2 ooid ofl osd ou)
          obtain ⟨hf1, hf2⟩ :=
            Orderbook.cancelAsk_fields book (Order.mk op oq2 ooid ofl osd ou)
          refine ⟨hf1.trans hBook.1, hf2.trans hBook.2.1, ?_, ?_⟩
          · intro o ho
            rw [hc2] at ho
            exact hBook.2.2.1 o ho
          · intro o ho
            exact hBook.2.2.2 o (hc1.subset ho)
        have hbooksB : ∀ ob2 ∈ replaceFirst (fun o => o.ticker = "TATA_INR")
            (fun _ => (book.cancelBid (Order.mk op oq2 ooid ofl osd ou)).2)
            s.orderbooks, BookInv ob2 := by
          intro ob2 hob2
          rcases replaceFirst_mem _ _ s.orderbooks ob2 hob2 with h | ⟨y, hy, h2⟩
          · exact hbooks ob2 h
          · rw [h2]
            exact hBookB
        have hbooksA : ∀ ob2 ∈ replaceFirst (fun o => o.ticker = "TATA_INR")
            (fun _ => (book.cancelAsk (Order.mk op oq2 ooid ofl osd ou)).2)
            s.orderbooks, BookInv ob2 := by
          intro ob2 hob2
          rcases replaceFirst_mem _ _ s.orderbooks ob2 hob2 with h | ⟨y, hy, h2⟩
          · exact hbooks ob2 h
          · rw [h2]
            exact hBookA
        cases osd with
        | buy =>
          cases hbu : s.balances ou with
          | none =>
            simp only [process, hfind, hord, hq2, hbu]
            exact ⟨⟨hbal, hbooksB⟩, fun a => trivial⟩
          | some ub =>
            cases hq3 : ub "INR" with
            | none =>
              simp only [process, hfind, hord, hq2, hbu, hq3]
              exact ⟨⟨hbal, hbooksB⟩, fun a => trivial⟩
            | some entry =>
              obtain ⟨ea, el⟩ := entry
              obtain ⟨hW1, hW2, hW3⟩ := update_entry_conserve s.balances ou
                "INR" ub (AssetBalance.mk ea el)
                (Decimal.add ea
                  (Decimal.multiply (Decimal.subtract oq2 ofl) op))
                (Decimal.subtract el
                  (Decimal.multiply (Decimal.subtract oq2 ofl) op))
                hbu hq3 (by simp [Decimal.add_eq, Decimal.subtract_eq]; try ring)
              simp only [process, hfind, hord, hq2, hbu, hq3]
              refine ⟨⟨BalInv_preserve s.balances _ hbal ou huord hW1 hW3,
                hbooksB⟩, ?_⟩
              intro a
              refine totalOver_congr _ _ _ _ ?_
              intro u hu2
              by_cases h : u = ou
              · rw [h]
                exact hW2 a
              · exact entryTotal_congr s.balances _ u a
                  (entryOf_congr_user s.balances _ u (hW1 u h) a)
        | sell =>
          cases hbu : s.balances ou with
          | none =>
            simp only [process, hfind, hord, hb2, hbu]
            exact ⟨⟨hbal, hbooksA⟩, fun a => trivial⟩
          | some ub =>
            cases hq3 : ub "TATA" with
            | none =>
              simp only [process, hfind, hord, hb2, hbu, hq3]
              exact ⟨⟨hbal, hbooksA⟩, fun a => trivial⟩
            | some entry =>
              obtain ⟨ea, el⟩ := entry
              obtain ⟨hW1, hW2, hW3⟩ := update_entry_conserve s.balances ou
                "TATA" ub (AssetBalance.mk ea el)
                (Decimal.add ea (Decimal.subtract oq2 ofl))
                (Decimal.subtract el (Decimal.subtract oq2 ofl))
                hbu hq3 (by simp [Decimal.add_eq, Decimal.subtract_eq]; try ring)
              simp only [process, hfind, hord, hb2, hbu, hq3]
              refine ⟨⟨BalInv_preserve s.balances _ hbal ou huord hW1 hW3,
                hbooksA⟩, ?_⟩
              intro a
              refine totalOver_congr _ _ _ _ ?_
              intro u hu2
              by_cases h : u = ou
              · rw [h]
                exact hW2 a
              · exact entryTotal_congr s.balances _ u a
                  (entryOf_congr_user s.balances _ u (hW1 u h) a)
  | GET_OPEN_ORDERS market userId => exact hcmd.elim
  | GET_DEPTH market => exact hcmd.elim
  | GET_BALANCE userId => exact hcmd.elim
  | ON_RAMP userId amount => exact hcmd.elim
  | WITHDRAW userId amount txnId => exact hcmd.elim

/-- Folding any create/cancel sequence preserves the invariant and the
per-asset totals over the seeded users. -/
theorem runCommands_conserve :
    ∀ (cmds : List Command) (s : EngineState), Inv s →
      (∀ c ∈ cmds, isBookCmd c) →
      Inv (runCommands s cmds) ∧
      ∀ a, totalOver (runCommands s cmds).balances seeded a =
        totalOver s.balances seeded a
  | [], s => by
    intro hInv hcmds
    exact ⟨hInv, fun a => rfl⟩
  | cmd :: rest, s => by
    intro hInv hcmds
    obtain ⟨h1, h2⟩ := step_conserve s cmd hInv (hcmds cmd (List.mem_cons_self ..))
    obtain ⟨h3, h4⟩ := runCommands_conserve rest (process s cmd).1 h1
      (fun c hc => hcmds c (List.mem_cons_of_mem _ hc))
    rw [runCommands]
    exact ⟨h3, fun a => (h4 a).trans (h2 a)⟩

end Engine


/-- C1. Asset conservation: for every settled fill (buy side and sell side),
the sum of `available + locked` across the taker and the maker is unchanged
for both the base and the quote asset; consequently any command sequence
containing only order creation, matching and cancellation applied to the
fresh engine leaves the per-asset total of `available + locked` summed over
the seeded users exactly unchanged. -/
theorem claim_C1 (b : Balances) (uid base quote : String)
    (fill : Fill) (mub tub : UserBalance)
    (mq mb tq tb : AssetBalance)
    (hmu : b fill.otherUserId = some mub) (hmq : mub quote = some mq)
    (hmb : mub base = some mb)
    (htu : b uid = some tub) (htq : tub quote = some tq)
    (htb : tub base = some tb)
    (hneq : fill.otherUserId ≠ uid) (hba : base ≠ quote)
    (cmds : List Command)
    (hcmds : ∀ c ∈ cmds, Engine.isBookCmd c) :
    (∀ a, a = base ∨ a = quote →
      Engine.entryTotal (Engine.settleFillBuy b uid base quote fill).1 uid a +
        Engine.entryTotal (Engine.settleFillBuy b uid base quote fill).1
          fill.otherUserId a =
      Engine.entryTotal b uid a + Engine.entryTotal b fill.otherUserId a) ∧
    (∀ a, a = base ∨ a = quote →
      Engine.entryTotal (Engine.settleFillSell b uid base quote fill).1 uid a +
        Engine.entryTotal (Engine.settleFillSell b uid base quote fill).1
          fill.otherUserId a =
      Engine.entryTotal b uid a + Engine.entryTotal b fill.otherUserId a) ∧
    (∀ a, Engine.totalOver (Engine.runCommands Engine.freshEngine cmds).balances
        Engine.seeded a =
      Engine.totalOver Engine.freshEngine.balances Engine.seeded a) := by
  obtain ⟨-, hBmq, hBmb, hBtq, hBtb, -, -⟩ :=
    Engine.settleFillBuy_spec b uid base quote fill mub tub mq mb tq tb
      hmu hmq hmb htu htq htb hneq hba
  obtain ⟨-, hSmq, hSmb, hStq, hStb, -, -⟩ :=
    Engine.settleFillSell_spec b uid base quote fill mub tub mq mb tq tb
      hmu hmq hmb htu htq htb hneq hba
  have htqv : Engine.entryTotal b uid quote = tq.available + tq.locked :=
    Engine.entryTotal_of_some _ _ _ _
      (Engine.entryOf_eq_some b uid quote tub tq htu htq)
  have htbv : Engine.entryTotal b uid base = tb.available + tb.locked :=
    Engine.entryTotal_of_some _ _ _ _
      (Engine.entryOf_eq_some b uid base tub tb htu htb)
  have hmqv : Engine.entryTotal b fill.otherUserId quote =
      mq.available + mq.locked :=
    Engine.entryTotal_of_some _ _ _ _
      (Engine.entryOf_eq_some b fill.otherUserId quote mub mq hmu hmq)
  have hmbv : Engine.entryTotal b fill.otherUserId base =
      mb.available + mb.locked :=
    Engine.entryTotal_of_some _ _ _ _
      (Engine.entryOf_eq_some b fill.otherUserId base mub mb hmu hmb)
  have eBtb : Engine.entryTotal (Engine.settleFillBuy b uid base quote fill).1
      uid base = tb.available + fill.qty + tb.locked :=
    Engine.entryTotal_of_some _ _ _ _ hBtb
  have eBtq : Engine.entryTotal (Engine.settleFillBuy b uid base quote fill).1
      uid quote = tq.available + (tq.locked - fill.qty * fill.price) :=
    Engine.entryTotal_of_some _ _ _ _ hBtq
  have eBmb : Engine.entryTotal (Engine.settleFillBuy b uid base quote fill).1
      fill.otherUserId base = mb.available + (mb.locked - fill.qty) :=
    Engine.entryTotal_of_some _ _ _ _ hBmb
  have eBmq : Engine.entryTotal (Engine.settleFillBuy b uid base quote fill).1
      fill.otherUserId quote =
      mq.available + fill.qty * fill.price + mq.locked :=
    Engine.entryTotal_of_some _ _ _ _ hBmq
  have eStb : Engine.entryTotal (Engine.settleFillSell b uid base quote fill).1
      uid base = tb.available + (tb.locked - fill.qty) :=
    Engine.entryTotal_of_some _ _ _ _ hStb
  have eStq : Engine.entryTotal (Engine.settleFillSell b uid base quote fill).1
      uid quote = tq.available + fill.qty * fill.price + tq.locked :=
    Engine.entryTotal_of_some _ _ _ _ hStq
  have eSmb : Engine.entryTotal (Engine.settleFillSell b uid base quote fill).1
      fill.otherUserId base = mb.available + fill.qty + mb.locked :=
    Engine.entryTotal_of_some _ _ _ _ hSmb
  have eSmq : Engine.entryTotal (Engine.settleFillSell b uid base quote fill).1
      fill.otherUserId quote =
      mq.available + (mq.locked - fill.qty * fill.price) :=
    Engine.entryTotal_of_some _ _ _ _ hSmq
  refine ⟨?_, ?_, ?_⟩
  · rintro a (rfl | rfl)
    · rw [eBtb, eBmb, htbv, hmbv]
      ring
    · rw [eBtq, eBmq, htqv, hmqv]
      ring
  · rintro a (rfl | rfl)
    · rw [eStb, eSmb, htbv, hmbv]
      ring
    · rw [eStq, eSmq, htqv, hmqv]
      ring
  · exact (Engine.runCommands_conserve cmds Engine.freshEngine
      Engine.freshEngine_inv hcmds).2

theorem claim_C1_witness :
    Engine.entryTotal (Engine.settleFillBuy Engine.setBaseBalances "1" "TATA"
        "INR" (Fill.mk 2 3 0 "2" "m1")).1 "1" "TATA" +
      Engine.entryTotal (Engine.settleFillBuy Engine.setBaseBalances "1" "TATA"
        "INR" (Fill.mk 2 3 0 "2" "m1")).1 "2" "TATA" =
    Engine.entryTotal Engine.setBaseBalances "1" "TATA" +
      Engine.entryTotal Engine.setBaseBalances "2" "TATA" :=
  (claim_C1 Engine.setBaseBalances "1" "TATA" "INR" (Fill.mk 2 3 0 "2" "m1")
      _ _ _ _ _ _ rfl rfl rfl rfl rfl rfl (by decide) (by decide)
      [] (fun c hc => absurd hc (List.not_mem_nil c))).1 "TATA" (Or.inl rfl)


namespace Engine

/-- Successful buy-side lock: the taker's quote entry moves `q · p` from
`available` to `locked` and nothing else changes. -/
theorem checkAndLockFunds_buy_ok (b : Balances) (base quote u : String)
    (p q : Rat) (ub : UserBalance) (e : AssetBalance)
    (hu : b u = some ub) (hq : ub quote = some e)
    (hfunds : Decimal.isLess e.available (Decimal.multiply q p) = false) :
    checkAndLockFunds b base quote Side.buy u p q =
      .ok (Function.update b u (some (Function.update ub quote
        (some (AssetBalance.mk (e.available - q * p) (e.locked + q * p)))))) := by
  have hlt : ¬ (Decimal.isLess e.available (Decimal.multiply q p) = true) := by
    rw [hfunds]
    exact Bool.false_ne_true
  unfold checkAndLockFunds
  rw [hu]
  simp only [hq, Option.map_some', Option.getD_some]
  rw [if_neg hlt]
  rw [Decimal.subtract_eq, Decimal.add_eq, Decimal.multiply_eq]

/-- Strict bound on the settled quote value when every fill trades strictly
below the limit price. -/
theorem sumFillValue_lt : ∀ (fills : List Fill) (limit : Rat),
    (∀ f ∈ fills, 0 < f.qty) → (∀ f ∈ fills, f.price < limit) → fills ≠ [] →
    sumFillValue fills < (fills.map Fill.qty).sum * limit
  | [], _ => fun _ _ hne => absurd rfl hne
  | f :: rest, limit => by
    intro hq hp _
    have hf := hq f (List.mem_cons_self ..)
    have hfp := hp f (List.mem_cons_self ..)
    have hmul : f.qty * f.price < f.qty * limit :=
      mul_lt_mul_of_pos_left hfp hf
    by_cases hrest : rest = []
    · subst hrest
      simp only [sumFillValue, List.map_cons, List.map_nil, List.sum_cons,
        List.sum_nil, add_zero]
      linarith
    · have IH := sumFillValue_lt rest limit
        (fun g hg => hq g (List.mem_cons_of_mem _ hg))
        (fun g hg => hp g (List.mem_cons_of_mem _ hg)) hrest
      simp only [sumFillValue, List.map_cons, List.sum_cons] at IH ⊢
      rw [show (f.qty + (rest.map Fill.qty).sum) * limit =
        f.qty * limit + (rest.map Fill.qty).sum * limit from by ring]
      linarith

end Engine

/-- C10.  A buy order locks `quantity · limit` of the quote asset; when it is
then fully filled against resting asks all priced strictly below the limit,
settlement debits only `Σ fill.qty · fill.price` from the taker's locked
quote balance.  The command is answered with `ORDER_PLACED`, the taker's
quote entry afterwards holds `locked + (quantity · limit − Σ fills)` with a
strictly positive residue, the order rests on no side of any book, and a
subsequent `CANCEL_ORDER` for it is a silent no-op, so nothing ever returns
the residue to `available`. -/
theorem claim_C10 (s : EngineState) (ob : Orderbook) (price quantity : Rat)
    (userId orderId : String) (tub : UserBalance) (tq : AssetBalance)
    (hbooks : s.orderbooks = [ob])
    (hbase : ob.baseAsset = "TATA") (hquote : ob.quoteAsset = "INR")
    (hst : (ob.wouldSelfTrade (Order.mk price quantity orderId 0 Side.buy userId)).1 = false)
    (htu : s.balances userId = some tub) (htq : tub "INR" = some tq)
    (hfunds : Decimal.isLess tq.available (Decimal.multiply quantity price) = false)
    (hqpos : 0 < quantity)
    (huid : userId ∈ Engine.seeded)
    (hpres : ∀ u ∈ Engine.seeded,
      (∃ e, Engine.entryOf s.balances u "INR" = some e) ∧
      (∃ e, Engine.entryOf s.balances u "TATA" = some e))
    (hmakers : ∀ o ∈ ob.asks, o.userId ∈ Engine.seeded)
    (hpos : PosBook ob.asks)
    (hbelow : ∀ o ∈ ob.asks, o.price < price)
    (hfreshB : ∀ o ∈ ob.bids, o.orderId ≠ orderId)
    (hfreshA : ∀ o ∈ ob.asks, o.orderId ≠ orderId)
    (hfull : (Orderbook.matchLoop userId Side.buy price quantity ob.asks ob.asksDepth ob.lastTradeId ob.currentPrice).executedQty = quantity) :
    (Engine.process s (Command.CREATE_ORDER "TATA_INR" price quantity Side.buy userId orderId)).2 =
      [ResultMsg.ORDER_PLACED orderId quantity (Orderbook.matchLoop userId Side.buy price quantity ob.asks ob.asksDepth ob.lastTradeId ob.currentPrice).fills] ∧
    Engine.entryOf (Engine.process s (Command.CREATE_ORDER "TATA_INR" price quantity Side.buy userId orderId)).1.balances userId "INR" =
      some (AssetBalance.mk (tq.available - quantity * price)
        (tq.locked + (quantity * price - Engine.sumFillValue (Orderbook.matchLoop userId Side.buy price quantity ob.asks ob.asksDepth ob.lastTradeId ob.currentPrice).fills))) ∧
    0 < quantity * price - Engine.sumFillValue (Orderbook.matchLoop userId Side.buy price quantity ob.asks ob.asksDepth ob.lastTradeId ob.currentPrice).fills ∧
    (∀ ob2 ∈ (Engine.process s (Command.CREATE_ORDER "TATA_INR" price quantity Side.buy userId orderId)).1.orderbooks,
      (∀ o ∈ ob2.bids, o.orderId ≠ orderId) ∧
      (∀ o ∈ ob2.asks, o.orderId ≠ orderId)) ∧
    Engine.process (Engine.process s (Command.CREATE_ORDER "TATA_INR" price quantity Side.buy userId orderId)).1
        (Command.CANCEL_ORDER orderId "TATA_INR") =
      ((Engine.process s (Command.CREATE_ORDER "TATA_INR" price quantity Side.buy userId orderId)).1, []) := by
  have hmarket : ob.ticker = "TATA_INR" := by
    rw [Orderbook.ticker, hbase, hquote]
    decide
  have hfind : s.orderbooks.find? (fun o => o.ticker = "TATA_INR") = some ob := by
    rw [hbooks]
    exact List.find?_cons_of_pos _ (by simp [hmarket])
  have hb2 : marketPart "TATA_INR" 0 = "TATA" := by decide
  have hq2 : marketPart "TATA_INR" 1 = "INR" := by decide
  have hlock := Engine.checkAndLockFunds_buy_ok s.balances "TATA" "INR" userId
    price quantity tub tq htu htq hfunds
  have hclean2 : ob.addOrder (Order.mk price quantity orderId 0 Side.buy userId) = ob.addOrderAfterStp (Order.mk price quantity orderId 0 Side.buy userId) :=
    Orderbook.addOrder_clean ob (Order.mk price quantity orderId 0 Side.buy userId) hst
  obtain ⟨hob2, har1⟩ := Orderbook.addOrderAfterStp_buy_spec ob (Order.mk price quantity orderId 0 Side.buy userId) rfl (Orderbook.matchLoop userId Side.buy price quantity ob.asks ob.asksDepth ob.lastTradeId ob.currentPrice) rfl
  have hnotlt : ¬ ((Orderbook.matchLoop userId Side.buy price quantity ob.asks ob.asksDepth ob.lastTradeId ob.currentPrice).executedQty < (Order.mk price quantity orderId 0 Side.buy userId).quantity) := by
    rw [hfull]
    exact lt_irrefl quantity
  rw [if_neg hnotlt] at hob2 har1
  have hstat : (ob.addOrder (Order.mk price quantity orderId 0 Side.buy userId)).1.status = OrderStatus.ACCEPTED := by
    rw [hclean2, har1]
  have hexec : (ob.addOrder (Order.mk price quantity orderId 0 Side.buy userId)).1.executedQty = (Orderbook.matchLoop userId Side.buy price quantity ob.asks ob.asksDepth ob.lastTradeId ob.currentPrice).executedQty := by
    rw [hclean2, har1]
  have hfills : (ob.addOrder (Order.mk price quantity orderId 0 Side.buy userId)).1.fills = (Orderbook.matchLoop userId Side.buy price quantity ob.asks ob.asksDepth ob.lastTradeId ob.currentPrice).fills := by
    rw [hclean2, har1]
  have hrej : ¬ ((ob.addOrder (Order.mk price quantity orderId 0 Side.buy userId)).1.status = OrderStatus.REJECTED) := by
    rw [hstat]
    decide
  have hbids2 : (ob.addOrder (Order.mk price quantity orderId 0 Side.buy userId)).2.bids = ob.bids := by
    rw [hclean2, hob2]
  have hasks2 : (ob.addOrder (Order.mk price quantity orderId 0 Side.buy userId)).2.asks = (Orderbook.matchLoop userId Side.buy price quantity ob.asks ob.asksDepth ob.lastTradeId ob.currentPrice).book := by
    rw [hclean2, hob2]
  have hb1u : (Function.update s.balances userId (some (Function.update tub "INR" (some (AssetBalance.mk (tq.available - quantity * price) (tq.locked + quantity * price)))))) userId = some (Function.update tub "INR" (some (AssetBalance.mk (tq.available - quantity * price) (tq.locked + quantity * price)))) := by
    rw [Function.update_apply, if_pos rfl]
  have he2 : Engine.entryOf (Function.update s.balances userId (some (Function.update tub "INR" (some (AssetBalance.mk (tq.available - quantity * price) (tq.locked + quantity * price)))))) userId "INR" = some (AssetBalance.mk (tq.available - quantity * price) (tq.locked + quantity * price)) := by
    simp only [Engine.entryOf, hb1u]
    rw [Function.update_apply, if_pos rfl]
  obtain ⟨e3, he3s⟩ := (hpres userId huid).2
  have htub3 : tub "TATA" = some e3 := by
    simpa [Engine.entryOf, htu] using he3s
  have he3 : Engine.entryOf (Function.update s.balances userId (some (Function.update tub "INR" (some (AssetBalance.mk (tq.available - quantity * price) (tq.locked + quantity * price)))))) userId "TATA" = some e3 := by
    simp only [Engine.entryOf, hb1u]
    rw [Function.update_apply, if_neg (by decide : ¬ ("TATA" : String) = "INR")]
    exact htub3
  have hframe1 : ∀ u, u ≠ userId → (Function.update s.balances userId (some (Function.update tub "INR" (some (AssetBalance.mk (tq.available - quantity * price) (tq.locked + quantity * price)))))) u = s.balances u := by
    intro u hu
    rw [Function.update_apply, if_neg hu]
  have hpres1 : ∀ u ∈ Engine.seeded,
      (∃ e, Engine.entryOf (Function.update s.balances userId (some (Function.update tub "INR" (some (AssetBalance.mk (tq.available - quantity * price) (tq.locked + quantity * price)))))) u "INR" = some e) ∧
      (∃ e, Engine.entryOf (Function.update s.balances userId (some (Function.update tub "INR" (some (AssetBalance.mk (tq.available - quantity * price) (tq.locked + quantity * price)))))) u "TATA" = some e) := by
    intro u hu
    by_cases h : u = userId
    · subst h
      exact ⟨⟨_, he2⟩, ⟨e3, he3⟩⟩
    · have hcong := Engine.entryOf_congr_user s.balances (Function.update s.balances userId (some (Function.update tub "INR" (some (AssetBalance.mk (tq.available - quantity * price) (tq.locked + quantity * price)))))) u (hframe1 u h)
      obtain ⟨⟨ea, hea⟩, ⟨eb, heb⟩⟩ := hpres u hu
      exact ⟨⟨ea, (hcong "INR").trans hea⟩, ⟨eb, (hcong "TATA").trans heb⟩⟩
  have hfillsOK : ∀ f ∈ (Orderbook.matchLoop userId Side.buy price quantity ob.asks ob.asksDepth ob.lastTradeId ob.currentPrice).fills,
      f.otherUserId ∈ Engine.seeded ∧ f.otherUserId ≠ userId := by
    intro f hf
    obtain ⟨⟨o, ho, -, -, huo, hne⟩, -⟩ :=
      Orderbook.matchLoop_fills_maker userId Side.buy price quantity ob.asks
        ob.asksDepth ob.lastTradeId ob.currentPrice f hf
    refine ⟨?_, ?_⟩
    · rw [← huo]
      exact hmakers o ho
    · rw [← huo]
      exact hne
  obtain ⟨hU1, hU2, hU3, hU4, hU5⟩ := Engine.updateBalance_spec "TATA" "INR"
    (by decide) userId Side.buy Engine.seeded (by decide) huid (Orderbook.matchLoop userId Side.buy price quantity ob.asks ob.asksDepth ob.lastTradeId ob.currentPrice).fills (Function.update s.balances userId (some (Function.update tub "INR" (some (AssetBalance.mk (tq.available - quantity * price) (tq.locked + quantity * price))))))
    hpres1 hfillsOK
  have hproc : Engine.process s (Command.CREATE_ORDER "TATA_INR" price quantity Side.buy userId orderId) =
      (EngineState.mk (Engine.replaceFirst (fun o => o.ticker = "TATA_INR")
          (fun _ => (ob.addOrder (Order.mk price quantity orderId 0 Side.buy userId)).2) s.orderbooks)
        (Engine.updateBalance (Function.update s.balances userId (some (Function.update tub "INR" (some (AssetBalance.mk (tq.available - quantity * price) (tq.locked + quantity * price)))))) userId "TATA" "INR" Side.buy (Orderbook.matchLoop userId Side.buy price quantity ob.asks ob.asksDepth ob.lastTradeId ob.currentPrice).fills).1,
       [ResultMsg.ORDER_PLACED orderId (Orderbook.matchLoop userId Side.buy price quantity ob.asks ob.asksDepth ob.lastTradeId ob.currentPrice).executedQty (Orderbook.matchLoop userId Side.buy price quantity ob.asks ob.asksDepth ob.lastTradeId ob.currentPrice).fills]) := by
    simp only [Engine.process, Engine.createOrder, hfind, hb2, hq2, hlock,
      hrej, if_false, hfills, hU1, if_true, hexec]
  have hqsum : ((Orderbook.matchLoop userId Side.buy price quantity ob.asks ob.asksDepth ob.lastTradeId ob.currentPrice).fills.map Fill.qty).sum = quantity :=
    (Orderbook.matchLoop_executedQty userId Side.buy price quantity ob.asks
      ob.asksDepth ob.lastTradeId ob.currentPrice).symm.trans hfull
  have hne : (Orderbook.matchLoop userId Side.buy price quantity ob.asks ob.asksDepth ob.lastTradeId ob.currentPrice).fills ≠ [] := by
    intro h
    rw [h] at hqsum
    simp only [List.map_nil, List.sum_nil] at hqsum
    rw [← hqsum] at hqpos
    exact lt_irrefl 0 hqpos
  have hqlt : ∀ f ∈ (Orderbook.matchLoop userId Side.buy price quantity ob.asks ob.asksDepth ob.lastTradeId ob.currentPrice).fills, 0 < f.qty :=
    Orderbook.matchLoop_fills_qty_pos userId Side.buy price quantity ob.asks
      ob.asksDepth ob.lastTradeId ob.currentPrice hpos
  have hplt : ∀ f ∈ (Orderbook.matchLoop userId Side.buy price quantity ob.asks ob.asksDepth ob.lastTradeId ob.currentPrice).fills, f.price < price := by
    intro f hf
    obtain ⟨⟨o, ho, -, hpeq, -, -⟩, -⟩ :=
      Orderbook.matchLoop_fills_maker userId Side.buy price quantity ob.asks
        ob.asksDepth ob.lastTradeId ob.currentPrice f hf
    rw [← hpeq]
    exact hbelow o ho
  have hres : Engine.sumFillValue (Orderbook.matchLoop userId Side.buy price quantity ob.asks ob.asksDepth ob.lastTradeId ob.currentPrice).fills < quantity * price := by
    have h9 := Engine.sumFillValue_lt (Orderbook.matchLoop userId Side.buy price quantity ob.asks ob.asksDepth ob.lastTradeId ob.currentPrice).fills price hqlt hplt hne
    rw [hqsum] at h9
    exact h9
  have hfinal : Engine.entryOf (Engine.updateBalance (Function.update s.balances userId (some (Function.update tub "INR" (some (AssetBalance.mk (tq.available - quantity * price) (tq.locked + quantity * price)))))) userId "TATA" "INR"
      Side.buy (Orderbook.matchLoop userId Side.buy price quantity ob.asks ob.asksDepth ob.lastTradeId ob.currentPrice).fills).1 userId "INR" =
      some (AssetBalance.mk (tq.available - quantity * price)
        (tq.locked + (quantity * price - Engine.sumFillValue (Orderbook.matchLoop userId Side.buy price quantity ob.asks ob.asksDepth ob.lastTradeId ob.currentPrice).fills))) := by
    have h5 := hU5 (AssetBalance.mk (tq.available - quantity * price) (tq.locked + quantity * price)) he2
    simp only at h5
    refine h5.trans ?_
    show some (AssetBalance.mk (tq.available - quantity * price)
      (tq.locked + quantity * price - Engine.sumFillValue (Orderbook.matchLoop userId Side.buy price quantity ob.asks ob.asksDepth ob.lastTradeId ob.currentPrice).fills)) = _
    rw [show tq.locked + quantity * price - Engine.sumFillValue (Orderbook.matchLoop userId Side.buy price quantity ob.asks ob.asksDepth ob.lastTradeId ob.currentPrice).fills =
      tq.locked + (quantity * price - Engine.sumFillValue (Orderbook.matchLoop userId Side.buy price quantity ob.asks ob.asksDepth ob.lastTradeId ob.currentPrice).fills) from by ring]
  have hbooks2 : Engine.replaceFirst (fun o => o.ticker = "TATA_INR")
      (fun _ => (ob.addOrder (Order.mk price quantity orderId 0 Side.buy userId)).2) s.orderbooks =
      [(ob.addOrder (Order.mk price quantity orderId 0 Side.buy userId)).2] := by
    rw [hbooks]
    simp [Engine.replaceFirst, hmarket]
  have hticker2 : (ob.addOrder (Order.mk price quantity orderId 0 Side.buy userId)).2.ticker = "TATA_INR" := by
    obtain ⟨hf1, hf2⟩ := Orderbook.addOrder_fields ob (Order.mk price quantity orderId 0 Side.buy userId)
    rw [Orderbook.ticker, hf1, hf2, hbase, hquote]
    decide
  have hnotB2 : ∀ o ∈ (ob.addOrder (Order.mk price quantity orderId 0 Side.buy userId)).2.bids, o.orderId ≠ orderId := by
    rw [hbids2]
    exact hfreshB
  have hnotA2 : ∀ o ∈ (ob.addOrder (Order.mk price quantity orderId 0 Side.buy userId)).2.asks, o.orderId ≠ orderId := by
    intro o ho
    rw [hasks2] at ho
    obtain ⟨o2, ho2, -, hid, -⟩ := Orderbook.matchLoop_book_mem userId Side.buy
      price quantity ob.asks ob.asksDepth ob.lastTradeId ob.currentPrice o ho
    rw [hid]
    exact hfreshA o2 ho2
  have hfind2 : ([(ob.addOrder (Order.mk price quantity orderId 0 Side.buy userId)).2]).find? (fun o => o.ticker = "TATA_INR") =
      some ((ob.addOrder (Order.mk price quantity orderId 0 Side.buy userId)).2) :=
    List.find?_cons_of_pos _ (by simp [hticker2])
  have hfA : (ob.addOrder (Order.mk price quantity orderId 0 Side.buy userId)).2.asks.find? (fun o => o.orderId = orderId) =
      none :=
    List.find?_eq_none.mpr (by
      intro x hx
      simpa using hnotA2 x hx)
  have hfB : (ob.addOrder (Order.mk price quantity orderId 0 Side.buy userId)).2.bids.find? (fun o => o.orderId = orderId) =
      none :=
    List.find?_eq_none.mpr (by
      intro x hx
      simpa using hnotB2 x hx)
  have hford : ((ob.addOrder (Order.mk price quantity orderId 0 Side.buy userId)).2.asks.find? (fun o => o.orderId = orderId) <|>
      (ob.addOrder (Order.mk price quantity orderId 0 Side.buy userId)).2.bids.find? (fun o => o.orderId = orderId)) = none := by
    rw [hfA, hfB]
    rfl
  have horbs : (Engine.process s (Command.CREATE_ORDER "TATA_INR" price quantity Side.buy userId orderId)).1.orderbooks =
      [(ob.addOrder (Order.mk price quantity orderId 0 Side.buy userId)).2] := by
    rw [hproc]
    exact hbooks2
  have hP : (Engine.process s (Command.CREATE_ORDER "TATA_INR" price quantity Side.buy userId orderId)).1 =
      EngineState.mk [(ob.addOrder (Order.mk price quantity orderId 0 Side.buy userId)).2]
        (Engine.updateBalance (Function.update s.balances userId (some (Function.update tub "INR" (some (AssetBalance.mk (tq.available - quantity * price) (tq.locked + quantity * price)))))) userId "TATA" "INR" Side.buy (Orderbook.matchLoop userId Side.buy price quantity ob.asks ob.asksDepth ob.lastTradeId ob.currentPrice).fills).1 := by
    rw [hproc]
    show EngineState.mk (Engine.replaceFirst (fun o => o.ticker = "TATA_INR")
        (fun _ => (ob.addOrder (Order.mk price quantity orderId 0 Side.buy userId)).2) s.orderbooks)
      (Engine.updateBalance (Function.update s.balances userId (some (Function.update tub "INR" (some (AssetBalance.mk (tq.available - quantity * price) (tq.locked + quantity * price)))))) userId "TATA" "INR" Side.buy (Orderbook.matchLoop userId Side.buy price quantity ob.asks ob.asksDepth ob.lastTradeId ob.currentPrice).fills).1 = _
    rw [hbooks2]
  refine ⟨?_, ?_, ?_, ?_, ?_⟩
  · rw [hproc, hfull]
  · rw [hproc]
    exact hfinal
  · linarith [hres]
  · intro ob2 hob2
    rw [horbs] at hob2
    obtain rfl := List.mem_singleton.mp hob2
    exact ⟨hnotB2, hnotA2⟩
  · rw [hP]
    simp only [Engine.process, hfind2, hford]

def c10Ob : Orderbook :=
  Orderbook.create "TATA" [] [⟨90, 5, "a1", 0, Side.sell, "2"⟩] 0 0

def c10State : EngineState := EngineState.mk [c10Ob] Engine.setBaseBalances

theorem claim_C10_witness :
    0 < (5 : Rat) * 100 - Engine.sumFillValue
      (Orderbook.matchLoop "1" Side.buy 100 5 c10Ob.asks c10Ob.asksDepth
        c10Ob.lastTradeId c10Ob.currentPrice).fills :=
  (claim_C10 c10State c10Ob 100 5 "1" "b1" _ _ rfl rfl rfl (by decide) rfl rfl
    (by decide) (by decide) (by decide)
    (by
      intro u hu
      simp only [Engine.seeded, List.mem_cons, List.not_mem_nil, or_false] at hu
      rcases hu with rfl | rfl | rfl
      · exact ⟨⟨_, rfl⟩, ⟨_, rfl⟩⟩
      · exact ⟨⟨_, rfl⟩, ⟨_, rfl⟩⟩
      · exact ⟨⟨_, rfl⟩, ⟨_, rfl⟩⟩)
    (by decide) (by decide) (by decide) (by decide) (by decide)
    (by decide)).2.2.1


namespace Engine

/-- Buy-side lock when the guard trips: `Insufficient funds`, no state
returned. -/
theorem checkAndLockFunds_buy_insufficient (b : Balances) (base quote u : String)
    (p q : Rat) (ub : UserBalance) (e : AssetBalance)
    (hu : b u = some ub) (hq : ub quote = some e)
    (hfunds : Decimal.isLess e.available (Decimal.multiply q p) = true) :
    checkAndLockFunds b base quote Side.buy u p q =
      .error "Insufficient funds" := by
  unfold checkAndLockFunds
  rw [hu]
  simp only [hq, Option.map_some', Option.getD_some]
  rw [if_pos hfunds]

/-- Successful sell-side lock: the base entry moves `q` from `available` to
`locked`. -/
theorem checkAndLockFunds_sell_ok (b : Balances) (base quote u : String)
    (p q : Rat) (ub : UserBalance) (e : AssetBalance)
    (hu : b u = some ub) (hq : ub base = some e)
    (hfunds : Decimal.isLess e.available q = false) :
    checkAndLockFunds b base quote Side.sell u p q =
      .ok (Function.update b u (some (Function.update ub base
        (some (AssetBalance.mk (e.available - q) (e.locked + q)))))) := by
  have hlt : ¬ (Decimal.isLess e.available q = true) := by
    rw [hfunds]
    exact Bool.false_ne_true
  unfold checkAndLockFunds
  rw [hu]
  simp only [hq, Option.map_some', Option.getD_some]
  rw [if_neg hlt]
  rw [Decimal.subtract_eq, Decimal.add_eq]

/-- Sell-side lock when the guard trips. -/
theorem checkAndLockFunds_sell_insufficient (b : Balances) (base quote u : String)
    (p q : Rat) (ub : UserBalance) (e : AssetBalance)
    (hu : b u = some ub) (hq : ub base = some e)
    (hfunds : Decimal.isLess e.available q = true) :
    checkAndLockFunds b base quote Side.sell u p q =
      .error "Insufficient funds" := by
  unfold checkAndLockFunds
  rw [hu]
  simp only [hq, Option.map_some', Option.getD_some]
  rw [if_pos hfunds]

end Engine

/-- C4.  Primitive-level non-negativity of the ledger mutations.  A
successful buy (resp. sell) lock leaves the debited entry at
`available − q·p ≥ 0` (resp. `available − q ≥ 0`) — the guard makes the
debit safe — and leaves `locked` non-negative whenever it was and the
amounts are non-negative, touching no other user.  A successful withdraw
pays out `available − amount ≥ 0` and leaves `locked` untouched.  An
on-ramp of a non-negative amount creates `⟨amount, 0⟩` or adds to
`available`, so it preserves non-negativity — but nothing checks the sign
of the on-ramped amount itself (see the counterexample). -/
theorem claim_C4 :
    (∀ (b : Balances) (base quote u : String) (p q : Rat) (ub : UserBalance)
        (e : AssetBalance) (b₁ : Balances),
      b u = some ub → ub quote = some e → 0 ≤ e.locked → 0 ≤ p → 0 ≤ q →
      Engine.checkAndLockFunds b base quote Side.buy u p q = Except.ok b₁ →
      Engine.entryOf b₁ u quote =
        some (AssetBalance.mk (e.available - q * p) (e.locked + q * p)) ∧
      0 ≤ e.available - q * p ∧ 0 ≤ e.locked + q * p ∧
      (∀ u2, u2 ≠ u → b₁ u2 = b u2)) ∧
    (∀ (b : Balances) (base quote u : String) (p q : Rat) (ub : UserBalance)
        (e : AssetBalance) (b₁ : Balances),
      b u = some ub → ub base = some e → 0 ≤ e.locked → 0 ≤ q →
      Engine.checkAndLockFunds b base quote Side.sell u p q = Except.ok b₁ →
      Engine.entryOf b₁ u base =
        some (AssetBalance.mk (e.available - q) (e.locked + q)) ∧
      0 ≤ e.available - q ∧ 0 ≤ e.locked + q ∧
      (∀ u2, u2 ≠ u → b₁ u2 = b u2)) ∧
    (∀ (b : Balances) (u : String) (amt : Rat) (b₁ : Balances) (v : Rat),
      Engine.withdraw b u amt = Except.ok (b₁, v) →
      0 ≤ v ∧ ∃ e, Engine.entryOf b u BASE_CURRENCY = some e ∧
        Engine.entryOf b₁ u BASE_CURRENCY = some (AssetBalance.mk v e.locked) ∧
        v = e.available - amt ∧ (∀ u2, u2 ≠ u → b₁ u2 = b u2)) ∧
    (∀ (b : Balances) (u : String) (amt : Rat), 0 ≤ amt →
      (Engine.entryOf b u BASE_CURRENCY = none →
        Engine.entryOf (Engine.onRamp b u amt) u BASE_CURRENCY =
          some (AssetBalance.mk amt 0)) ∧
      (∀ e, Engine.entryOf b u BASE_CURRENCY = some e →
        Engine.entryOf (Engine.onRamp b u amt) u BASE_CURRENCY =
          some (AssetBalance.mk (e.available + amt) e.locked))) := by
  refine ⟨?_, ?_, ?_, ?_⟩
  · intro b base quote u p q ub e b₁ hu hq hl0 hp0 hq0 h
    cases hfunds : Decimal.isLess e.available (Decimal.multiply q p) with
    | true =>
      rw [Engine.checkAndLockFunds_buy_insufficient b base quote u p q ub e
        hu hq hfunds] at h
      exact absurd h (by simp)
    | false =>
      rw [Engine.checkAndLockFunds_buy_ok b base quote u p q ub e
        hu hq hfunds] at h
      obtain rfl := (Except.ok.inj h).symm
      have hguard : ¬ (e.available < q * p) := by
        simpa [Decimal.isLess, Decimal.multiply_eq] using hfunds
      refine ⟨?_, by linarith, ?_, ?_⟩
      · simp [Engine.entryOf, Function.update_apply]
      · have := mul_nonneg hq0 hp0
        linarith
      · intro u2 hne
        rw [Function.update_apply, if_neg hne]
  · intro b base quote u p q ub e b₁ hu hq hl0 hq0 h
    cases hfunds : Decimal.isLess e.available q with
    | true =>
      rw [Engine.checkAndLockFunds_sell_insufficient b base quote u p q ub e
        hu hq hfunds] at h
      exact absurd h (by simp)
    | false =>
      rw [Engine.checkAndLockFunds_sell_ok b base quote u p q ub e
        hu hq hfunds] at h
      obtain rfl := (Except.ok.inj h).symm
      have hguard : ¬ (e.available < q) := by
        simpa [Decimal.isLess] using hfunds
      refine ⟨?_, by linarith, by linarith, ?_⟩
      · simp [Engine.entryOf, Function.update_apply]
      · intro u2 hne
        rw [Function.update_apply, if_neg hne]
  · intro b u amt b₁ v h
    unfold Engine.withdraw at h
    cases hbu : b u with
    | none =>
      rw [hbu] at h
      exact absurd h (by simp)
    | some ub =>
      rw [hbu] at h
      simp only at h
      cases hqb : ub BASE_CURRENCY with
      | none =>
        rw [hqb] at h
        exact absurd h (by simp)
      | some e =>
        rw [hqb] at h
        simp only at h
        cases hfunds : Decimal.isLess e.available amt with
        | true =>
          rw [hfunds] at h
          exact absurd h (by simp)
        | false =>
          rw [hfunds] at h
          rw [if_neg Bool.false_ne_true] at h
          have h2 := Except.ok.inj h
          rw [Prod.mk.injEq] at h2
          obtain ⟨hb, hv⟩ := h2
          subst hb
          subst hv
          have hguard : ¬ (e.available < amt) := by
            simpa [Decimal.isLess] using hfunds
          refine ⟨by rw [Decimal.subtract_eq]; linarith, e,
            Engine.entryOf_eq_some b u BASE_CURRENCY ub e hbu hqb, ?_, ?_, ?_⟩
          · simp [Engine.entryOf, Function.update_apply]
          · rw [Decimal.subtract_eq]
          · intro u2 hne
            rw [Function.update_apply, if_neg hne]
  · intro b u amt hamt
    unfold Engine.onRamp
    cases hbu : b u with
    | none =>
      constructor
      · intro h
        simp [Engine.entryOf, Function.update_apply]
      · intro e he
        rw [show Engine.entryOf b u BASE_CURRENCY = none from by
          simp [Engine.entryOf, hbu]] at he
        exact absurd he (by simp)
    | some ub =>
      cases hqb : ub BASE_CURRENCY with
      | none =>
        constructor
        · intro h
          simp [Engine.entryOf, Function.update_apply, hqb]
        · intro e he
          rw [show Engine.entryOf b u BASE_CURRENCY = none from by
            simp [Engine.entryOf, hbu, hqb]] at he
          exact absurd he (by simp)
      | some e2 =>
        constructor
        · intro h
          rw [show Engine.entryOf b u BASE_CURRENCY = some e2 from by
            simp [Engine.entryOf, hbu, hqb]] at h
          exact absurd h (by simp)
        · intro e he
          rw [show Engine.entryOf b u BASE_CURRENCY = some e2 from by
            simp [Engine.entryOf, hbu, hqb]] at he
          obtain rfl := Option.some.inj he
          simp [Engine.entryOf, Function.update_apply, Decimal.add_eq, hqb]

theorem claim_C4_witness :
    Engine.entryOf (Engine.onRamp Engine.setBaseBalances "1" 5) "1"
        BASE_CURRENCY =
      some (AssetBalance.mk (1000000 + 5) 0) :=
  (claim_C4.2.2.2 Engine.setBaseBalances "1" 5 (by decide)).2
    (AssetBalance.mk 1000000 0) rfl

end ExchangeOs
